import Mathlib

/-!
# Titan: node-local block ingestion pipeline and scheduler-side carfile record

A shallow embedding of

* `node/block/block.go`: the carfile wait list, the batch loop `doLoadBlock`,
  the retrying loader `loadBlocks`, the filter step `filterAvailableReq`,
  `RemoveWaitCacheBlockWith`, `DeleteBlocks` and `QueryCacheStat`;
* `node/download/block_download.go`: the handler `getBlock` and `resultFailed`;
* `node/scheduler/data/data.go`: `existRootCache`, `updateAndSaveCacheingInfo`,
  `updateAndSaveCacheEndInfo`, `getUndoneCache`, `dispatchCache` and `cacheEnd`;
* `node/scheduler/db/persistent/sql.go`: `CreateCache`, `SaveCacheEndResults`,
  `SaveCacheingResults`, `GetBlocksWithHash`, `GetUndoneBlocks`,
  `GetNodesFromDataCache`, `UpdateCacheInfoOfQuitNode`, `IsNilErr` and
  `ReplaceArea`, over the three tables of an area as lists of rows: an
  `UPDATE ... WHERE` rewrites the rows that match, a `SELECT` returns the rows
  that match in an order the server chooses;
* `node/scheduler/db/cache/redis.go`: `IncrNodeCacheFid`,
  `SetDataTaskToRunningList` and `SetRunningDataTask`, over the keys they
  touch.

Go pointers become values passed explicitly, the linked list `container/list`
becomes a `List`, a Go error is `none` (for `nil`) or `some msg`, and every
collaborator that lives outside these files (the block store, the datastore
index, the CID library, the block loader strategy, the scheduler RPC, the SQL
and Redis back ends) is a field of an environment record. A Go `int` is an
integer (the counts and reliabilities at hand stay far from the 64-bit bounds);
the `uint64` sum `linksSize` is taken modulo `2 ^ 64`. The code runs
sequentially: one call at a time, nothing added to the wait list meanwhile.
-/

namespace Titan

/-! ## Part I. Definitions -/

/-! ### Node side: data model (`api/api_block.go`, `node/block/block.go`) -/

/-- Go `api.BlockCacheInfo`: one placement, a CID with the FID reserved for it. -/
structure BlockCacheInfo where
  Cid : String
  Fid : Int
deriving DecidableEq, Repr

/-- Go `api.ReqCacheData`: one cache request of the scheduler for one carfile. -/
structure ReqCacheData where
  BlockInfos : List BlockCacheInfo
  DownloadURL : String
  DownloadToken : String
  CardFileHash : String
  CacheID : String
deriving DecidableEq, Repr

/-- Go `delayReq`: a pending placement with its retry count. -/
structure delayReq where
  blockInfo : BlockCacheInfo
  count : Int
  downloadURL : String
  downloadToken : String
  carFileHash : String
  CacheID : String
deriving DecidableEq, Repr

/-- Go `blockStat`: what `cacheResult` reports about one block. `linksSize` is a
`uint64`, kept as a natural number below `2 ^ 64`. -/
structure blockStat where
  cid : String
  links : List String
  blockSize : Int
  linksSize : Nat
  carFileHash : String
  CacheID : String
deriving DecidableEq, Repr

/-- Go `api.CacheResultInfo`, the argument of the scheduler RPC `CacheResult`,
with the fields that `Block.cacheResult` fills in. -/
structure CacheResultInfo where
  Cid : String
  IsOK : Bool
  Msg : String
  From : String
  Links : List String
  BlockSize : Int
  LinksSize : Nat
  CarFileHash : String
  CacheID : String
deriving DecidableEq, Repr

/-- Go `api.CacheStat` without `DiskUsage` (a `float64` copied from the device
information, which no definition below computes with). -/
structure CacheStat where
  CacheBlockCount : Int
  WaitCacheBlockNum : Int
  DoingCacheBlockNum : Int
  RetryNum : Int
  DownloadTimeout : Int
deriving DecidableEq, Repr

/-- A `format.Link` of go-ipld-format as far as the pipeline reads it: the string
form of the child CID and the declared cumulative size, a `uint64`. -/
structure Link where
  Cid : String
  Size : Nat
deriving DecidableEq, Repr

/-- A `blocks.Block` of go-block-format: `cid` is `b.Cid().String()` and
`rawData` is `b.RawData()`. -/
structure IpfsBlock where
  cid : String
  rawData : List UInt8
deriving DecidableEq, Repr

/-- Modelled from the spec: the type `carfile` of package `block` is declared in
a file that is not part of the sources at hand; only its uses in `block.go` are.
It is an entry of the list of carfiles in progress: the carfile hash and the
ordered pending placements (its mutex is left out). -/
structure carfile where
  carfileHash : String
  delayReqs : List delayReq
deriving DecidableEq, Repr

/-- Modelled from the spec: `carfile.addReq` is not part of the sources at hand.
"Appending a request for a carfile already present appends its placements to
that entry." -/
def carfile.addReq (cf : carfile) (reqs : List delayReq) : carfile :=
  { cf with delayReqs := cf.delayReqs ++ reqs }

/-- Modelled from the spec: `carfile.removeReq` is not part of the sources at
hand. "Within one entry the worker pulls up to `BatchSize` placements at a
time": the first `len` pending placements are taken off the entry and returned. -/
def carfile.removeReq (cf : carfile) (len : Nat) : List delayReq × carfile :=
  (cf.delayReqs.take len, { cf with delayReqs := cf.delayReqs.drop len })

/-- The collaborators of `Block` over a node-local state `σ` (block store,
datastore index, network): constants of package `helper`, the CID library, the
methods of `Block` defined outside `block.go`, and the `BlockLoader` strategy.
`rangeOrder` is the order in which a Go `range` visits the request map, which
the language leaves unspecified: any rearrangement of the entries. -/
structure Env (σ : Type) where
  /-- Constant `helper.Batch`. -/
  Batch : Nat
  /-- Constant `helper.BlockDownloadRetryNum`. -/
  BlockDownloadRetryNum : Int
  /-- Constant `helper.BlockDownloadTimeout`. -/
  BlockDownloadTimeout : Int
  /-- Function `helper.CIDString2HashString`. -/
  CIDString2HashString : String → Except String String
  /-- Library `cid.Decode` followed by `String()`: the canonical string of the
  decoded CID, `none` when decoding fails. -/
  cidDecode : String → Option String
  /-- Method `Block.getBlockWithCID`: the stored bytes, `none` on error. -/
  getBlockWithCID : σ → String → Option (List UInt8)
  /-- Method `Block.getFIDFromCID`, its error dropped as in the caller. -/
  getFIDFromCID : σ → String → String
  /-- Method `Block.updateCidAndFid`, its error dropped as in the caller. -/
  updateCidAndFid : σ → String → String → σ
  /-- Method `Block.saveBlock data cid fid`: the new state and whether the
  returned error is `nil`. -/
  saveBlock : σ → List UInt8 → String → String → σ × Bool
  /-- Library `blocks.NewBlockWithCid`. -/
  newBlockWithCid : List UInt8 → String → Option IpfsBlock
  /-- Library `legacy.DecodeNode` followed by `Links()`. -/
  decodeNode : IpfsBlock → Option (List Link)
  /-- Strategy `BlockLoader.loadBlocks`: the new state and the returned blocks,
  `none` when the call fails. -/
  blockLoader : σ → List delayReq → σ × Option (List IpfsBlock)
  /-- Method `blockStore.KeyCount`, its error only logged. -/
  keyCount : σ → Int
  /-- Visiting order of `range` over the request map. -/
  rangeOrder : List (String × delayReq) → List (String × delayReq)
  /-- A `range` visits every entry of the map exactly once. -/
  rangeOrder_perm : ∀ m, (rangeOrder m).Perm m

/-- Go `Block`: the node-local state `store`, the list of carfiles in progress,
the batch in flight, and (in place of the RPC client `scheduler`) the cache
results posted to the scheduler so far, oldest first. -/
structure Block (σ : Type) where
  store : σ
  carfileList : List carfile
  cachingList : List delayReq
  scheduler : List CacheResultInfo

/-- Go `apiReq2DelayReq`: placements with an empty CID are skipped, the others
become delayed requests with count 0, in order. -/
def apiReq2DelayReq (req : ReqCacheData) : List delayReq :=
  req.BlockInfos.filterMap (fun blockInfo =>
    if blockInfo.Cid.length = 0 then none
    else some { blockInfo := blockInfo, count := 0, downloadURL := req.DownloadURL,
                downloadToken := req.DownloadToken, carFileHash := req.CardFileHash,
                CacheID := req.CacheID })

/-- Go `Block.getElementFromList`: the position of the first entry with the
given carfile hash, `none` for the `nil` element. -/
def getElementFromList : List carfile → String → Option Nat
  | [], _ => none
  | cf :: rest, carfileHash =>
    if cf.carfileHash = carfileHash then some 0
    else (getElementFromList rest carfileHash).map (· + 1)

/-- The entry at position `i` replaced by `f` of it (an update through the
pointer held by a list element). -/
def updateElement (f : carfile → carfile) : List carfile → Nat → List carfile
  | [], _ => []
  | cf :: rest, 0 => f cf :: rest
  | cf :: rest, i + 1 => cf :: updateElement f rest i

/-- The list without the entry at position `i` (`list.Remove` of an element). -/
def removeElement : List carfile → Nat → List carfile
  | [], _ => []
  | _ :: rest, 0 => rest
  | cf :: rest, i + 1 => cf :: removeElement rest i

/-- Go `Block.addReq2WaitList` on the list of carfiles: look the hash up, push
an empty entry at the back when it is absent, add the placements to the entry
found or pushed. (The wake-up of the worker through a channel is left out.) -/
def addReq2WaitList (carfileList : List carfile) (req : ReqCacheData) : List carfile :=
  match getElementFromList carfileList req.CardFileHash with
  | none =>
    let cf : carfile := { carfileHash := req.CardFileHash, delayReqs := [] }
    updateElement (fun c => c.addReq (apiReq2DelayReq req)) (carfileList ++ [cf])
      carfileList.length
  | some e =>
    updateElement (fun c => c.addReq (apiReq2DelayReq req)) carfileList e

/-- Go `Block.addReq2WaitList` as a transition of `Block`. -/
def Block.addReq2WaitList {σ : Type} (block : Block σ) (req : ReqCacheData) : Block σ :=
  { block with carfileList := Titan.addReq2WaitList block.carfileList req }

/-- Go `Block.RemoveWaitCacheBlockWith`: the new block and the returned error. -/
def Block.RemoveWaitCacheBlockWith {σ : Type} (env : Env σ) (block : Block σ)
    (carfileCID : String) : Block σ × Option String :=
  match env.CIDString2HashString carfileCID with
  | .error err => (block, some err)
  | .ok carfileHash =>
    match getElementFromList block.carfileList carfileHash with
    | none => (block, none)
    | some e =>
      let cleared := updateElement (fun c => { c with delayReqs := [] }) block.carfileList e
      ({ block with carfileList := removeElement cleared e }, none)

/-- Go `Block.getWaitCacheBlockNum`. -/
def Block.getWaitCacheBlockNum {σ : Type} (block : Block σ) : Int :=
  block.carfileList.foldl (fun count cf => count + (cf.delayReqs.length : Int)) 0

/-- Go `Block.QueryCacheStat` (the returned error is always `nil`). -/
def Block.QueryCacheStat {σ : Type} (env : Env σ) (block : Block σ) : CacheStat :=
  { CacheBlockCount := env.keyCount block.store
    WaitCacheBlockNum := block.getWaitCacheBlockNum
    DoingCacheBlockNum := (block.cachingList.length : Int)
    RetryNum := env.BlockDownloadRetryNum
    DownloadTimeout := env.BlockDownloadTimeout }

/-! ### Node side: loading a batch (`Block.loadBlocks` and its helpers) -/

/-- Go `Block.cacheResult`: the result posted to the scheduler with
`scheduler.CacheResult` (an error of that RPC is only logged). -/
def cacheResult (bStat : blockStat) (err : Option String) : CacheResultInfo :=
  let errMsg := match err with
    | none => ""
    | some e => e
  let success := match err with
    | none => true
    | some _ => false
  { Cid := bStat.cid, IsOK := success, Msg := errMsg, From := "", Links := bStat.links,
    BlockSize := bStat.blockSize, LinksSize := bStat.linksSize,
    CarFileHash := bStat.carFileHash, CacheID := bStat.CacheID }

/-- Go `Block.cacheResultWithError`. -/
def cacheResultWithError (bStat : blockStat) (err : String) : CacheResultInfo :=
  cacheResult bStat (some err)

/-- Go `Block.resolveLinks`: the links of the decoded node, `none` on error. -/
def resolveLinks {σ : Type} (env : Env σ) (blk : IpfsBlock) : Option (List Link) :=
  env.decodeNode blk

/-- Go `getLinks`: no links for empty data, otherwise the links of the block
rebuilt from the data and the decoded CID. -/
def getLinks {σ : Type} (env : Env σ) (data : List UInt8) (cidStr : String) :
    Option (List Link) :=
  if data.length = 0 then some []
  else
    match env.cidDecode cidStr with
    | none => none
    | some target =>
      match env.newBlockWithCid data target with
      | none => none
      | some blk => resolveLinks env blk

/-- The loop over `links` in `loadBlocks` and `filterAvailableReq`: the child
CIDs in link order and `linksSize`, a `uint64` sum, which wraps at `2 ^ 64`. -/
def linkStats (links : List Link) : List String × Nat :=
  links.foldl (fun acc link => (acc.1 ++ [link.Cid], (acc.2 + link.Size) % 2 ^ 64)) ([], 0)

/-- Outcome of `filterAvailableReq`: the node state, the results posted, and the
returned placements. -/
structure Filtered (σ : Type) where
  store : σ
  posted : List CacheResultInfo
  results : List delayReq

/-- Go `Block.filterAvailableReq`. -/
def filterAvailableReq {σ : Type} (env : Env σ) : σ → List delayReq → Filtered σ
  | st, [] => { store := st, posted := [], results := [] }
  | st, reqData :: rest =>
    match env.cidDecode reqData.blockInfo.Cid with
    | none => filterAvailableReq env st rest
    | some cid =>
      match env.getBlockWithCID st cid with
      | some buf =>
        let newFid := toString reqData.blockInfo.Fid
        let oldFid := env.getFIDFromCID st reqData.blockInfo.Cid
        let st1 := if oldFid ≠ newFid then env.updateCidAndFid st cid newFid else st
        match getLinks env buf cid with
        | none => filterAvailableReq env st1 rest
        | some links =>
          let bStat : blockStat :=
            { cid := cid, links := (linkStats links).1, blockSize := (buf.length : Int),
              linksSize := (linkStats links).2, carFileHash := reqData.carFileHash,
              CacheID := reqData.CacheID }
          let r := filterAvailableReq env st1 rest
          { r with posted := cacheResult bStat none :: r.posted }
      | none =>
        let r := filterAvailableReq env st rest
        { r with results := reqData :: r.results }

/-- Assignment `reqMap[k] = v` on the request map, a list of entries with
pairwise different keys. -/
def reqMapSet : List (String × delayReq) → String → delayReq → List (String × delayReq)
  | [], k, v => [(k, v)]
  | p :: rest, k, v => if p.1 = k then (k, v) :: rest else p :: reqMapSet rest k v

/-- Lookup `reqMap[k]` with its `exist` flag. -/
def reqMapGet : List (String × delayReq) → String → Option delayReq
  | [], _ => none
  | p :: rest, k => if p.1 = k then some p.2 else reqMapGet rest k

/-- Go `delete(reqMap, k)`. -/
def reqMapDelete (m : List (String × delayReq)) (k : String) : List (String × delayReq) :=
  m.filter (fun p => decide (p.1 ≠ k))

/-- The loop of `loadBlocks` that fills `reqMap` from the filtered placements. -/
def buildReqMap (reqs : List delayReq) : List (String × delayReq) :=
  reqs.foldl (fun m req => reqMapSet m req.blockInfo.Cid req) []

/-- Outcome of the loop over the loaded blocks. -/
structure Saved (σ : Type) where
  store : σ
  posted : List CacheResultInfo
  reqMap : List (String × delayReq)

/-- The loop `for _, b := range blocks` of `loadBlocks`: a block that is in the
request map, is saved and has its links resolved is reported and leaves the map. -/
def saveLoaded {σ : Type} (env : Env σ) :
    σ → List (String × delayReq) → List IpfsBlock → Saved σ
  | st, reqMap, [] => { store := st, posted := [], reqMap := reqMap }
  | st, reqMap, b :: rest =>
    let cidStr := b.cid
    match reqMapGet reqMap cidStr with
    | none => saveLoaded env st reqMap rest
    | some req =>
      let saved := env.saveBlock st b.rawData req.blockInfo.Cid (toString req.blockInfo.Fid)
      if saved.2 = false then saveLoaded env saved.1 reqMap rest
      else
        match resolveLinks env b with
        | none => saveLoaded env saved.1 reqMap rest
        | some links =>
          let bStat : blockStat :=
            { cid := cidStr, links := (linkStats links).1,
              blockSize := (b.rawData.length : Int), linksSize := (linkStats links).2,
              carFileHash := req.carFileHash, CacheID := req.CacheID }
          let r := saveLoaded env saved.1 (reqMapDelete reqMap cidStr) rest
          { r with posted := cacheResult bStat none :: r.posted }

/-- The loop `for _, v := range reqMap` of `loadBlocks` over the entries in
visiting order: a placement whose count has reached the retry number gets a
negative result, any other has its count increased and is tried again. -/
def retryOrFail {σ : Type} (env : Env σ) :
    List (String × delayReq) → List CacheResultInfo × List delayReq
  | [] => ([], [])
  | p :: rest =>
    let v := p.2
    let r := retryOrFail env rest
    if v.count ≥ env.BlockDownloadRetryNum then
      (cacheResultWithError
        { cid := v.blockInfo.Cid, links := [], blockSize := 0, linksSize := 0,
          carFileHash := v.carFileHash, CacheID := v.CacheID } "Request timeout" :: r.1, r.2)
    else (r.1, { v with count := v.count + 1 } :: r.2)

/-- Go `Block.loadBlocks`, the recursion bounded by `fuel` rounds: the final
node state and the results posted, oldest first; `none` when the rounds run
out. -/
def loadBlocksFuel {σ : Type} (env : Env σ) :
    Nat → σ → List delayReq → Option (σ × List CacheResultInfo)
  | 0, _, _ => none
  | fuel + 1, st, reqs =>
    let f := filterAvailableReq env st reqs
    if f.results.length = 0 then some (f.store, f.posted)
    else
      let reqMap := buildReqMap f.results
      let loaded := env.blockLoader f.store f.results
      match loaded.2 with
      | none => some (loaded.1, f.posted)
      | some blocks =>
        let s := saveLoaded env loaded.1 reqMap blocks
        let t := retryOrFail env (env.rangeOrder s.reqMap)
        if t.2.length > 0 then
          (loadBlocksFuel env fuel s.store t.2).map
            (fun r => (r.1, f.posted ++ (s.posted ++ (t.1 ++ r.2))))
        else some (s.store, f.posted ++ (s.posted ++ t.1))

/-- Rounds that `loadBlocks` can need for a batch: one more than the largest
number of retries any placement of it has left. -/
def retryFuel {σ : Type} (env : Env σ) (reqs : List delayReq) : Nat :=
  (reqs.map (fun r => (env.BlockDownloadRetryNum - r.count).toNat)).foldr max 0 + 1

/-- Go `Block.loadBlocks`. -/
def loadBlocks {σ : Type} (env : Env σ) (st : σ) (reqs : List delayReq) :
    Option (σ × List CacheResultInfo) :=
  loadBlocksFuel env (retryFuel env reqs) st reqs

/-! ### Node side: the worker loop (`Block.doLoadBlock`) -/

/-- What the worker does, in order: `load` is one call of `loadBlocks` with the
batch `doReqs` taken from the entry `carfileHash`, whose pending placements were
`pending` just before, `during` being the `Block` as it is while the call runs;
`remove` is the removal of an entry from the list. -/
inductive LoadEvent (σ : Type) where
  | load (carfileHash : String) (pending doReqs : List delayReq) (during : Block σ)
  | remove (carfileHash : String)

/-- Go `Block.doLoadBlock`, with at most `fuel` loop iterations (inner and outer
together). The element the outer loop stands on is always the front of the
list, since every element before it has been removed. -/
def doLoadBlockFuel {σ : Type} (env : Env σ) :
    Nat → Block σ → Option (Block σ × List (LoadEvent σ))
  | 0, _ => none
  | fuel + 1, block =>
    match block.carfileList with
    | [] => some (block, [])
    | cf :: rest =>
      if cf.delayReqs.length > 0 then
        let doLen := if cf.delayReqs.length > env.Batch then env.Batch else cf.delayReqs.length
        let removed := cf.removeReq doLen
        let doReqs := removed.1
        let during : Block σ :=
          { block with carfileList := removed.2 :: rest, cachingList := doReqs }
        match loadBlocks env during.store doReqs with
        | none => none
        | some r =>
          let after : Block σ :=
            { during with store := r.1, scheduler := during.scheduler ++ r.2,
                          cachingList := [] }
          (doLoadBlockFuel env fuel after).map
            (fun out => (out.1, LoadEvent.load cf.carfileHash cf.delayReqs doReqs during :: out.2))
      else
        (doLoadBlockFuel env fuel { block with carfileList := rest }).map
          (fun out => (out.1, LoadEvent.remove cf.carfileHash :: out.2))

/-- Loop iterations that `doLoadBlock` can need: one per pending placement and
one per entry, and the final test. -/
def doLoadFuel (carfileList : List carfile) : Nat :=
  (carfileList.map (fun cf => cf.delayReqs.length + 1)).sum + 1

/-- Go `Block.doLoadBlock`. -/
def doLoadBlock {σ : Type} (env : Env σ) (block : Block σ) :
    Option (Block σ × List (LoadEvent σ)) :=
  doLoadBlockFuel env (doLoadFuel block.carfileList) block

/-- Lists of carfiles in progress that the node can reach: the list starts
empty (`list.New` in `NewBlock`), `addReq2WaitList` adds a request, the worker
takes a batch off an entry (`removeReq`), `RemoveWaitCacheBlockWith` empties an
entry, and both remove an element. -/
inductive WaitList : List carfile → Prop where
  | new : WaitList []
  | add (l : List carfile) (req : ReqCacheData) : WaitList l → WaitList (addReq2WaitList l req)
  | take (l : List carfile) (e len : Nat) :
      WaitList l → WaitList (updateElement (fun c => (c.removeReq len).2) l e)
  | clear (l : List carfile) (e : Nat) :
      WaitList l → WaitList (updateElement (fun c => { c with delayReqs := [] }) l e)
  | remove (l : List carfile) (e : Nat) : WaitList l → WaitList (removeElement l e)

/-! ### Scheduler side: the carfile record (`node/scheduler/data/data.go`) -/

/-- Modelled from the spec: the type `api.CacheStatus` and its constants are
declared outside the sources at hand (`data.go` and `sql.go` name
`CacheStatusSuccess`, `CacheStatusTimeout` and `CacheStatusRestore`). The spec
lists the states of a cache attempt: "status ∈ {Running, Success, Failed,
Timeout, Restore}"; the rows of the blocks carry a status of the same Go type,
and there the spec has one more: "blocks transition Pending → Success or
Pending → Failed". -/
inductive CacheStatus where
  | Running
  | Pending
  | Success
  | Failed
  | Timeout
  | Restore
deriving DecidableEq, Repr

/-- Modelled from the spec: the type `Cache` of package `data` is declared in a
file outside the sources at hand; these are the fields that `data.go` reads and
writes. -/
structure Cache where
  cacheID : String
  carfileHash : String
  status : CacheStatus
  reliability : Int
  doneSize : Int
  doneBlocks : Int
  totalSize : Int
  totalBlocks : Int
  nodes : Int
  isRootCache : Bool
deriving DecidableEq, Repr

/-- Go `api.DataInfo` as `data.go` fills it in: the row of a carfile. -/
structure DataInfo where
  CarfileHash : String
  TotalSize : Int
  TotalBlocks : Int
  Reliability : Int
  CacheCount : Int
  Nodes : Int
deriving DecidableEq, Repr

/-- Go `api.CacheInfo` as `data.go` fills it in: the row of a cache attempt. -/
structure CacheInfo where
  CarfileHash : String
  CacheID : String
  DoneSize : Int
  Status : CacheStatus
  DoneBlocks : Int
  Reliability : Int
  TotalSize : Int
  TotalBlocks : Int
  Nodes : Int
deriving DecidableEq, Repr

/-- Go `Data`: the in-memory record of a carfile. `CacheMap`, a `sync.Map` from
cache id to `*Cache`, is a list of entries with pairwise different keys; the
managers and the expiry time are left out. -/
structure Data where
  carfileCid : String
  carfileHash : String
  reliability : Int
  needReliability : Int
  cacheCount : Int
  totalSize : Int
  totalBlocks : Int
  nodes : Int
  CacheMap : List (String × Cache)
deriving DecidableEq, Repr

/-- The collaborators of `Data` over a state `δ` of the back ends (SQL tables,
Redis keys, node manager, running tasks). `cacheRange` is the order in which
`sync.Map.Range` visits the cache map, which is unspecified. -/
structure SchedEnv (δ : Type) where
  /-- Redis `IncrByBaseInfo(CarFileCountField, 1)`, its error only logged. -/
  IncrByBaseInfo : δ → δ
  /-- SQL `GetNodesFromDataCache hash cacheID`. -/
  GetNodesFromDataCache : δ → String → String → List String × List String
  /-- Method `Data.updateNodeDiskUsage`, which copies the disk usage of the
  given nodes (floating point values) from the node manager to Redis. -/
  updateNodeDiskUsage : δ → List String → δ
  /-- SQL `SaveCacheEndResults`: the new state and the returned error. -/
  SaveCacheEndResults : δ → DataInfo → CacheInfo → δ × Option String
  /-- SQL `GetUndoneBlocks`: the map from CID to block id, or an error. -/
  GetUndoneBlocks : δ → String → Except String (List (String × String))
  /-- Method `Cache.updateCacheInfo`. -/
  updateCacheInfo : δ → Cache → Cache
  /-- Function `newCache data isRoot`: the new cache and the id of its root
  block, or an error. -/
  newCache : δ → Data → Bool → δ × Except String (Cache × String)
  /-- Method `Cache.startCache`: the new state and the returned error. -/
  startCache : δ → Cache → List (String × String) → δ × Option String
  /-- Method `Manager.recordTaskEnd cid hash msg`. -/
  recordTaskEnd : δ → String → String → String → δ
  /-- Visiting order of `sync.Map.Range` over the cache map. -/
  cacheRange : List (String × Cache) → List (String × Cache)
  /-- `Range` visits every entry of the map exactly once. -/
  cacheRange_perm : ∀ m, (cacheRange m).Perm m

/-- Go `sync.Map.Store`. -/
def cacheMapStore : List (String × Cache) → String → Cache → List (String × Cache)
  | [], k, c => [(k, c)]
  | p :: rest, k, c => if p.1 = k then (k, c) :: rest else p :: cacheMapStore rest k c

/-- A write through the pointer `doneCache`: the entry of the cache map that
is this cache, if there is one, changes with it. -/
def cacheMapWrite (m : List (String × Cache)) (c : Cache) : List (String × Cache) :=
  m.map (fun p => if p.1 = c.cacheID then (p.1, c) else p)

/-- Go `Data.existRootCache`. -/
def Data.existRootCache {δ : Type} (env : SchedEnv δ) (d : Data) : Bool :=
  (env.cacheRange d.CacheMap).foldl
    (fun exist p => if exist then true
      else (p.2.isRootCache && decide (p.2.status = CacheStatus.Success))) false

/-- Go `Data.getUndoneCache`. -/
def Data.getUndoneCache {δ : Type} (env : SchedEnv δ) (d : Data) : Option Cache :=
  let found := (env.cacheRange d.CacheMap).foldl
    (fun (acc : Option Cache × Option Cache) p =>
      if p.2.status ≠ CacheStatus.Success then
        (some p.2, if p.2.isRootCache then some p.2 else acc.2)
      else acc) (none, none)
  match found.2 with
  | some oldRootCache => some oldRootCache
  | none => found.1

/-- Outcome of `updateAndSaveCacheEndInfo`: the back ends, the carfile record,
the finished cache, the returned error, and the two rows handed to
`SaveCacheEndResults`. -/
structure EndInfoResult (δ : Type) where
  db : δ
  data : Data
  doneCache : Cache
  err : Option String
  dInfo : DataInfo
  cInfo : CacheInfo

/-- Go `Data.updateAndSaveCacheEndInfo`. -/
def Data.updateAndSaveCacheEndInfo {δ : Type} (env : SchedEnv δ) (db : δ) (d : Data)
    (doneCache : Cache) : EndInfoResult δ :=
  let d1 : Data :=
    if doneCache.status = CacheStatus.Success then
      { d with reliability := d.reliability + doneCache.reliability }
    else d
  let db1 := if doneCache.status = CacheStatus.Success then env.IncrByBaseInfo db else db
  let found := env.GetNodesFromDataCache db1 d1.carfileHash doneCache.cacheID
  let dNodes := found.1
  let cNodes := found.2
  let d2 : Data := if dNodes.length > 0 then { d1 with nodes := dNodes.length } else d1
  let db2 := if dNodes.length > 0 then env.updateNodeDiskUsage db1 dNodes else db1
  let doneCache1 : Cache :=
    if cNodes.length > 0 then { doneCache with nodes := cNodes.length } else doneCache
  let dInfo : DataInfo :=
    { CarfileHash := d2.carfileHash, TotalSize := d2.totalSize, TotalBlocks := d2.totalBlocks,
      Reliability := d2.reliability, CacheCount := d2.cacheCount, Nodes := d2.nodes }
  let cInfo : CacheInfo :=
    { CarfileHash := doneCache1.carfileHash, CacheID := doneCache1.cacheID, DoneSize := 0,
      Status := doneCache1.status, DoneBlocks := 0, Reliability := doneCache1.reliability,
      TotalSize := doneCache1.totalSize, TotalBlocks := doneCache1.totalBlocks,
      Nodes := doneCache1.nodes }
  let saved := env.SaveCacheEndResults db2 dInfo cInfo
  { db := saved.1, data := { d2 with CacheMap := cacheMapWrite d2.CacheMap doneCache1 },
    doneCache := doneCache1, err := saved.2, dInfo := dInfo, cInfo := cInfo }

/-- Outcome of `dispatchCache`: the back ends, the carfile record, the returned
error, and whether `startCache` was reached. -/
structure DispatchResult (δ : Type) where
  db : δ
  data : Data
  err : Option String
  started : Bool

/-- Go `Data.dispatchCache`. -/
def Data.dispatchCache {δ : Type} (env : SchedEnv δ) (db : δ) (d : Data)
    (cache : Option Cache) : DispatchResult δ :=
  match cache with
  | some c =>
    let c1 := env.updateCacheInfo db c
    let d1 : Data := { d with CacheMap := cacheMapWrite d.CacheMap c1 }
    match env.GetUndoneBlocks db c1.cacheID with
    | .error e => { db := db, data := d1, err := some e, started := false }
    | .ok list =>
      let d2 : Data := { d1 with cacheCount := d1.cacheCount + 1 }
      let r := env.startCache db c1 list
      { db := r.1, data := d2, err := r.2, started := true }
  | none =>
    let made := env.newCache db d (!d.existRootCache env)
    match made.2 with
    | .error e => { db := made.1, data := d, err := some e, started := false }
    | .ok (c, blockID) =>
      let d1 : Data := { d with CacheMap := cacheMapStore d.CacheMap c.cacheID c }
      let list := [(d1.carfileCid, blockID)]
      let d2 : Data := { d1 with cacheCount := d1.cacheCount + 1 }
      let r := env.startCache made.1 c list
      { db := r.1, data := d2, err := r.2, started := true }

/-- Outcome of `cacheEnd`: the back ends, the carfile record, whether
`dispatchCache` was called, and the message of the task-end record written by
the deferred function, if it wrote one. -/
structure CacheEndResult (δ : Type) where
  db : δ
  data : Data
  dispatched : Bool
  taskEnd : Option String

/-- The deferred function of `cacheEnd`: a task-end record is written when `err`
is not `nil`. -/
def Data.cacheEndDeferred {δ : Type} (env : SchedEnv δ) (db : δ) (d : Data)
    (err : Option String) (dispatched : Bool) : CacheEndResult δ :=
  match err with
  | some msg =>
    { db := env.recordTaskEnd db d.carfileCid d.carfileHash msg, data := d,
      dispatched := dispatched, taskEnd := some msg }
  | none => { db := db, data := d, dispatched := dispatched, taskEnd := none }

/-- Go `Data.cacheEnd`. -/
def Data.cacheEnd {δ : Type} (env : SchedEnv δ) (db : δ) (d : Data) (doneCache : Cache)
    (isContinue : Bool) : CacheEndResult δ :=
  let r := d.updateAndSaveCacheEndInfo env db doneCache
  match r.err with
  | some e =>
    Data.cacheEndDeferred env r.db r.data (some ("updateAndSaveCacheEndInfo err:" ++ e)) false
  | none =>
    if !isContinue then
      Data.cacheEndDeferred env r.db r.data (some "do not continue") false
    else if r.data.cacheCount > r.data.needReliability then
      Data.cacheEndDeferred env r.db r.data
        (some ("cacheCount:" ++ toString r.data.cacheCount ++ " reach needReliability:" ++
          toString r.data.needReliability)) false
    else if r.data.needReliability ≤ r.data.reliability then
      Data.cacheEndDeferred env r.db r.data
        (some ("reliability is enough:" ++ toString r.data.reliability ++ "/" ++
          toString r.data.needReliability)) false
    else
      let disp := r.data.dispatchCache env r.db (r.data.getUndoneCache env)
      Data.cacheEndDeferred env disp.db disp.data disp.err true

/-- A scheduler whose back end state counts the writes of `SaveCacheEndResults`,
all of which succeed, and where a cache can always be created and started. -/
def sampleSched : SchedEnv Nat :=
  { IncrByBaseInfo := fun db => db
    GetNodesFromDataCache := fun _ _ _ => (["edge1"], ["edge1"])
    updateNodeDiskUsage := fun db _ => db
    SaveCacheEndResults := fun db _ _ => (db + 1, none)
    GetUndoneBlocks := fun _ _ => .ok []
    updateCacheInfo := fun _ c => c
    newCache := fun db d isRoot =>
      (db, .ok ({ cacheID := "cache2", carfileHash := d.carfileHash,
                  status := CacheStatus.Running, reliability := 0, doneSize := 0,
                  doneBlocks := 0, totalSize := 0, totalBlocks := 0, nodes := 0,
                  isRootCache := isRoot }, "block1"))
    startCache := fun db _ _ => (db, none)
    recordTaskEnd := fun db _ _ _ => db
    cacheRange := fun m => m
    cacheRange_perm := fun m => List.Perm.refl m }

/-- A finished cache attempt of the sample carfile with the given status and
reliability 1. -/
def sampleCache (status : CacheStatus) : Cache :=
  { cacheID := "cache1", carfileHash := "carA", status := status, reliability := 1,
    doneSize := 10, doneBlocks := 3, totalSize := 10, totalBlocks := 3, nodes := 0,
    isRootCache := true }

/-- The record of the sample carfile: target reliability 2, one attempt started. -/
def sampleData (status : CacheStatus) : Data :=
  { carfileCid := "cidA", carfileHash := "carA", reliability := 0, needReliability := 2,
    cacheCount := 1, totalSize := 10, totalBlocks := 3, nodes := 0,
    CacheMap := [("cache1", sampleCache status)] }

/-! ### Sample data for the worked instances -/

/-- A placement of the sample carfile: CID `cid`, FID `fid`, retry count `count`. -/
def samplePlacement (cid : String) (fid count : Int) : delayReq :=
  { blockInfo := { Cid := cid, Fid := fid }, count := count, downloadURL := "",
    downloadToken := "", carFileHash := "carA", CacheID := "cache1" }

/-- A request of the scheduler for carfile `carA` with two placements. -/
def sampleReq : ReqCacheData :=
  { BlockInfos := [{ Cid := "c1", Fid := 1 }, { Cid := "c2", Fid := 2 }],
    DownloadURL := "", DownloadToken := "", CardFileHash := "carA", CacheID := "cache1" }

/-- A node whose state counts the calls of the block loader, with nothing stored
locally, every CID decodable, and a loader whose call always fails. -/
def failingLoaderEnv : Env Nat :=
  { Batch := 2
    BlockDownloadRetryNum := 3
    BlockDownloadTimeout := 15
    CIDString2HashString := fun s => .ok s
    cidDecode := fun s => some s
    getBlockWithCID := fun _ _ => none
    getFIDFromCID := fun _ _ => ""
    updateCidAndFid := fun st _ _ => st
    saveBlock := fun st _ _ _ => (st, true)
    newBlockWithCid := fun data c => some { cid := c, rawData := data }
    decodeNode := fun _ => some []
    blockLoader := fun st _ => (st + 1, none)
    keyCount := fun _ => 0
    rangeOrder := fun m => m
    rangeOrder_perm := fun m => List.Perm.refl m }

/-- The sample node with a loader that answers every call with no block. -/
def emptyLoaderEnv : Env Nat :=
  { failingLoaderEnv with blockLoader := fun st _ => (st + 1, some []) }

/-- A node with one carfile in progress, three placements pending. -/
def sampleBlock : Block Nat :=
  { store := 0, scheduler := [], cachingList := [],
    carfileList := [{ carfileHash := "carA",
                      delayReqs := [samplePlacement "c1" 1 0, samplePlacement "c2" 2 0,
                                    samplePlacement "c3" 3 0] }] }

/-- The sample node with the block `c1` stored locally, its links not
resolvable, and the string `bad` not decodable as a CID. -/
def storedEnv : Env Nat :=
  { failingLoaderEnv with
    cidDecode := fun s => if s = "bad" then none else some s
    getBlockWithCID := fun _ c => if c = "c1" then some [1, 2, 3] else none
    decodeNode := fun _ => none }

/-- The sample node with the block `c1` stored locally as a block without links. -/
def leafEnv : Env Nat :=
  { failingLoaderEnv with
    getBlockWithCID := fun _ c => if c = "c1" then some [1, 2, 3] else none }

/-! ### Reading the results posted -/

/-- The positive result that `filterAvailableReq` posts for the placement
`reqData` whose CID decodes to `cid`, the stored bytes being `buf` and their
links `links`. -/
def availableResult (reqData : delayReq) (cid : String) (buf : List UInt8)
    (links : List Link) : CacheResultInfo :=
  cacheResult
    { cid := cid, links := (linkStats links).1, blockSize := (buf.length : Int),
      linksSize := (linkStats links).2, carFileHash := reqData.carFileHash,
      CacheID := reqData.CacheID } none

/-- What `filterAvailableReq` posts for one placement on a node whose block store
is as in the state `st`: a positive result when the CID decodes, the block is
stored and its links are resolved, nothing otherwise. -/
def availablePosted {σ : Type} (env : Env σ) (st : σ) (reqData : delayReq) :
    Option CacheResultInfo :=
  match env.cidDecode reqData.blockInfo.Cid with
  | none => none
  | some cid =>
    match env.getBlockWithCID st cid with
    | none => none
    | some buf =>
      match getLinks env buf cid with
      | none => none
      | some links => some (availableResult reqData cid buf links)

/-- Whether `filterAvailableReq` has to fetch a placement on a node whose block
store is as in the state `st`: the CID decodes and the block is not stored. -/
def needsFetch {σ : Type} (env : Env σ) (st : σ) (reqData : delayReq) : Bool :=
  match env.cidDecode reqData.blockInfo.Cid with
  | none => false
  | some cid => (env.getBlockWithCID st cid).isNone

/-- The figures of a positive result `x` for a block with the bytes `data` and the
links `links`: the byte length, the child CIDs in link order, and the sum of the
declared sizes as a `uint64`, that is modulo `2 ^ 64`. -/
def ReportsBlock (x : CacheResultInfo) (data : List UInt8) (links : List Link) : Prop :=
  x.BlockSize = (data.length : Nat) ∧ x.Links = links.map Link.Cid ∧
    x.LinksSize = (links.map Link.Size).sum % 2 ^ 64

/-- The sample node with a loader that returns the block `c1`, whose two links
declare the size `2 ^ 63` each. -/
def wrapEnv : Env Nat :=
  { failingLoaderEnv with
    blockLoader := fun st _ => (st + 1, some [{ cid := "c1", rawData := [7] }])
    decodeNode := fun _ => some [{ Cid := "k1", Size := 9223372036854775808 },
                                 { Cid := "k2", Size := 9223372036854775808 }] }

/-- The result that the node `linkedEnv` below posts for the block `c1`. -/
def linkedResult : CacheResultInfo :=
  { Cid := "c1", IsOK := true, Msg := "", From := "", Links := ["k1", "k2"],
    BlockSize := 1, LinksSize := 30, CarFileHash := "carA", CacheID := "cache1" }

/-- The sample node with a loader that returns the block `c1`, whose two links
declare the sizes 10 and 20. -/
def linkedEnv : Env Nat :=
  { failingLoaderEnv with
    blockLoader := fun st _ => (st + 1, some [{ cid := "c1", rawData := [7] }])
    decodeNode := fun _ => some [{ Cid := "k1", Size := 10 }, { Cid := "k2", Size := 20 }] }

/-- The negative result that `loadBlocks` posts for a placement whose retries
are used up. -/
def timeoutResult (v : delayReq) : CacheResultInfo :=
  cacheResultWithError
    { cid := v.blockInfo.Cid, links := [], blockSize := 0, linksSize := 0,
      carFileHash := v.carFileHash, CacheID := v.CacheID } "Request timeout"

/-- The placements that a round of `loadBlocks` on `reqs` did not satisfy, the
loader having returned `blocks`: the request map as the loop over the loaded
blocks leaves it. -/
def roundUnsatisfied {σ : Type} (env : Env σ) (st : σ) (reqs : List delayReq)
    (blocks : List IpfsBlock) : List (String × delayReq) :=
  (saveLoaded env
    (env.blockLoader (filterAvailableReq env st reqs).store
      (filterAvailableReq env st reqs).results).1
    (buildReqMap (filterAvailableReq env st reqs).results) blocks).reqMap

/-- The positive results that the same round posts for the loaded blocks. -/
def roundSaved {σ : Type} (env : Env σ) (st : σ) (reqs : List delayReq)
    (blocks : List IpfsBlock) : List CacheResultInfo :=
  (saveLoaded env
    (env.blockLoader (filterAvailableReq env st reqs).store
      (filterAvailableReq env st reqs).results).1
    (buildReqMap (filterAvailableReq env st reqs).results) blocks).posted

/-- The end of the same round: the negative results posted and the placements to
try again. -/
def roundOutcome {σ : Type} (env : Env σ) (st : σ) (reqs : List delayReq)
    (blocks : List IpfsBlock) : List CacheResultInfo × List delayReq :=
  retryOrFail env (env.rangeOrder (roundUnsatisfied env st reqs blocks))

/-- The negative results for the CID `cid` among the results `posted`. -/
def negativesFor (cid : String) (posted : List CacheResultInfo) : List CacheResultInfo :=
  posted.filter (fun x => !x.IsOK && x.Cid == cid)

/-- A request map over the placements `reqs`: pairwise different keys, each
entry filed under the CID of its placement, each placement one of `reqs`. -/
def ReqMapOver (reqs : List delayReq) (m : List (String × delayReq)) : Prop :=
  (m.map Prod.fst).Nodup ∧ ∀ p ∈ m, p.1 = p.2.blockInfo.Cid ∧ p.2 ∈ reqs

/-! ### Reading the trace of the worker -/

/-- The batch an event hands to `loadBlocks`: none for a removal. -/
def LoadEvent.batch {σ : Type} : LoadEvent σ → List delayReq
  | .load _ _ doReqs _ => doReqs
  | .remove _ => []

/-- A call of `loadBlocks` as `doLoadBlock` makes it for the entry `carfileHash`
with the batch size `Batch`: the batch is the first `min n Batch` of the `n`
placements pending on the entry at that moment, these being what is left of
`entryReqs`, the placements the entry had when the worker reached it; the batch
is not empty, and it is the batch in flight while the call runs. -/
def LoadEvent.IsBatchOf {σ : Type} (Batch : Nat) (carfileHash : String)
    (entryReqs : List delayReq) (ev : LoadEvent σ) : Prop :=
  ∃ pending doReqs during, ev = LoadEvent.load carfileHash pending doReqs during ∧
    doReqs = pending.take Batch ∧ doReqs.length = min pending.length Batch ∧
    0 < doReqs.length ∧ doReqs.length ≤ Batch ∧ pending <:+ entryReqs ∧
    during.cachingList = doReqs

/-- The events of one entry `cf` of the list: its batches, which put together
are the pending placements of the entry, and then its removal. -/
def EntryTrace {σ : Type} (Batch : Nat) (cf : carfile) (g : List (LoadEvent σ)) : Prop :=
  ∃ loads, g = loads ++ [LoadEvent.remove cf.carfileHash] ∧
    (loads.map LoadEvent.batch).flatten = cf.delayReqs ∧
    ∀ ev ∈ loads, ev.IsBatchOf Batch cf.carfileHash cf.delayReqs

/-! ### Scheduler side: the area suffix of the table names (`sqlDB.ReplaceArea`) -/

/-- The test `'A' <= c && c <= 'Z'` of Go `strings.ToLower`. -/
def isUpperASCII (c : Char) : Bool := decide (65 ≤ c.toNat ∧ c.toNat ≤ 90)

/-- The step `c += 'a' - 'A'` of Go `strings.ToLower` on an upper-case ASCII
letter; any other character stays. -/
def asciiToLower (c : Char) : Char :=
  if isUpperASCII c then Char.ofNat (c.toNat + 32) else c

/-- Go `strings.ToLower` on a string of valid UTF-8, as its list of characters:
a string of ASCII characters is returned as it is when it has no upper-case
letter and has its upper-case letters shifted otherwise; any other string is
mapped character by character with the library function `unicode.ToLower`,
here the parameter `unicodeToLower`. -/
def stringsToLower (unicodeToLower : Char → Char) (s : List Char) : List Char :=
  let isASCII := s.all (fun c => decide (c.toNat < 128))
  let hasUpper := s.any isUpperASCII
  if isASCII then
    if !hasUpper then s else s.map asciiToLower
  else s.map unicodeToLower

/-- Go `strings.Replace(str, "-", "_", -1)`. -/
def replaceDash (s : List Char) : List Char :=
  s.map (fun c => if c = '-' then '_' else c)

/-- Go `sqlDB.ReplaceArea`, the package variable `serverArea` being a parameter. -/
def ReplaceArea (unicodeToLower : Char → Char) (serverArea : String) : String :=
  String.mk (replaceDash (stringsToLower unicodeToLower serverArea.data))

/-! ### Scheduler side: the tables (`node/scheduler/db/persistent/sql.go`) -/

/-- Go `api.BlockInfo`, a row of the table `block_info_<area>`: the columns that
`sql.go` names, `end_time` being empty until it is stamped. -/
structure BlockInfo where
  ID : String
  CacheID : String
  CarfileHash : String
  CID : String
  CIDHash : String
  DeviceID : String
  FID : Int
  Size : Int
  Reliability : Int
  Source : String
  Status : CacheStatus
  EndTime : Option Nat
deriving DecidableEq, Repr

/-- A row of the table `cache_info_<area>` (Go `api.CacheInfo` with all the
columns that `sql.go` reads or writes; the expiry time is left out). -/
structure CacheRow where
  CacheID : String
  CarfileHash : String
  Status : CacheStatus
  RootCache : Bool
  DoneSize : Int
  DoneBlocks : Int
  TotalSize : Int
  TotalBlocks : Int
  Reliability : Int
  Nodes : Int
  EndTime : Option Nat
deriving DecidableEq, Repr

/-- A row of the table `data_info_<area>` (Go `api.DataInfo` with all the columns
that `sql.go` reads or writes; the status and the expiry time of the carfile are
left out). -/
structure DataRow where
  CarfileHash : String
  CarfileCid : String
  NeedReliability : Int
  Reliability : Int
  TotalSize : Int
  TotalBlocks : Int
  CacheCount : Int
  Nodes : Int
  EndTime : Option Nat
deriving DecidableEq, Repr

/-- The three tables of one area behind `sqlDB`. -/
structure SqlDB where
  dataInfo : List DataRow
  cacheInfo : List CacheRow
  blockInfo : List BlockInfo
deriving DecidableEq, Repr

/-- What the SQL server and the driver leave open. The connection holds:
statements and commits succeed. -/
structure SqlEnv where
  /-- Value of `NOW()` in the statement at hand. -/
  now : Nat
  /-- What `tx.Get` stores for `sum(size)` when no row matches. (In MySQL the
  sum over no rows is NULL, and `database/sql` refuses to store NULL in an
  `int`: then this is an error.) -/
  sumOfNone : Except String Int
  /-- Order in which a `SELECT` without `ORDER BY` returns block rows. -/
  blockOrder : List BlockInfo → List BlockInfo
  /-- A `SELECT` returns every matching row once. -/
  blockOrder_perm : ∀ rows, (blockOrder rows).Perm rows
  /-- Order in which a `SELECT` without `ORDER BY` returns cache rows. -/
  cacheOrder : List CacheRow → List CacheRow
  /-- A `SELECT` returns every matching row once. -/
  cacheOrder_perm : ∀ rows, (cacheOrder rows).Perm rows
  /-- Visiting order of `range` over the map `carfileReliabilitys`. -/
  relRange : List (String × Int) → List (String × Int)
  /-- A `range` visits every entry of the map exactly once. -/
  relRange_perm : ∀ m, (relRange m).Perm m

/-- Constant `errNotFind`. -/
def errNotFind : String := "Not Found"

/-- Assignment `m[k] = v` on a Go map with string keys, a list of entries with
pairwise different keys. -/
def mapSet {β : Type} : List (String × β) → String → β → List (String × β)
  | [], k, v => [(k, v)]
  | p :: rest, k, v => if p.1 = k then (k, v) :: rest else p :: mapSet rest k v

/-- Lookup `m[k]` with its `ok` flag. -/
def mapGet {β : Type} : List (String × β) → String → Option β
  | [], _ => none
  | p :: rest, k => if p.1 = k then some p.2 else mapGet rest k

/-- Statement `m[k] += v` on a Go map of integers: an absent key counts as 0. -/
def mapAdd (m : List (String × Int)) (k : String) (v : Int) : List (String × Int) :=
  match mapGet m k with
  | some old => mapSet m k (old + v)
  | none => mapSet m k (0 + v)

/-- Go `sqlDB.GetUndoneBlocks`: the map from `cid` to `id` over the rows of the
cache whose status is not Success, and the returned error. -/
def SqlDB.GetUndoneBlocks (db : SqlDB) (env : SqlEnv) (cacheID : String) :
    List (String × String) × Option String :=
  let rows := env.blockOrder
    (db.blockInfo.filter (fun b => decide (b.CacheID = cacheID ∧ b.Status ≠ CacheStatus.Success)))
  (rows.foldl (fun list info => mapSet list info.CID info.ID) [], none)

/-- Go `sqlDB.GetBlocksWithHash`: the rows with the given `cid_hash` and status
Success, filed in a map under their carfile hash, and the returned error. -/
def SqlDB.GetBlocksWithHash (db : SqlDB) (env : SqlEnv) (hash : String) :
    List (String × BlockInfo) × Option String :=
  let out := env.blockOrder
    (db.blockInfo.filter (fun b => decide (b.CIDHash = hash ∧ b.Status = CacheStatus.Success)))
  (out.foldl (fun blocks block => mapSet blocks block.CarfileHash block) [], none)

/-- Go `sqlDB.GetNodesFromDataCache`: the devices with a Success block of the
carfile and those with a Success block of the cache. -/
def SqlDB.GetNodesFromDataCache (db : SqlDB) (hash cacheID : String) :
    List String × List String :=
  (((db.blockInfo.filter (fun b =>
      decide (b.CarfileHash = hash ∧ b.Status = CacheStatus.Success))).map
      (fun b => b.DeviceID)).dedup,
   ((db.blockInfo.filter (fun b =>
      decide (b.CacheID = cacheID ∧ b.Status = CacheStatus.Success))).map
      (fun b => b.DeviceID)).dedup)

/-- Go `sqlDB.SaveCacheEndResults`: the tables afterwards and the returned error.
When the sums of the Success blocks of the cache cannot be read the function
returns the error before any update. -/
def SqlDB.SaveCacheEndResults (db : SqlDB) (env : SqlEnv) (dInfo : DataInfo)
    (cInfo : CacheInfo) : SqlDB × Option String :=
  let matching := db.blockInfo.filter
    (fun b => decide (b.CacheID = cInfo.CacheID ∧ b.Status = CacheStatus.Success))
  let size : Except String Int :=
    if matching.length = 0 then env.sumOfNone else .ok (matching.map (fun b => b.Size)).sum
  match size with
  | .error err => (db, some err)
  | .ok iSize =>
    let iCount : Int := matching.length
    let dataInfo := db.dataInfo.map (fun d =>
      if d.CarfileHash = dInfo.CarfileHash then
        { d with TotalSize := dInfo.TotalSize, Reliability := dInfo.Reliability,
                 CacheCount := dInfo.CacheCount, TotalBlocks := dInfo.TotalBlocks,
                 Nodes := dInfo.Nodes, EndTime := some env.now }
      else d)
    let cacheInfo := db.cacheInfo.map (fun c =>
      if c.CacheID = cInfo.CacheID then
        { c with DoneSize := iSize, DoneBlocks := iCount, Reliability := cInfo.Reliability,
                 Status := cInfo.Status, TotalSize := cInfo.TotalSize,
                 TotalBlocks := cInfo.TotalBlocks, Nodes := cInfo.Nodes,
                 EndTime := some env.now }
      else c)
    let blockInfo :=
      if cInfo.Status = CacheStatus.Timeout then
        db.blockInfo.map (fun b =>
          if b.CacheID = cInfo.CacheID ∧ b.Status ≠ CacheStatus.Success then
            { b with EndTime := some env.now }
          else b)
      else db.blockInfo
    ({ dataInfo := dataInfo, cacheInfo := cacheInfo, blockInfo := blockInfo }, none)

/-- Outcome of `UpdateCacheInfoOfQuitNode`. -/
structure QuitNodeResult where
  db : SqlDB
  successCacheCount : Int
  carfileReliabilitys : List (String × Int)
  err : Option String
deriving DecidableEq, Repr

/-- The query of `UpdateCacheInfoOfQuitNode`: the distinct cache ids of the blocks
of the device joined with the cache table and kept where the status of the cache
is Success, that is the cache rows with status Success whose id is the cache id
of a block of the device. -/
def SqlDB.successCachesOfDevice (db : SqlDB) (deviceID : String) : List CacheRow :=
  db.cacheInfo.filter (fun c =>
    decide (c.Status = CacheStatus.Success) &&
    db.blockInfo.any (fun b => decide (b.DeviceID = deviceID ∧ b.CacheID = c.CacheID)))

/-- Go `sqlDB.UpdateCacheInfoOfQuitNode`. -/
def SqlDB.UpdateCacheInfoOfQuitNode (db : SqlDB) (env : SqlEnv) (deviceID : String) :
    QuitNodeResult :=
  let caches := env.cacheOrder (db.successCachesOfDevice deviceID)
  if caches.length ≤ 0 then
    { db := db, successCacheCount := 0, carfileReliabilitys := [], err := some errNotFind }
  else
    let cacheIDs : List String := caches.map (fun cache => cache.CacheID)
    let carfileReliabilitys :=
      caches.foldl (fun m cache => mapAdd m cache.CarfileHash cache.Reliability) []
    let cacheInfo := db.cacheInfo.map (fun c =>
      if c.CacheID ∈ cacheIDs then { c with Status := CacheStatus.Restore } else c)
    let blockInfo := db.blockInfo.map (fun b =>
      if b.DeviceID = deviceID ∧ b.Status = CacheStatus.Success then
        { b with Status := CacheStatus.Restore }
      else b)
    let dataInfo := (env.relRange carfileReliabilitys).foldl
      (fun rows entry => rows.map (fun d =>
        if d.CarfileHash = entry.1 then { d with Reliability := d.Reliability - entry.2 }
        else d))
      db.dataInfo
    { db := { dataInfo := dataInfo, cacheInfo := cacheInfo, blockInfo := blockInfo },
      successCacheCount := caches.length, carfileReliabilitys := carfileReliabilitys,
      err := none }

/-- A database server that returns rows in table order, at time 9, with the
driver refusing the sum over no rows. -/
def sampleSql : SqlEnv :=
  { now := 9
    sumOfNone := .error "converting NULL to int is unsupported"
    blockOrder := fun rows => rows
    blockOrder_perm := fun rows => List.Perm.refl rows
    cacheOrder := fun rows => rows
    cacheOrder_perm := fun rows => List.Perm.refl rows
    relRange := fun m => m
    relRange_perm := fun m => List.Perm.refl m }

/-- A block row of carfile `carA` with size 10. -/
def sampleBlockRow (id cacheID cid deviceID : String) (status : CacheStatus)
    (endTime : Option Nat) : BlockInfo :=
  { ID := id, CacheID := cacheID, CarfileHash := "carA", CID := cid, CIDHash := cid,
    DeviceID := deviceID, FID := 1, Size := 10, Reliability := 1, Source := "",
    Status := status, EndTime := endTime }

/-- A cache row of carfile `carA`. -/
def sampleCacheRow (cacheID : String) (status : CacheStatus) (reliability : Int) : CacheRow :=
  { CacheID := cacheID, CarfileHash := "carA", Status := status, RootCache := false,
    DoneSize := 0, DoneBlocks := 0, TotalSize := 10, TotalBlocks := 1,
    Reliability := reliability, Nodes := 0, EndTime := none }

/-- The data row of carfile `carA` with target reliability 2. -/
def sampleDataRow (reliability : Int) : DataRow :=
  { CarfileHash := "carA", CarfileCid := "cidA", NeedReliability := 2,
    Reliability := reliability, TotalSize := 10, TotalBlocks := 1, CacheCount := 0,
    Nodes := 0, EndTime := none }

/-- Two undone rows of cache `c1`, a Success row of `c1` and an undone row of
cache `c2`. -/
def undoneSampleDB : SqlDB :=
  { dataInfo := [sampleDataRow 0]
    cacheInfo := [sampleCacheRow "c1" CacheStatus.Running 0]
    blockInfo :=
      [sampleBlockRow "b1" "c1" "cid1" "" CacheStatus.Pending none,
       sampleBlockRow "b2" "c1" "cid2" "E1" CacheStatus.Success (some 3),
       sampleBlockRow "b3" "c1" "cid3" "E1" CacheStatus.Failed (some 4),
       sampleBlockRow "b4" "c2" "cid1" "" CacheStatus.Pending none] }

/-- A block row like `sampleBlockRow`, of the carfile with the given hash. -/
def carfileBlockRow (carfileHash id cacheID cid deviceID : String) : BlockInfo :=
  { ID := id, CacheID := cacheID, CarfileHash := carfileHash, CID := cid, CIDHash := cid,
    DeviceID := deviceID, FID := 1, Size := 10, Reliability := 1, Source := "",
    Status := CacheStatus.Success, EndTime := some 3 }

/-- The block `cid1` cached with success once for carfile `carA` and once for
carfile `carB`. -/
def twoCarfilesDB : SqlDB :=
  { dataInfo := []
    cacheInfo := []
    blockInfo :=
      [carfileBlockRow "carA" "b1" "c1" "cid1" "E1",
       carfileBlockRow "carB" "b2" "c2" "cid1" "E2"] }

/-- The block `cid1` cached with success by two attempts of the one carfile
`carA`, on two devices. -/
def twoAttemptsDB : SqlDB :=
  { dataInfo := []
    cacheInfo := []
    blockInfo :=
      [carfileBlockRow "carA" "b1" "c1" "cid1" "E1",
       carfileBlockRow "carA" "b2" "c2" "cid1" "E2"] }

/-- The attempt `c1` of carfile `carA` as it ends by timeout: block `b1` is
Success, block `b2` failed at time 5, block `b3` is still Pending, and block
`b4` belongs to another attempt. -/
def timeoutSampleDB : SqlDB :=
  { dataInfo := [sampleDataRow 0]
    cacheInfo := [sampleCacheRow "c1" CacheStatus.Running 0,
                  sampleCacheRow "c2" CacheStatus.Running 0]
    blockInfo :=
      [sampleBlockRow "b1" "c1" "cid1" "E1" CacheStatus.Success (some 3),
       sampleBlockRow "b2" "c1" "cid2" "E1" CacheStatus.Failed (some 5),
       sampleBlockRow "b3" "c1" "cid3" "" CacheStatus.Pending none,
       sampleBlockRow "b4" "c2" "cid1" "" CacheStatus.Pending none] }

/-- The data row handed to `SaveCacheEndResults` for carfile `carA`. -/
def sampleDataInfo (reliability : Int) : DataInfo :=
  { CarfileHash := "carA", TotalSize := 10, TotalBlocks := 1, Reliability := reliability,
    CacheCount := 1, Nodes := 1 }

/-- The cache row handed to `SaveCacheEndResults` for an attempt of `carA`. -/
def sampleCacheInfo (cacheID : String) (status : CacheStatus) (reliability : Int) :
    CacheInfo :=
  { CarfileHash := "carA", CacheID := cacheID, DoneSize := 10, Status := status,
    DoneBlocks := 1, Reliability := reliability, TotalSize := 10, TotalBlocks := 1,
    Nodes := 1 }

/-- Sum of the reliability of the cache rows of one carfile in a list of
cache rows. -/
def reliabilityOf (caches : List CacheRow) (carfileHash : String) : Int :=
  ((caches.filter (fun c => decide (c.CarfileHash = carfileHash))).map
    (fun c => c.Reliability)).sum

/-- Carfile `carA` with reliability 2 held by the attempts `c1` (on device
`E1`) and `c2` (on device `E2`), both Success, and a running attempt `c3`
that has a Success block on `E1`. -/
def quitSampleDB : SqlDB :=
  { dataInfo := [sampleDataRow 2]
    cacheInfo := [sampleCacheRow "c1" CacheStatus.Success 1,
                  sampleCacheRow "c2" CacheStatus.Success 1,
                  sampleCacheRow "c3" CacheStatus.Running 0]
    blockInfo :=
      [sampleBlockRow "b1" "c1" "cid1" "E1" CacheStatus.Success (some 3),
       sampleBlockRow "b2" "c2" "cid1" "E2" CacheStatus.Success (some 4),
       sampleBlockRow "b3" "c3" "cid1" "E1" CacheStatus.Success (some 5)] }

/-- Carfile `carA` with one running attempt `c1`, which has a Success block on
device `E1`. -/
def runningSampleDB : SqlDB :=
  { dataInfo := [sampleDataRow 0]
    cacheInfo := [sampleCacheRow "c1" CacheStatus.Running 0]
    blockInfo :=
      [sampleBlockRow "b1" "c1" "cid1" "E1" CacheStatus.Success (some 3),
       sampleBlockRow "b2" "c1" "cid2" "" CacheStatus.Pending none] }

/-! ### Scheduler side: progress of an attempt (`updateAndSaveCacheingInfo`) -/

/-- Outcome of `updateAndSaveCacheingInfo`: the back ends, the carfile record,
the returned error, and the two rows handed to `SaveCacheingResults`. -/
structure CacheingResult (δ : Type) where
  db : δ
  data : Data
  err : Option String
  dInfo : DataInfo
  cInfo : CacheInfo

/-- Go `Data.updateAndSaveCacheingInfo`. The SQL call `SaveCacheingResults` is
the parameter `save`; the rows are built without `Nodes`, which is then 0. -/
def Data.updateAndSaveCacheingInfo {δ : Type} (env : SchedEnv δ)
    (save : δ → DataInfo → CacheInfo → Option BlockInfo → List BlockInfo → δ × Option String)
    (db : δ) (d : Data) (blockInfo : Option BlockInfo) (cache : Cache)
    (createBlocks : List BlockInfo) : CacheingResult δ :=
  let d1 : Data :=
    if !d.existRootCache env then
      { d with totalSize := cache.totalSize, totalBlocks := cache.totalBlocks }
    else d
  let dInfo : DataInfo :=
    { CarfileHash := d1.carfileHash, TotalSize := d1.totalSize, TotalBlocks := d1.totalBlocks,
      Reliability := d1.reliability, CacheCount := d1.cacheCount, Nodes := 0 }
  let cInfo : CacheInfo :=
    { CarfileHash := cache.carfileHash, CacheID := cache.cacheID, DoneSize := cache.doneSize,
      Status := cache.status, DoneBlocks := cache.doneBlocks, Reliability := cache.reliability,
      TotalSize := cache.totalSize, TotalBlocks := cache.totalBlocks, Nodes := 0 }
  let saved := save db dInfo cInfo blockInfo createBlocks
  { db := saved.1, data := d1, err := saved.2, dInfo := dInfo, cInfo := cInfo }

/-- Successive calls of `updateAndSaveCacheingInfo` on one carfile record, each
with its block result, its reporting attempt and its new blocks. -/
def Data.updateAndSaveCacheingInfos {δ : Type} (env : SchedEnv δ)
    (save : δ → DataInfo → CacheInfo → Option BlockInfo → List BlockInfo → δ × Option String)
    (db : δ) (d : Data) (calls : List (Option BlockInfo × Cache × List BlockInfo)) :
    δ × Data :=
  calls.foldl
    (fun s call =>
      let r := s.2.updateAndSaveCacheingInfo env save s.1 call.1 call.2.1 call.2.2
      (r.db, r.data))
    (db, d)

/-- A second attempt of the sample carfile, not root, which reports totals 99
and 7. -/
def otherCache : Cache :=
  { cacheID := "cache2", carfileHash := "carA", status := CacheStatus.Running,
    reliability := 0, doneSize := 0, doneBlocks := 0, totalSize := 99, totalBlocks := 7,
    nodes := 0, isRootCache := false }

/-- The record of the sample carfile after its first attempt, a root attempt,
has failed: one attempt started, none successful. -/
def failedRootData : Data := sampleData CacheStatus.Failed

/-- The record of a carfile newly admitted: no attempt yet. -/
def freshData : Data :=
  { carfileCid := "cidA", carfileHash := "carA", reliability := 0, needReliability := 2,
    cacheCount := 0, totalSize := 0, totalBlocks := 1, nodes := 0, CacheMap := [] }

/-! ### Scheduler side: `Data` over the tables -/

/-- The collaborators of `Data` with the SQL calls of `sql.go` on the tables.
The Redis counters and the disk usage of the nodes are outside the tables and
left as they are; attempts are neither created nor started here. -/
def sqlSched (env : SqlEnv) : SchedEnv SqlDB :=
  { IncrByBaseInfo := fun db => db
    GetNodesFromDataCache := fun db hash cacheID => db.GetNodesFromDataCache hash cacheID
    updateNodeDiskUsage := fun db _ => db
    SaveCacheEndResults := fun db dInfo cInfo => db.SaveCacheEndResults env dInfo cInfo
    GetUndoneBlocks := fun db cacheID =>
      match (db.GetUndoneBlocks env cacheID).2 with
      | some err => .error err
      | none => .ok (db.GetUndoneBlocks env cacheID).1
    updateCacheInfo := fun _ c => c
    newCache := fun db _ _ => (db, .error "no node")
    startCache := fun db _ _ => (db, none)
    recordTaskEnd := fun db _ _ _ => db
    cacheRange := fun m => m
    cacheRange_perm := fun m => List.Perm.refl m }

/-- An attempt of carfile `carA` as it ends with the given status. -/
def endedCache (cacheID : String) (status : CacheStatus) (reliability : Int) : Cache :=
  { cacheID := cacheID, carfileHash := "carA", status := status, reliability := reliability,
    doneSize := 10, doneBlocks := 1, totalSize := 10, totalBlocks := 1, nodes := 0,
    isRootCache := false }

/-- The record of carfile `carA`, target reliability 2, reliability 0, with the
two attempts `c1` and `c2` started. -/
def twoAttemptsData : Data :=
  { carfileCid := "cidA", carfileHash := "carA", reliability := 0, needReliability := 2,
    cacheCount := 2, totalSize := 10, totalBlocks := 1, nodes := 0,
    CacheMap := [("c1", endedCache "c1" CacheStatus.Running 0),
                 ("c2", endedCache "c2" CacheStatus.Running 0)] }

/-- The tables of carfile `carA` with reliability 0 and no Success attempt: the
attempt `c1` has cached its block on device `E1`, the attempt `c2` on `E2`,
and neither attempt has terminated yet. -/
def twoRunningDB : SqlDB :=
  { dataInfo := [sampleDataRow 0]
    cacheInfo := [sampleCacheRow "c1" CacheStatus.Running 0,
                  sampleCacheRow "c2" CacheStatus.Running 0]
    blockInfo :=
      [sampleBlockRow "b1" "c1" "cidA" "E1" CacheStatus.Success (some 3),
       sampleBlockRow "b2" "c2" "cidA" "E2" CacheStatus.Success (some 4)] }

/-- The reliability of the carfile rows and, next to it, the sum of the
reliability of the cache rows of carfile `carA` with status Success. -/
def reliabilityFigures (db : SqlDB) : List Int × Int :=
  (db.dataInfo.map (fun d => d.Reliability),
   reliabilityOf (db.cacheInfo.filter (fun c => decide (c.Status = CacheStatus.Success))) "carA")

/-! ### Scheduler side: the Redis keys (`node/scheduler/db/cache/redis.go`) -/

/-- The keys of Redis that the functions below touch. `nodeBlockFid` holds the
integers under `Titan:NodeBlockFid:<deviceID>`, by device id; `runningDataTask`
holds, by carfile hash, the string under `Titan:RunningDataTask:<server>:<hash>`
together with the expiration handed to `Set` (a `time.Duration`, in
nanoseconds); `runningDataTaskList` is the set under
`Titan:RunningDataTaskList:<server>`, a `DataTask` being its carfile hash and
its cache id. The connection holds: commands reach the server. -/
structure RedisDB where
  nodeBlockFid : List (String × Int)
  runningDataTask : List (String × (String × Int))
  runningDataTaskList : List (String × String)
deriving DecidableEq, Repr

/-- Redis `INCRBY` on a key that holds an integer or is absent (then taken as
0): the new map, the new value and the error; the server refuses a result
outside the signed 64-bit range and leaves the key as it is. -/
def redisIncrBy (m : List (String × Int)) (key : String) (value : Int) :
    List (String × Int) × Int × Option String :=
  let n := (mapGet m key).getD 0 + value
  if -(2 : Int) ^ 63 ≤ n ∧ n < (2 : Int) ^ 63 then (mapSet m key n, n, none)
  else (m, 0, some "ERR increment or decrement would overflow")

/-- Go `redisDB.IncrNodeCacheFid`: the keys afterwards, the returned number and
the returned error. -/
def RedisDB.IncrNodeCacheFid (rd : RedisDB) (deviceID : String) (num : Int) :
    RedisDB × Int × Option String :=
  let r := redisIncrBy rd.nodeBlockFid deviceID num
  ({ rd with nodeBlockFid := r.1 }, r.2.1, r.2.2)

/-- One reservation call as it happened: the device, the number asked for, the
number returned and the error returned. -/
structure FidCall where
  deviceID : String
  num : Int
  returned : Int
  err : Option String
deriving DecidableEq, Repr

/-- A sequence of calls of `IncrNodeCacheFid`, each given as device and number:
what each call returned, in order. -/
def RedisDB.IncrNodeCacheFids : RedisDB → List (String × Int) → List FidCall
  | _, [] => []
  | rd, call :: rest =>
    let r := rd.IncrNodeCacheFid call.1 call.2
    { deviceID := call.1, num := call.2, returned := r.2.1, err := r.2.2 } ::
      RedisDB.IncrNodeCacheFids r.1 rest

/-- The counter of a device: the integer under its key, 0 when the key is
absent. -/
def RedisDB.fidCounter (rd : RedisDB) (deviceID : String) : Int :=
  (mapGet rd.nodeBlockFid deviceID).getD 0

/-- A Redis without keys. -/
def emptyRedis : RedisDB :=
  { nodeBlockFid := [], runningDataTask := [], runningDataTaskList := [] }

/-- A Go `int64` product: the mathematical product reduced to the signed 64-bit
range. -/
def wrapInt64 (x : Int) : Int :=
  (x + (2 : Int) ^ 63) % (2 : Int) ^ 64 - (2 : Int) ^ 63

/-- Go `time.Second`, in nanoseconds. -/
def timeSecond : Int := 1000000000

/-- Redis `SADD` of one member. -/
def redisSAdd (s : List (String × String)) (member : String × String) :
    List (String × String) :=
  if member ∈ s then s else s ++ [member]

/-- Go `redisDB.SetDataTaskToRunningList`: the task joins the running list and
the running-task key of the carfile is set to the cache id with the expiration
`time.Second*time.Duration(15)`. -/
def RedisDB.SetDataTaskToRunningList (rd : RedisDB) (hash cacheID : String) :
    RedisDB × Option String :=
  ({ rd with
      runningDataTaskList := redisSAdd rd.runningDataTaskList (hash, cacheID)
      runningDataTask := mapSet rd.runningDataTask hash (cacheID, wrapInt64 (timeSecond * 15)) },
   none)

/-- Go `redisDB.SetRunningDataTask`: the running-task key of the carfile is set
to the cache id with the expiration `time.Second*time.Duration(timeout)`. -/
def RedisDB.SetRunningDataTask (rd : RedisDB) (hash cacheID : String) (timeout : Int) :
    RedisDB × Option String :=
  ({ rd with
      runningDataTask :=
        mapSet rd.runningDataTask hash (cacheID, wrapInt64 (timeSecond * timeout)) },
   none)

/-! ### Node side: the download handler (`node/download/block_download.go`) -/

/-- A Go error as the code tells errors apart with `==`: the value
`datastore.ErrNotFound`, or any other error with its message. -/
inductive GoError where
  | ErrNotFound
  | other (msg : String)
deriving DecidableEq, Repr

/-- Method `Error()`. -/
def GoError.Error : GoError → String
  | GoError.ErrNotFound => "datastore: key not found"
  | GoError.other msg => msg

/-- The query of a download request: the parameters `cid`, `sign`, `sn`,
`signTime` and `timeout`, each empty when it is missing. -/
structure DownloadRequest where
  cid : String
  sign : String
  sn : String
  signTime : String
  timeout : String
deriving DecidableEq, Repr

/-- What the handler writes: the status and the body. -/
structure DownloadResponse where
  status : Nat
  body : List UInt8
deriving DecidableEq, Repr

/-- The collaborators of the download handler over a block store `σ` and keys
`κ`: the parsers of the Go library, the signature check of package `rsa`, the
helper that turns a CID into the key of the block store, and the block store. -/
structure DownloadEnv (σ κ : Type) where
  /-- Library `strconv.ParseInt(s, 10, 64)`. -/
  ParseInt : String → Except String Int
  /-- Library `hex.DecodeString`. -/
  DecodeString : String → Except String (List UInt8)
  /-- Function `titanRsa.VerifyRsaSign key sign content`: the error, `none` for
  `nil`. -/
  VerifyRsaSign : κ → List UInt8 → String → Option String
  /-- Function `helper.CIDString2HashString`. -/
  CIDString2HashString : String → Except String String
  /-- Method `blockStore.GetReader`: the bytes that the reader yields, or the
  error. -/
  GetReader : σ → String → Except GoError (List UInt8)
  /-- Method `device.GetDeviceID`. -/
  GetDeviceID : String

/-- Go `BlockDownload`: the block store and the public key of the scheduler,
`none` while it is not loaded. -/
structure BlockDownload (σ κ : Type) where
  blockStore : σ
  publicKey : Option κ

/-- Go `BlockDownload.resultFailed`: `http.NotFound` for `datastore.ErrNotFound`,
`http.Error` with `http.StatusBadRequest` for any other error. (The report of
the failure to the scheduler, sent on a goroutine of its own, is left out.) -/
def resultFailed (err : GoError) : DownloadResponse :=
  if err = GoError.ErrNotFound then
    { status := 404, body := "404 page not found\n".toUTF8.toList }
  else
    { status := 400, body := (err.Error ++ "\n").toUTF8.toList }

/-- Go `BlockDownload.getBlock`: the response to a request. (The report of the
download to the scheduler, the headers and the rate limit are left out; a
response whose body is written has status 200.) -/
def getBlock {σ κ : Type} (env : DownloadEnv σ κ) (bd : BlockDownload σ κ)
    (r : DownloadRequest) : DownloadResponse :=
  match env.ParseInt r.sn with
  | .error err =>
    resultFailed (GoError.other ("Parser param sn(" ++ r.sn ++ ") error:" ++ err))
  | .ok _ =>
    match env.DecodeString r.sign with
    | .error err =>
      resultFailed (GoError.other ("DecodeString sign(" ++ r.sign ++ ") error:" ++ err))
    | .ok sign =>
      match bd.publicKey with
      | none =>
        resultFailed (GoError.other ("node " ++ env.GetDeviceID ++ " publicKey == nil"))
      | some publicKey =>
        let content := r.cid ++ r.sn ++ r.signTime ++ r.timeout
        match env.VerifyRsaSign publicKey sign content with
        | some err =>
          resultFailed (GoError.other ("Verify sign cid:" ++ r.cid ++ ",sn:" ++ r.sn ++
            ",signTime:" ++ r.signTime ++ ", timeout:" ++ r.timeout ++ ", error:" ++ err ++ ","))
        | none =>
          match env.CIDString2HashString r.cid with
          | .error err =>
            resultFailed (GoError.other ("Parser param cid(" ++ r.cid ++ ") error:" ++ err))
          | .ok blockHash =>
            match env.GetReader bd.blockStore blockHash with
            | .error err => resultFailed err
            | .ok data => { status := 200, body := data }

/-- A download server whose block store is the list of the keys it holds (the
blocks being empty), where the number `7` and the signature `6f6b` parse, the
signature verifies and every CID is its own key. -/
def sampleDownloadEnv : DownloadEnv (List String) Unit :=
  { ParseInt := fun s => if s = "7" then .ok 7 else .error "invalid syntax"
    DecodeString := fun s =>
      if s = "6f6b" then .ok [111, 107] else .error "encoding/hex: invalid byte"
    VerifyRsaSign := fun _ sign _ =>
      if sign = [111, 107] then none else some "crypto/rsa: verification error"
    CIDString2HashString := fun s => .ok s
    GetReader := fun store key =>
      if key ∈ store then .ok [] else .error GoError.ErrNotFound
    GetDeviceID := "node1" }

/-- A request for the block `cid` with a signature that verifies. -/
def sampleDownloadRequest (cid : String) : DownloadRequest :=
  { cid := cid, sign := "6f6b", sn := "7", signTime := "100", timeout := "30" }

/-! ### Node side: deleting blocks (`Block.DeleteBlocks`) -/

/-- Go `api.BlockOperationResult`. -/
structure BlockOperationResult where
  Cid : String
  ErrMsg : String
deriving DecidableEq, Repr

/-- Go `Block.DeleteBlocks`: the node state afterwards, the results and the
returned error. The method `Block.deleteBlock`, which is outside the sources
at hand, is the parameter `deleteBlock`: the new state and its error. -/
def DeleteBlocks {σ : Type} (deleteBlock : σ → String → σ × Option GoError) :
    σ → List String → σ × List BlockOperationResult × Option String
  | st, [] => (st, [], none)
  | st, cid :: rest =>
    let d := deleteBlock st cid
    let r := DeleteBlocks deleteBlock d.1 rest
    match d.2 with
    | none => r
    | some err =>
      if err = GoError.ErrNotFound then r
      else (r.1, { Cid := cid, ErrMsg := err.Error } :: r.2.1, none)

/-- What `deleteBlock` returns for each CID as the loop of `DeleteBlocks` goes
through the list, in order. -/
def deleteOutcomes {σ : Type} (deleteBlock : σ → String → σ × Option GoError) :
    σ → List String → List (String × Option GoError)
  | _, [] => []
  | st, cid :: rest =>
    (cid, (deleteBlock st cid).2) :: deleteOutcomes deleteBlock (deleteBlock st cid).1 rest

/-- The entry of the result list that an outcome of `deleteBlock` gives rise
to: one for an error other than `datastore.ErrNotFound`, none otherwise. -/
def failedDeletion (outcome : String × Option GoError) : Option BlockOperationResult :=
  match outcome.2 with
  | some (GoError.other msg) => some { Cid := outcome.1, ErrMsg := msg }
  | _ => none

/-- A block store as the list of its keys, where the key `locked` cannot be
deleted. -/
def sampleDeleteBlock (store : List String) (cid : String) : List String × Option GoError :=
  if cid = "locked" then (store, some (GoError.other "permission denied"))
  else if cid ∈ store then (store.filter (fun k => decide (k ≠ cid)), none)
  else (store, some GoError.ErrNotFound)

/-- Successive calls of `dispatchCache` on one carfile record, each with its
cache argument: the back ends and the record afterwards, and the number of
calls that reached `startCache`. -/
def Data.dispatchCaches {δ : Type} (env : SchedEnv δ) :
    δ → Data → List (Option Cache) → δ × Data × Nat
  | db, d, [] => (db, d, 0)
  | db, d, cache :: rest =>
    let r := d.dispatchCache env db cache
    let out := Data.dispatchCaches env r.db r.data rest
    (out.1, out.2.1, (if r.started then 1 else 0) + out.2.2)

/-- A scheduler like `sampleSched` whose `startCache` fails. -/
def failingStartSched : SchedEnv Nat :=
  { sampleSched with startCache := fun db _ _ => (db, some "no node") }

/-! ### Scheduler side: creating rows (`CreateCache`, `SaveCacheingResults`) -/

/-- Modelled from the spec: the statements that create the tables are not part
of the sources at hand. The spec gives the keys of the block table,
"`block_info_<area>(id PK, ...)`; unique `(cache_id, cid_hash)`": the server
refuses an `INSERT` that repeats the `id` or the pair `(cache_id, cid_hash)` of
a row of the table (`none`), and otherwise adds the row. -/
def SqlDB.insertBlock (db : SqlDB) (b : BlockInfo) : Option SqlDB :=
  if db.blockInfo.any (fun r =>
      decide (r.ID = b.ID) || decide (r.CacheID = b.CacheID ∧ r.CIDHash = b.CIDHash)) then
    none
  else some { db with blockInfo := db.blockInfo ++ [b] }

/-- Modelled from the spec: the statements that create the tables are not part
of the sources at hand. The spec gives the key of the cache table,
"`cache_info_<area>(cache_id PK, ...)`": the server refuses an `INSERT` that
repeats the `cache_id` of a row of the table (`none`), and otherwise adds the
row. -/
def SqlDB.insertCache (db : SqlDB) (c : CacheRow) : Option SqlDB :=
  if db.cacheInfo.any (fun r => decide (r.CacheID = c.CacheID)) then none
  else some { db with cacheInfo := db.cacheInfo ++ [c] }

/-- Go `sqlDB.CreateCache`: the tables after the commit, `none` when `MustExec`
panics on a refused statement, in which case nothing is committed. Columns
that the statements do not name are 0, empty or, for the status of the block,
Pending. -/
def SqlDB.CreateCache (db : SqlDB) (cInfo : CacheRow) (bInfo : BlockInfo) : Option SqlDB :=
  match db.insertCache
      { CacheID := cInfo.CacheID, CarfileHash := cInfo.CarfileHash, Status := cInfo.Status,
        RootCache := cInfo.RootCache, DoneSize := 0, DoneBlocks := 0, TotalSize := 0,
        TotalBlocks := 0, Reliability := 0, Nodes := 0, EndTime := none } with
  | none => none
  | some db1 =>
    db1.insertBlock
      { ID := bInfo.ID, CacheID := bInfo.CacheID, CarfileHash := bInfo.CarfileHash,
        CID := bInfo.CID, CIDHash := bInfo.CIDHash, DeviceID := "", FID := 0, Size := 0,
        Reliability := 0, Source := "", Status := CacheStatus.Pending, EndTime := none }

/-- The loop over `createBlocks` in `SaveCacheingResults`: a block with an id
updates the row with that id, a block without one is inserted under a fresh
id, `uuid` being the value of `REPLACE(UUID(),"-","")` at that moment. -/
def SqlDB.saveCreateBlocks (uuid : SqlDB → String) : SqlDB → List BlockInfo → Option SqlDB
  | db, [] => some db
  | db, info :: rest =>
    if info.ID ≠ "" then
      SqlDB.saveCreateBlocks uuid
        { db with blockInfo := db.blockInfo.map (fun b =>
            if b.ID = info.ID then
              { b with Size := info.Size, Reliability := info.Reliability,
                       DeviceID := info.DeviceID, FID := info.FID, Source := info.Source,
                       Status := info.Status }
            else b) }
        rest
    else
      match db.insertBlock { info with ID := uuid db, EndTime := none } with
      | none => none
      | some db1 => SqlDB.saveCreateBlocks uuid db1 rest

/-- Go `sqlDB.SaveCacheingResults`: the tables after the commit, `none` when
`MustExec` panics on a refused statement, in which case nothing is committed.
A `nil` argument is `none` (an empty list for `createBlocks`). -/
def SqlDB.SaveCacheingResults (db : SqlDB) (env : SqlEnv) (uuid : SqlDB → String)
    (dInfo : Option DataInfo) (cInfo : Option CacheInfo) (blockResult : Option BlockInfo)
    (createBlocks : List BlockInfo) : Option SqlDB :=
  let db1 : SqlDB :=
    match dInfo with
    | none => db
    | some dInfo =>
      { db with dataInfo := db.dataInfo.map (fun d =>
          if d.CarfileHash = dInfo.CarfileHash then
            { d with TotalSize := dInfo.TotalSize, Reliability := dInfo.Reliability,
                     CacheCount := dInfo.CacheCount, TotalBlocks := dInfo.TotalBlocks }
          else d) }
  let db2 : SqlDB :=
    match cInfo with
    | none => db1
    | some cInfo =>
      { db1 with cacheInfo := db1.cacheInfo.map (fun c =>
          if c.CacheID = cInfo.CacheID then
            { c with DoneSize := cInfo.DoneSize, DoneBlocks := cInfo.DoneBlocks,
                     Reliability := cInfo.Reliability, Status := cInfo.Status,
                     TotalSize := cInfo.TotalSize, TotalBlocks := cInfo.TotalBlocks }
          else c) }
  let db3 : SqlDB :=
    match blockResult with
    | none => db2
    | some blockResult =>
      { db2 with blockInfo := db2.blockInfo.map (fun b =>
          if b.ID = blockResult.ID then
            { b with Status := blockResult.Status, Size := blockResult.Size,
                     Reliability := blockResult.Reliability, DeviceID := blockResult.DeviceID,
                     EndTime := some env.now }
          else b) }
  SqlDB.saveCreateBlocks uuid db3 createBlocks

/-- A call of `CreateCache` or of `SaveCacheingResults` with its arguments. -/
inductive SqlCall where
  | CreateCache (cInfo : CacheRow) (bInfo : BlockInfo)
  | SaveCacheingResults (dInfo : Option DataInfo) (cInfo : Option CacheInfo)
      (blockResult : Option BlockInfo) (createBlocks : List BlockInfo)

/-- The tables after one call: what the call committed, or the tables as they
were when the call panicked. -/
def SqlDB.call (db : SqlDB) (env : SqlEnv) (uuid : SqlDB → String) : SqlCall → SqlDB
  | SqlCall.CreateCache cInfo bInfo => (db.CreateCache cInfo bInfo).getD db
  | SqlCall.SaveCacheingResults dInfo cInfo blockResult createBlocks =>
    (db.SaveCacheingResults env uuid dInfo cInfo blockResult createBlocks).getD db

/-- The tables after a sequence of calls. -/
def SqlDB.calls (db : SqlDB) (env : SqlEnv) (uuid : SqlDB → String) (cs : List SqlCall) :
    SqlDB :=
  cs.foldl (fun db c => db.call env uuid c) db

/-- No two rows of the block table have the same pair `(cache_id, cid_hash)`. -/
def UniqueCacheCid (rows : List BlockInfo) : Prop :=
  rows.Pairwise (fun a b => ¬ (a.CacheID = b.CacheID ∧ a.CIDHash = b.CIDHash))

/-- Tables without rows. -/
def emptySql : SqlDB := { dataInfo := [], cacheInfo := [], blockInfo := [] }

/-- Fresh ids by the number of block rows: `u`, `uu`, `uuu` and so on. -/
def sampleUuid (db : SqlDB) : String :=
  String.mk (List.replicate (db.blockInfo.length + 1) 'u')

/-- A block of cache `c1` still to be created: no id yet. -/
def newBlockRow (cid : String) : BlockInfo := sampleBlockRow "" "c1" cid "" CacheStatus.Pending none

/-- The attempt `c1` is created with its root block `cid1`; a call that creates
the blocks `cid2` and, once more, `cid1`; a call that creates the block `cid2`. -/
def sampleCalls : List SqlCall :=
  [SqlCall.CreateCache (sampleCacheRow "c1" CacheStatus.Running 0)
     (sampleBlockRow "b1" "c1" "cid1" "" CacheStatus.Pending none),
   SqlCall.SaveCacheingResults none none none [newBlockRow "cid2", newBlockRow "cid1"],
   SqlCall.SaveCacheingResults none none none [newBlockRow "cid2"]]

/-! ### Node side: the rounds of `loadBlocks` -/

/-- The calls of `loadBlocks` that one call sets off, itself first and then the
recursive calls in order, each as the placements it received and the placements
it handed to the block loader (none when the filter left nothing to fetch): the
recursion of `loadBlocksFuel`, recording the calls instead of the results. -/
def loadRoundsFuel {σ : Type} (env : Env σ) :
    Nat → σ → List delayReq → Option (List (List delayReq × List delayReq))
  | 0, _, _ => none
  | fuel + 1, st, reqs =>
    let f := filterAvailableReq env st reqs
    if f.results.length = 0 then some [(reqs, [])]
    else
      let reqMap := buildReqMap f.results
      let loaded := env.blockLoader f.store f.results
      match loaded.2 with
      | none => some [(reqs, f.results)]
      | some blocks =>
        let s := saveLoaded env loaded.1 reqMap blocks
        let t := retryOrFail env (env.rangeOrder s.reqMap)
        if t.2.length > 0 then
          (loadRoundsFuel env fuel s.store t.2).map (fun r => (reqs, f.results) :: r)
        else some [(reqs, f.results)]

/-- The calls of `loadBlocks` for a batch. -/
def loadRounds {σ : Type} (env : Env σ) (st : σ) (reqs : List delayReq) :
    Option (List (List delayReq × List delayReq)) :=
  loadRoundsFuel env (retryFuel env reqs) st reqs

/-- A call of `loadBlocks` and the recursive call it makes: every placement of
the recursive call is a placement of the calling round whose count was below
the retry number, with the count increased by one. -/
def RetryStep {σ : Type} (env : Env σ) (calling recursive : List delayReq × List delayReq) :
    Prop :=
  ∀ r ∈ recursive.1, ∃ v ∈ calling.1,
    v.count < env.BlockDownloadRetryNum ∧ r = { v with count := v.count + 1 }

/-- Go `sqlDB.IsNilErr`, on the message of the error. -/
def IsNilErr (err : String) : Bool := decide (err = errNotFind)

/-! ## Part II. Theorems -/

/-! ### The list of carfiles in progress -/

lemma getElementFromList_eq_none {l : List carfile} {h : String}
    (hl : ∀ c ∈ l, c.carfileHash ≠ h) : getElementFromList l h = none := by
  induction l with
  | nil => rfl
  | cons c rest ih =>
    have hc : c.carfileHash ≠ h := hl c (List.mem_cons_self _ _)
    have hr : ∀ c ∈ rest, c.carfileHash ≠ h := fun x hx => hl x (List.mem_cons_of_mem _ hx)
    simp [getElementFromList, hc, ih hr]

lemma getElementFromList_split {pre post : List carfile} {cf : carfile} {h : String}
    (hcf : cf.carfileHash = h) (hpre : ∀ c ∈ pre, c.carfileHash ≠ h) :
    getElementFromList (pre ++ cf :: post) h = some pre.length := by
  induction pre with
  | nil => simp [getElementFromList, hcf]
  | cons c rest ih =>
    have hc : c.carfileHash ≠ h := hpre c (List.mem_cons_self _ _)
    have hr : ∀ c ∈ rest, c.carfileHash ≠ h := fun x hx => hpre x (List.mem_cons_of_mem _ hx)
    simp [getElementFromList, hc, ih hr]

lemma getElementFromList_some {l : List carfile} {h : String} {e : Nat}
    (he : getElementFromList l h = some e) :
    ∃ pre cf post, l = pre ++ cf :: post ∧ cf.carfileHash = h ∧
      (∀ c ∈ pre, c.carfileHash ≠ h) ∧ e = pre.length := by
  induction l generalizing e with
  | nil => simp [getElementFromList] at he
  | cons c rest ih =>
    by_cases hc : c.carfileHash = h
    · simp [getElementFromList, hc] at he
      exact ⟨[], c, rest, rfl, hc, by simp, by simp [← he]⟩
    · simp [getElementFromList, hc] at he
      obtain ⟨a, ha, hae⟩ := he
      obtain ⟨pre, cf, post, hl, hcf, hpre, hlen⟩ := ih ha
      refine ⟨c :: pre, cf, post, by simp [hl], hcf, ?_, by simp [← hae, hlen]⟩
      intro x hx
      rcases List.mem_cons.1 hx with rfl | hx
      · exact hc
      · exact hpre x hx

lemma getElementFromList_none_iff {l : List carfile} {h : String} :
    getElementFromList l h = none ↔ ∀ c ∈ l, c.carfileHash ≠ h := by
  constructor
  · intro hn c hc heq
    induction l with
    | nil => simp at hc
    | cons d rest ih =>
      by_cases hd : d.carfileHash = h
      · simp [getElementFromList, hd] at hn
      · simp [getElementFromList, hd] at hn
        rcases List.mem_cons.1 hc with rfl | hc
        · exact hd heq
        · exact ih hn hc
  · exact getElementFromList_eq_none

lemma updateElement_split (f : carfile → carfile) (pre post : List carfile) (cf : carfile) :
    updateElement f (pre ++ cf :: post) pre.length = pre ++ f cf :: post := by
  induction pre with
  | nil => rfl
  | cons c rest ih => simp [updateElement, ih]

lemma removeElement_split (pre post : List carfile) (cf : carfile) :
    removeElement (pre ++ cf :: post) pre.length = pre ++ post := by
  induction pre with
  | nil => rfl
  | cons c rest ih => simp [removeElement, ih]

lemma updateElement_map_hash (f : carfile → carfile)
    (hf : ∀ c, (f c).carfileHash = c.carfileHash) (l : List carfile) (e : Nat) :
    (updateElement f l e).map carfile.carfileHash = l.map carfile.carfileHash := by
  induction l generalizing e with
  | nil => rfl
  | cons c rest ih =>
    cases e with
    | zero => simp [updateElement, hf]
    | succ n => simp [updateElement, ih]

lemma updateElement_length (f : carfile → carfile) (l : List carfile) (e : Nat) :
    (updateElement f l e).length = l.length := by
  induction l generalizing e with
  | nil => rfl
  | cons c rest ih =>
    cases e with
    | zero => simp [updateElement]
    | succ n => simp [updateElement, ih]

lemma removeElement_sublist (l : List carfile) (e : Nat) : (removeElement l e).Sublist l := by
  induction l generalizing e with
  | nil => exact List.Sublist.refl _
  | cons c rest ih =>
    cases e with
    | zero => exact List.sublist_cons_self _ _
    | succ n => exact (ih n).cons₂ _

lemma addReq2WaitList_found {l : List carfile} {req : ReqCacheData} {pre post : List carfile}
    {cf : carfile} (hl : l = pre ++ cf :: post) (hcf : cf.carfileHash = req.CardFileHash)
    (hpre : ∀ c ∈ pre, c.carfileHash ≠ req.CardFileHash) :
    addReq2WaitList l req =
      pre ++ { cf with delayReqs := cf.delayReqs ++ apiReq2DelayReq req } :: post := by
  subst hl
  simp only [addReq2WaitList, getElementFromList_split hcf hpre, updateElement_split]
  rfl

lemma addReq2WaitList_absent {l : List carfile} {req : ReqCacheData}
    (hl : ∀ c ∈ l, c.carfileHash ≠ req.CardFileHash) :
    addReq2WaitList l req =
      l ++ [{ carfileHash := req.CardFileHash, delayReqs := apiReq2DelayReq req }] := by
  simp only [addReq2WaitList, getElementFromList_eq_none hl]
  have h := updateElement_split (fun c => c.addReq (apiReq2DelayReq req)) l []
    { carfileHash := req.CardFileHash, delayReqs := [] }
  simpa [carfile.addReq] using h

lemma addReq2WaitList_nodup {l : List carfile} (req : ReqCacheData)
    (hl : (l.map carfile.carfileHash).Nodup) :
    ((addReq2WaitList l req).map carfile.carfileHash).Nodup := by
  cases he : getElementFromList l req.CardFileHash with
  | none =>
    have habs := getElementFromList_none_iff.1 he
    rw [addReq2WaitList_absent habs, List.map_append, List.nodup_append]
    refine ⟨hl, by simp, ?_⟩
    intro a ha hb
    simp only [List.map_cons, List.map_nil, List.mem_singleton] at hb
    obtain ⟨c, hc, rfl⟩ := List.mem_map.1 ha
    exact habs c hc hb
  | some e =>
    simp only [addReq2WaitList, he]
    rw [updateElement_map_hash (fun c => c.addReq (apiReq2DelayReq req)) (fun c => rfl)]
    exact hl

lemma WaitList.nodup {l : List carfile} (h : WaitList l) :
    (l.map carfile.carfileHash).Nodup := by
  induction h with
  | new => simp
  | add l req _ ih => exact addReq2WaitList_nodup req ih
  | take l e len _ ih =>
    rw [updateElement_map_hash (fun c => (c.removeReq len).2) (fun c => rfl)]
    exact ih
  | clear l e _ ih =>
    rw [updateElement_map_hash (fun c => { c with delayReqs := [] }) (fun c => rfl)]
    exact ih
  | remove l e _ ih => exact ih.sublist ((removeElement_sublist l e).map _)

/-- C3. `addReq2WaitList` appends the placements of the request to the first
entry with the carfile hash of the request when there is one, the list keeping
its length and the order of its entries; when there is none it pushes one new
entry with those placements at the tail; and every list reached from the empty
list has pairwise different carfile hashes, before and after the call. -/
theorem addReq2WaitList_append_or_push (l : List carfile) (req : ReqCacheData) :
    (∀ pre cf post, l = pre ++ cf :: post → cf.carfileHash = req.CardFileHash →
        (∀ c ∈ pre, c.carfileHash ≠ req.CardFileHash) →
        addReq2WaitList l req =
          pre ++ { cf with delayReqs := cf.delayReqs ++ apiReq2DelayReq req } :: post ∧
        (addReq2WaitList l req).length = l.length ∧
        (addReq2WaitList l req).map carfile.carfileHash = l.map carfile.carfileHash) ∧
    ((∀ c ∈ l, c.carfileHash ≠ req.CardFileHash) →
        addReq2WaitList l req =
          l ++ [{ carfileHash := req.CardFileHash, delayReqs := apiReq2DelayReq req }]) ∧
    (WaitList l → (l.map carfile.carfileHash).Nodup ∧
        ((addReq2WaitList l req).map carfile.carfileHash).Nodup) := by
  refine ⟨?_, fun habs => addReq2WaitList_absent habs, ?_⟩
  · intro pre cf post hl hcf hpre
    have h := addReq2WaitList_found hl hcf hpre
    refine ⟨h, ?_, ?_⟩
    · rw [h, hl]; simp
    · rw [h, hl]; simp
  · intro hw
    exact ⟨hw.nodup, (WaitList.add l req hw).nodup⟩

/-- C3, a worked instance: a second request for carfile `carA` extends the one
entry of the list, and the hashes stay pairwise different. -/
theorem addReq2WaitList_append_or_push_witness :
    WaitList (addReq2WaitList [] sampleReq) ∧
    addReq2WaitList (addReq2WaitList [] sampleReq) sampleReq =
      [{ carfileHash := "carA",
         delayReqs := apiReq2DelayReq sampleReq ++ apiReq2DelayReq sampleReq }] ∧
    ((addReq2WaitList (addReq2WaitList [] sampleReq) sampleReq).map
      carfile.carfileHash).Nodup :=
  have hw : WaitList (addReq2WaitList [] sampleReq) := WaitList.add [] sampleReq WaitList.new
  ⟨hw,
   ((addReq2WaitList_append_or_push (addReq2WaitList [] sampleReq) sampleReq).1 []
      { carfileHash := "carA", delayReqs := apiReq2DelayReq sampleReq } [] (by decide)
      (by decide) (by simp)).1,
   ((addReq2WaitList_append_or_push (addReq2WaitList [] sampleReq) sampleReq).2.2 hw).2⟩

/-! ### `RemoveWaitCacheBlockWith` -/

lemma removeElement_updateElement_split (f : carfile → carfile) (pre post : List carfile)
    (cf : carfile) :
    removeElement (updateElement f (pre ++ cf :: post) pre.length) pre.length = pre ++ post := by
  rw [updateElement_split, removeElement_split]

lemma filter_hash_split {pre post : List carfile} {cf : carfile} {h : String}
    (hcf : cf.carfileHash = h)
    (hnd : ((pre ++ cf :: post).map carfile.carfileHash).Nodup) :
    (pre ++ cf :: post).filter (fun c => decide (c.carfileHash ≠ h)) = pre ++ post := by
  rw [List.map_append, List.map_cons, List.nodup_append] at hnd
  obtain ⟨_, hpost, hdisj⟩ := hnd
  rw [List.nodup_cons] at hpost
  have hpre : ∀ c ∈ pre, c.carfileHash ≠ h := by
    intro c hc heq
    exact hdisj (List.mem_map_of_mem _ hc) (by simp [heq, hcf])
  have hpo : ∀ c ∈ post, c.carfileHash ≠ h := by
    intro c hc heq
    exact hpost.1 (by rw [hcf, ← heq]; exact List.mem_map_of_mem _ hc)
  rw [List.filter_append, List.filter_cons]
  simp only [hcf, ne_eq, not_true_eq_false, decide_False, Bool.false_eq_true, ↓reduceIte]
  rw [List.filter_eq_self.2 (fun c hc => by simpa using hpre c hc),
    List.filter_eq_self.2 (fun c hc => by simpa using hpo c hc)]

/-- C6. When the carfile CID converts to the hash `carfileHash`,
`RemoveWaitCacheBlockWith` returns `nil`, leaves the node state (block store
included), the batch in flight and the posted results as they are, and changes
the list of carfiles as follows: the first entry with that hash is dropped with
its pending placements while the entries before and after it stay as they are
and in order; a list without such an entry is unchanged; and on a list with
pairwise different hashes exactly the entries with another hash remain. -/
theorem removeWaitCacheBlockWith_drops_entry {σ : Type} (env : Env σ) (block : Block σ)
    (carfileCID carfileHash : String)
    (hcid : env.CIDString2HashString carfileCID = .ok carfileHash) :
    (block.RemoveWaitCacheBlockWith env carfileCID).2 = none ∧
    (block.RemoveWaitCacheBlockWith env carfileCID).1.store = block.store ∧
    (block.RemoveWaitCacheBlockWith env carfileCID).1.cachingList = block.cachingList ∧
    (block.RemoveWaitCacheBlockWith env carfileCID).1.scheduler = block.scheduler ∧
    (∀ pre cf post, block.carfileList = pre ++ cf :: post → cf.carfileHash = carfileHash →
        (∀ c ∈ pre, c.carfileHash ≠ carfileHash) →
        (block.RemoveWaitCacheBlockWith env carfileCID).1.carfileList = pre ++ post) ∧
    ((∀ c ∈ block.carfileList, c.carfileHash ≠ carfileHash) →
        (block.RemoveWaitCacheBlockWith env carfileCID).1.carfileList = block.carfileList) ∧
    ((block.carfileList.map carfile.carfileHash).Nodup →
        (block.RemoveWaitCacheBlockWith env carfileCID).1.carfileList =
          block.carfileList.filter (fun c => decide (c.carfileHash ≠ carfileHash))) := by
  have hsplit : ∀ pre cf post, block.carfileList = pre ++ cf :: post →
      cf.carfileHash = carfileHash → (∀ c ∈ pre, c.carfileHash ≠ carfileHash) →
      (block.RemoveWaitCacheBlockWith env carfileCID).1.carfileList = pre ++ post := by
    intro pre cf post hl hcf hpre
    simp only [Block.RemoveWaitCacheBlockWith, hcid, hl, getElementFromList_split hcf hpre]
    exact removeElement_updateElement_split _ pre post cf
  have habs : (∀ c ∈ block.carfileList, c.carfileHash ≠ carfileHash) →
      (block.RemoveWaitCacheBlockWith env carfileCID).1.carfileList = block.carfileList := by
    intro h
    simp only [Block.RemoveWaitCacheBlockWith, hcid, getElementFromList_eq_none h]
  refine ⟨?_, ?_, ?_, ?_, hsplit, habs, ?_⟩
  · simp only [Block.RemoveWaitCacheBlockWith, hcid]
    cases getElementFromList block.carfileList carfileHash <;> rfl
  · simp only [Block.RemoveWaitCacheBlockWith, hcid]
    cases getElementFromList block.carfileList carfileHash <;> rfl
  · simp only [Block.RemoveWaitCacheBlockWith, hcid]
    cases getElementFromList block.carfileList carfileHash <;> rfl
  · simp only [Block.RemoveWaitCacheBlockWith, hcid]
    cases getElementFromList block.carfileList carfileHash <;> rfl
  · intro hnd
    cases he : getElementFromList block.carfileList carfileHash with
    | none =>
      have h := getElementFromList_none_iff.1 he
      rw [habs h]
      exact (List.filter_eq_self.2 (fun c hc => by simpa using h c hc)).symm
    | some e =>
      obtain ⟨pre, cf, post, hl, hcf, hpre, _⟩ := getElementFromList_some he
      rw [hsplit pre cf post hl hcf hpre, hl]
      rw [hl] at hnd
      exact (filter_hash_split hcf hnd).symm

/-- C6, a worked instance: removing carfile `carA` from a list of two carfiles
leaves the entry of `carB` alone. -/
theorem removeWaitCacheBlockWith_drops_entry_witness :
    failingLoaderEnv.CIDString2HashString "carA" = .ok "carA" ∧
    (Block.RemoveWaitCacheBlockWith failingLoaderEnv
      { store := 0, scheduler := [], cachingList := [],
        carfileList := [{ carfileHash := "carA", delayReqs := [samplePlacement "c1" 1 0] },
                        { carfileHash := "carB", delayReqs := [samplePlacement "c2" 2 0] }] }
      "carA").1.carfileList
      = [{ carfileHash := "carB", delayReqs := [samplePlacement "c2" 2 0] }] :=
  ⟨rfl,
   (removeWaitCacheBlockWith_drops_entry failingLoaderEnv
      { store := 0, scheduler := [], cachingList := [],
        carfileList := [{ carfileHash := "carA", delayReqs := [samplePlacement "c1" 1 0] },
                        { carfileHash := "carB", delayReqs := [samplePlacement "c2" 2 0] }] }
      "carA" "carA" rfl).2.2.2.2.1 []
      { carfileHash := "carA", delayReqs := [samplePlacement "c1" 1 0] }
      [{ carfileHash := "carB", delayReqs := [samplePlacement "c2" 2 0] }] rfl rfl (by simp)⟩

/-! ### The request map of `loadBlocks` -/

lemma filterAvailableReq_results_sublist {σ : Type} (env : Env σ) (st : σ)
    (reqs : List delayReq) : (filterAvailableReq env st reqs).results.Sublist reqs := by
  induction reqs generalizing st with
  | nil => simp [filterAvailableReq]
  | cons q rest ih =>
    simp only [filterAvailableReq]
    split
    · exact (ih _).cons _
    · split
      · split
        · exact (ih _).cons _
        · exact (ih _).cons _
      · exact (ih _).cons₂ _

lemma mem_reqMapSet {m : List (String × delayReq)} {k : String} {v : delayReq}
    {p : String × delayReq} (h : p ∈ reqMapSet m k v) : p ∈ m ∨ p = (k, v) := by
  induction m with
  | nil => simpa [reqMapSet] using h
  | cons q rest ih =>
    by_cases hq : q.1 = k
    · simp only [reqMapSet, hq, if_true, List.mem_cons] at h
      rcases h with h | h
      · exact Or.inr h
      · exact Or.inl (List.mem_cons_of_mem _ h)
    · simp only [reqMapSet, hq, if_false, List.mem_cons] at h
      rcases h with h | h
      · exact Or.inl (h ▸ List.mem_cons_self _ _)
      · rcases ih h with h | h
        · exact Or.inl (List.mem_cons_of_mem _ h)
        · exact Or.inr h

lemma reqMapSet_keys_nodup {m : List (String × delayReq)} (k : String) (v : delayReq)
    (hm : (m.map Prod.fst).Nodup) : ((reqMapSet m k v).map Prod.fst).Nodup := by
  induction m with
  | nil => simp [reqMapSet]
  | cons q rest ih =>
    rw [List.map_cons, List.nodup_cons] at hm
    by_cases hq : q.1 = k
    · simp only [reqMapSet, hq, if_true, List.map_cons, List.nodup_cons]
      exact ⟨hq ▸ hm.1, hm.2⟩
    · simp only [reqMapSet, hq, if_false, List.map_cons, List.nodup_cons]
      refine ⟨?_, ih hm.2⟩
      intro hmem
      obtain ⟨p, hp, hpk⟩ := List.mem_map.1 hmem
      rcases mem_reqMapSet hp with h | h
      · exact hm.1 (hpk ▸ List.mem_map_of_mem _ h)
      · exact hq (by rw [← hpk, h])

lemma foldl_reqMapSet_over (reqs all : List delayReq) (m : List (String × delayReq))
    (hsub : ∀ r ∈ reqs, r ∈ all) (hm : ReqMapOver all m) :
    ReqMapOver all (reqs.foldl (fun m req => reqMapSet m req.blockInfo.Cid req) m) := by
  induction reqs generalizing m with
  | nil => exact hm
  | cons q rest ih =>
    rw [List.foldl_cons]
    apply ih _ (fun r hr => hsub r (List.mem_cons_of_mem _ hr))
    refine ⟨reqMapSet_keys_nodup _ _ hm.1, ?_⟩
    intro p hp
    rcases mem_reqMapSet hp with h | h
    · exact hm.2 p h
    · subst h
      exact ⟨rfl, hsub q (List.mem_cons_self _ _)⟩

lemma buildReqMap_over (reqs : List delayReq) : ReqMapOver reqs (buildReqMap reqs) :=
  foldl_reqMapSet_over reqs reqs [] (fun _ h => h) ⟨by simp, by simp⟩

lemma ReqMapOver.sublist {reqs : List delayReq} {m m' : List (String × delayReq)}
    (hm : ReqMapOver reqs m) (hs : m'.Sublist m) : ReqMapOver reqs m' :=
  ⟨hm.1.sublist (hs.map _), fun p hp => hm.2 p (hs.subset hp)⟩

lemma ReqMapOver.perm {reqs : List delayReq} {m m' : List (String × delayReq)}
    (hm : ReqMapOver reqs m) (hs : m'.Perm m) : ReqMapOver reqs m' :=
  ⟨(hs.map _).nodup_iff.2 hm.1, fun p hp => hm.2 p (hs.subset hp)⟩

lemma ReqMapOver.mono {reqs reqs' : List delayReq} {m : List (String × delayReq)}
    (hm : ReqMapOver reqs m) (hs : ∀ r ∈ reqs, r ∈ reqs') : ReqMapOver reqs' m :=
  ⟨hm.1, fun p hp => ⟨(hm.2 p hp).1, hs _ (hm.2 p hp).2⟩⟩

lemma saveLoaded_reqMap_sublist {σ : Type} (env : Env σ) (st : σ)
    (m : List (String × delayReq)) (blocks : List IpfsBlock) :
    (saveLoaded env st m blocks).reqMap.Sublist m := by
  induction blocks generalizing st m with
  | nil => simp [saveLoaded]
  | cons b rest ih =>
    simp only [saveLoaded]
    split
    · exact ih _ _
    · split
      · exact ih _ _
      · split
        · exact ih _ _
        · exact (ih _ _).trans (List.filter_sublist _)

lemma mem_retryOrFail_retry {σ : Type} (env : Env σ) {m : List (String × delayReq)}
    {r : delayReq} :
    r ∈ (retryOrFail env m).2 ↔
      ∃ p ∈ m, p.2.count < env.BlockDownloadRetryNum ∧ r = { p.2 with count := p.2.count + 1 } := by
  induction m with
  | nil => simp [retryOrFail]
  | cons q rest ih =>
    by_cases hq : q.2.count ≥ env.BlockDownloadRetryNum
    · simp only [retryOrFail, hq, if_true, ih, List.mem_cons, exists_eq_or_imp]
      constructor
      · intro h; exact Or.inr h
      · rintro (⟨h, _⟩ | h)
        · omega
        · exact h
    · simp only [retryOrFail, hq, if_false, List.mem_cons, ih, exists_eq_or_imp]
      constructor
      · rintro (h | h)
        · exact Or.inl ⟨by omega, h⟩
        · exact Or.inr h
      · rintro (⟨_, h⟩ | h)
        · exact Or.inl h
        · exact Or.inr h

/-- The placements tried again after a round are placements of the round with
retries left, their counts increased by one. -/
lemma retry_of_round {σ : Type} (env : Env σ) (st : σ) (reqs : List delayReq) (st1 : σ)
    (blocks : List IpfsBlock) {r : delayReq}
    (hr : r ∈ (retryOrFail env (env.rangeOrder
      (saveLoaded env st1 (buildReqMap (filterAvailableReq env st reqs).results)
        blocks).reqMap)).2) :
    ∃ v ∈ reqs, v.count < env.BlockDownloadRetryNum ∧ r = { v with count := v.count + 1 } := by
  obtain ⟨p, hp, hlt, rfl⟩ := (mem_retryOrFail_retry env).1 hr
  have h1 := (env.rangeOrder_perm _).subset hp
  have h2 := (saveLoaded_reqMap_sublist env st1 _ blocks).subset h1
  have h3 := ((buildReqMap_over _).2 p h2).2
  exact ⟨p.2, (filterAvailableReq_results_sublist env st reqs).subset h3, hlt, rfl⟩

/-- Termination of `loadBlocks`: `fuel + 1` rounds are enough for a batch none of
whose placements has more than `fuel` retries left. -/
lemma loadBlocksFuel_isSome {σ : Type} (env : Env σ) (fuel : Nat) (st : σ)
    (reqs : List delayReq)
    (h : ∀ r ∈ reqs, (env.BlockDownloadRetryNum - r.count).toNat ≤ fuel) :
    (loadBlocksFuel env (fuel + 1) st reqs).isSome = true := by
  induction fuel generalizing st reqs with
  | zero =>
    simp only [loadBlocksFuel]
    split
    · rfl
    · split
      · rfl
      · rename_i blocks hb
        split
        · rename_i hpos
          obtain ⟨r, hr⟩ := List.exists_mem_of_length_pos hpos
          obtain ⟨v, hv, hlt, _⟩ := retry_of_round env st reqs _ blocks hr
          have := h v hv
          omega
        · rfl
  | succ n ih =>
    rw [loadBlocksFuel]
    simp only []
    split
    · rfl
    · split
      · rfl
      · rename_i blocks hb
        split
        · rw [Option.isSome_map']
          apply ih
          intro r hr
          obtain ⟨v, hv, hlt, rfl⟩ := retry_of_round env st reqs _ blocks hr
          have := h v hv
          simp only
          omega
        · rfl

lemma le_foldr_max (l : List Nat) {a : Nat} (ha : a ∈ l) : a ≤ l.foldr max 0 := by
  induction l with
  | nil => simp at ha
  | cons b rest ih =>
    rw [List.foldr_cons]
    rcases List.mem_cons.1 ha with rfl | h
    · exact le_max_left _ _
    · exact le_trans (ih h) (le_max_right _ _)

/-- `loadBlocks` returns for every batch. -/
lemma loadBlocks_isSome {σ : Type} (env : Env σ) (st : σ) (reqs : List delayReq) :
    (loadBlocks env st reqs).isSome = true := by
  unfold loadBlocks retryFuel
  apply loadBlocksFuel_isSome
  intro r hr
  exact le_foldr_max _ (List.mem_map_of_mem _ hr)

/-! ### The worker loop `doLoadBlock` -/

lemma take_doLen (Batch : Nat) (l : List delayReq) :
    l.take (if l.length > Batch then Batch else l.length) = l.take Batch := by
  split
  · rfl
  · rw [List.take_length, List.take_of_length_le (by omega)]

lemma drop_doLen (Batch : Nat) (l : List delayReq) :
    l.drop (if l.length > Batch then Batch else l.length) = l.drop Batch := by
  split
  · rfl
  · rw [List.drop_length, List.drop_of_length_le (by omega)]

lemma doLoadBlockFuel_nil {σ : Type} (env : Env σ) (n : Nat) (block : Block σ)
    (hl : block.carfileList = []) : doLoadBlockFuel env (n + 1) block = some (block, []) := by
  simp only [doLoadBlockFuel, hl]

lemma doLoadBlockFuel_remove {σ : Type} (env : Env σ) (n : Nat) (block : Block σ)
    (cf : carfile) (rest : List carfile) (hl : block.carfileList = cf :: rest)
    (hcf : cf.delayReqs = []) :
    doLoadBlockFuel env (n + 1) block =
      (doLoadBlockFuel env n { block with carfileList := rest }).map
        (fun out => (out.1, LoadEvent.remove cf.carfileHash :: out.2)) := by
  simp only [doLoadBlockFuel, hl, hcf, List.length_nil, gt_iff_lt, lt_self_iff_false, if_false]

lemma doLoadBlockFuel_load {σ : Type} (env : Env σ) (n : Nat) (block : Block σ)
    (cf : carfile) (rest : List carfile) (hl : block.carfileList = cf :: rest)
    (hcf : cf.delayReqs ≠ []) (r : σ × List CacheResultInfo)
    (hr : loadBlocks env block.store (cf.delayReqs.take env.Batch) = some r) :
    doLoadBlockFuel env (n + 1) block =
      (doLoadBlockFuel env n
        { store := r.1, scheduler := block.scheduler ++ r.2, cachingList := [],
          carfileList := { cf with delayReqs := cf.delayReqs.drop env.Batch } :: rest }).map
        (fun out => (out.1, LoadEvent.load cf.carfileHash cf.delayReqs
          (cf.delayReqs.take env.Batch)
          { block with
            carfileList := { cf with delayReqs := cf.delayReqs.drop env.Batch } :: rest,
            cachingList := cf.delayReqs.take env.Batch } :: out.2)) := by
  have hpos : cf.delayReqs.length > 0 := List.length_pos.2 hcf
  simp only [doLoadBlockFuel, hl, hpos, if_true, carfile.removeReq, take_doLen, drop_doLen, hr]

lemma doLoadFuel_pos (l : List carfile) : 0 < doLoadFuel l := by
  unfold doLoadFuel; omega

lemma doLoadFuel_cons (cf : carfile) (rest : List carfile) :
    doLoadFuel (cf :: rest) = cf.delayReqs.length + 1 + doLoadFuel rest := by
  simp only [doLoadFuel, List.map_cons, List.sum_cons]; omega

lemma LoadEvent.IsBatchOf.of_suffix {σ : Type} {Batch : Nat} {h : String}
    {l l' : List delayReq} {ev : LoadEvent σ} (hs : l <:+ l')
    (hev : ev.IsBatchOf Batch h l) : ev.IsBatchOf Batch h l' := by
  obtain ⟨p, d, b, h1, h2, h3, h4, h5, h6, h7⟩ := hev
  exact ⟨p, d, b, h1, h2, h3, h4, h5, h6.trans hs, h7⟩

/-- What `doLoadBlock` does when the batch size is positive: it returns, the
list of carfiles is empty in the end, no batch is in flight in the end when none
was at the start, and its events are, entry after entry in list order, the
batches of the entry followed by the removal of the entry. -/
lemma doLoadBlockFuel_trace {σ : Type} (env : Env σ) (hB : 0 < env.Batch) (fuel : Nat)
    (block : Block σ) (hfuel : doLoadFuel block.carfileList ≤ fuel) :
    ∃ out groups, doLoadBlockFuel env fuel block = some out ∧ out.1.carfileList = [] ∧
      (block.cachingList = [] → out.1.cachingList = []) ∧
      out.2 = groups.flatten ∧ List.Forall₂ (EntryTrace env.Batch) block.carfileList groups := by
  induction fuel generalizing block with
  | zero => have := doLoadFuel_pos block.carfileList; omega
  | succ n ih =>
    cases hl : block.carfileList with
    | nil =>
      exact ⟨(block, []), [], doLoadBlockFuel_nil env n block hl, hl, fun h => h, rfl,
        List.Forall₂.nil⟩
    | cons cf rest =>
      rw [hl, doLoadFuel_cons] at hfuel
      by_cases hcf : cf.delayReqs = []
      · obtain ⟨out, groups, ho, hemp, _, hj, hall⟩ :=
          ih { block with carfileList := rest } (by simp only; omega)
        refine ⟨(out.1, LoadEvent.remove cf.carfileHash :: out.2),
          [LoadEvent.remove cf.carfileHash] :: groups, ?_, hemp, ?_, ?_, ?_⟩
        · rw [doLoadBlockFuel_remove env n block cf rest hl hcf, ho]; rfl
        · intro h
          have hc : out.1.cachingList = [] := by
            rename_i hcach
            exact hcach h
          exact hc
        · simp [hj]
        · exact List.Forall₂.cons ⟨[], rfl, by simp [hcf], by simp⟩ hall
      · have hsome := loadBlocks_isSome env block.store (cf.delayReqs.take env.Batch)
        obtain ⟨r, hr⟩ := Option.isSome_iff_exists.1 hsome
        have hlen : 0 < cf.delayReqs.length := List.length_pos.2 hcf
        obtain ⟨out, groups, ho, hemp, hcach, hj, hall⟩ :=
          ih { store := r.1, scheduler := block.scheduler ++ r.2, cachingList := [],
               carfileList := { cf with delayReqs := cf.delayReqs.drop env.Batch } :: rest }
            (by simp only [doLoadFuel_cons, List.length_drop]; omega)
        cases hall with
        | cons hg hgs =>
          rename_i g gs
          obtain ⟨loads, hgeq, hjoin, hev⟩ := hg
          simp only at hjoin hev hgeq
          let during : Block σ :=
            { block with
              carfileList := { cf with delayReqs := cf.delayReqs.drop env.Batch } :: rest,
              cachingList := cf.delayReqs.take env.Batch }
          let ev0 : LoadEvent σ :=
            LoadEvent.load cf.carfileHash cf.delayReqs (cf.delayReqs.take env.Batch) during
          refine ⟨(out.1, ev0 :: out.2), (ev0 :: g) :: gs, ?_, hemp, fun _ => hcach rfl, ?_, ?_⟩
          · rw [doLoadBlockFuel_load env n block cf rest hl hcf r hr, ho]; rfl
          · simp [hj]
          · refine List.Forall₂.cons ⟨ev0 :: loads, by simp [hgeq], ?_, ?_⟩ hgs
            · simp only [List.map_cons, List.flatten_cons, hjoin]
              exact List.take_append_drop _ _
            · intro ev hmem
              rcases List.mem_cons.1 hmem with rfl | hmem
              · refine ⟨_, _, _, rfl, rfl, ?_, ?_, ?_, List.suffix_refl _, rfl⟩
                · simp [List.length_take, Nat.min_comm]
                · simp only [List.length_take]; omega
                · simp only [List.length_take]; omega
              · exact (hev ev hmem).of_suffix (List.drop_suffix _ _)

/-- The same for `doLoadBlock` itself. -/
lemma doLoadBlock_trace {σ : Type} (env : Env σ) (hB : 0 < env.Batch) (block : Block σ) :
    ∃ out groups, doLoadBlock env block = some out ∧ out.1.carfileList = [] ∧
      (block.cachingList = [] → out.1.cachingList = []) ∧
      out.2 = groups.flatten ∧ List.Forall₂ (EntryTrace env.Batch) block.carfileList groups :=
  doLoadBlockFuel_trace env hB _ block (le_refl _)

lemma forall₂_of_mem_right {α β : Type} {R : α → β → Prop} {l : List α} {gs : List β}
    (h : List.Forall₂ R l gs) {g : β} (hg : g ∈ gs) : ∃ a ∈ l, R a g := by
  induction h with
  | nil => simp at hg
  | cons hab _ ih =>
    rcases List.mem_cons.1 hg with rfl | hg
    · exact ⟨_, List.mem_cons_self _ _, hab⟩
    · obtain ⟨a, ha, hr⟩ := ih hg
      exact ⟨a, List.mem_cons_of_mem _ ha, hr⟩

/-- C4. With a positive batch size `doLoadBlock` returns, the list of carfiles
is empty when it does, and what it did is, entry after entry from the head of
the list to its tail, this: the calls of `loadBlocks` for the entry, the batches
of which put together are the pending placements of the entry, and then the
removal of the entry. So every batch of an entry is handed over before any batch
of a later entry, and an entry is removed after its last batch. -/
theorem doLoadBlock_head_to_tail {σ : Type} (env : Env σ) (hB : 0 < env.Batch)
    (block : Block σ) :
    ∃ out groups, doLoadBlock env block = some out ∧ out.1.carfileList = [] ∧
      out.2 = groups.flatten ∧
      List.Forall₂ (fun cf g => ∃ loads, g = loads ++ [LoadEvent.remove cf.carfileHash] ∧
          (∀ ev ∈ loads, ∃ pending during,
            ev = LoadEvent.load cf.carfileHash pending ev.batch during) ∧
          (loads.map LoadEvent.batch).flatten = cf.delayReqs)
        block.carfileList groups := by
  obtain ⟨out, groups, ho, hemp, _, hj, hall⟩ := doLoadBlock_trace env hB block
  refine ⟨out, groups, ho, hemp, hj, hall.imp ?_⟩
  rintro cf g ⟨loads, hg, hjoin, hev⟩
  refine ⟨loads, hg, ?_, hjoin⟩
  intro ev hmem
  obtain ⟨p, d, b, rfl, _⟩ := hev ev hmem
  exact ⟨p, b, rfl⟩

/-- C4, a worked instance: the sample node, batch size 2, one carfile with three
pending placements. -/
theorem doLoadBlock_head_to_tail_witness :
    0 < failingLoaderEnv.Batch ∧
    ∃ out groups, doLoadBlock failingLoaderEnv sampleBlock = some out ∧
      out.1.carfileList = [] ∧ out.2 = groups.flatten ∧
      List.Forall₂ (fun cf g => ∃ loads, g = loads ++ [LoadEvent.remove cf.carfileHash] ∧
          (∀ ev ∈ loads, ∃ pending during,
            ev = LoadEvent.load cf.carfileHash pending ev.batch during) ∧
          (loads.map LoadEvent.batch).flatten = cf.delayReqs)
        sampleBlock.carfileList groups :=
  ⟨by decide, doLoadBlock_head_to_tail failingLoaderEnv (by decide) sampleBlock⟩

/-- C5. With a positive batch size, every batch that `doLoadBlock` takes from an
entry has length `min n Batch`, `n` being the number of placements pending on
the entry at that moment (what is left of the placements of the entry); the
batch is the first `Batch` of them, is not empty and is not longer than `Batch`;
and the batches of an entry put together in order are the pending placements of
the entry. -/
theorem doLoadBlock_batch_sizes {σ : Type} (env : Env σ) (hB : 0 < env.Batch)
    (block : Block σ) :
    ∃ out groups, doLoadBlock env block = some out ∧ out.2 = groups.flatten ∧
      List.Forall₂ (fun cf g =>
          (g.map LoadEvent.batch).flatten = cf.delayReqs ∧
          ∀ h pending doReqs during, LoadEvent.load h pending doReqs during ∈ g →
            h = cf.carfileHash ∧ pending <:+ cf.delayReqs ∧
            doReqs.length = min pending.length env.Batch ∧ doReqs = pending.take env.Batch ∧
            0 < doReqs.length ∧ doReqs.length ≤ env.Batch)
        block.carfileList groups := by
  obtain ⟨out, groups, ho, _, _, hj, hall⟩ := doLoadBlock_trace env hB block
  refine ⟨out, groups, ho, hj, hall.imp ?_⟩
  rintro cf g ⟨loads, hg, hjoin, hev⟩
  subst hg
  refine ⟨?_, ?_⟩
  · simp [hjoin, LoadEvent.batch]
  · intro h pending doReqs during hmem
    rw [List.mem_append, List.mem_singleton] at hmem
    rcases hmem with hmem | hmem
    · obtain ⟨p, d, b, heq, h2, h3, h4, h5, h6, _⟩ := hev _ hmem
      injection heq with e1 e2 e3 e4
      subst e1 e2 e3 e4
      exact ⟨rfl, h6, h3, h2, h4, h5⟩
    · exact absurd hmem (by simp)

/-- C5, a worked instance: the sample node, batch size 2, one carfile with three
pending placements. -/
theorem doLoadBlock_batch_sizes_witness :
    0 < failingLoaderEnv.Batch ∧
    ∃ out groups, doLoadBlock failingLoaderEnv sampleBlock = some out ∧
      out.2 = groups.flatten ∧
      List.Forall₂ (fun cf g =>
          (g.map LoadEvent.batch).flatten = cf.delayReqs ∧
          ∀ h pending doReqs during, LoadEvent.load h pending doReqs during ∈ g →
            h = cf.carfileHash ∧ pending <:+ cf.delayReqs ∧
            doReqs.length = min pending.length failingLoaderEnv.Batch ∧
            doReqs = pending.take failingLoaderEnv.Batch ∧
            0 < doReqs.length ∧ doReqs.length ≤ failingLoaderEnv.Batch)
        sampleBlock.carfileList groups :=
  ⟨by decide, doLoadBlock_batch_sizes failingLoaderEnv (by decide) sampleBlock⟩

/-! ### `QueryCacheStat` -/

lemma foldl_count_eq (l : List carfile) (count : Int) :
    l.foldl (fun count cf => count + (cf.delayReqs.length : Int)) count =
      count + ((l.map (fun cf => cf.delayReqs.length)).sum : Nat) := by
  induction l generalizing count with
  | nil => simp
  | cons cf rest ih =>
    rw [List.foldl_cons, ih, List.map_cons, List.sum_cons]
    push_cast
    ring

/-- C7. `QueryCacheStat` reports as `WaitCacheBlockNum` the sum over the entries
of the list of carfiles of their numbers of pending placements, as
`DoingCacheBlockNum` the length of `cachingList`, and as `RetryNum` and
`DownloadTimeout` the constants of package `helper`; and `cachingList` is the
batch in flight: while `doLoadBlock` runs a call of `loadBlocks` the number
reported is the size of the batch of that call, and after `doLoadBlock` has
returned it is 0 (when no batch was in flight at the start). -/
theorem queryCacheStat_counts {σ : Type} (env : Env σ) (block : Block σ) :
    (block.QueryCacheStat env).WaitCacheBlockNum =
      ((block.carfileList.map (fun cf => cf.delayReqs.length)).sum : Nat) ∧
    (block.QueryCacheStat env).DoingCacheBlockNum = (block.cachingList.length : Nat) ∧
    (block.QueryCacheStat env).RetryNum = env.BlockDownloadRetryNum ∧
    (block.QueryCacheStat env).DownloadTimeout = env.BlockDownloadTimeout ∧
    (0 < env.Batch → ∃ out, doLoadBlock env block = some out ∧
      (∀ h pending doReqs during, LoadEvent.load h pending doReqs during ∈ out.2 →
        (during.QueryCacheStat env).DoingCacheBlockNum = (doReqs.length : Nat)) ∧
      (block.cachingList = [] → (out.1.QueryCacheStat env).DoingCacheBlockNum = 0)) := by
  refine ⟨?_, rfl, rfl, rfl, ?_⟩
  · simp only [Block.QueryCacheStat, Block.getWaitCacheBlockNum, foldl_count_eq]
    simp
  · intro hB
    obtain ⟨out, groups, ho, _, hcach, hj, hall⟩ := doLoadBlock_trace env hB block
    refine ⟨out, ho, ?_, ?_⟩
    · intro h pending doReqs during hmem
      rw [hj, List.mem_flatten] at hmem
      obtain ⟨g, hg, hmem⟩ := hmem
      obtain ⟨cf, _, loads, hgeq, _, hev⟩ := forall₂_of_mem_right hall hg
      subst hgeq
      rw [List.mem_append, List.mem_singleton] at hmem
      rcases hmem with hmem | hmem
      · obtain ⟨p, d, b, heq, _, _, _, _, _, h7⟩ := hev _ hmem
        injection heq with e1 e2 e3 e4
        subst e1 e2 e3 e4
        simp only [Block.QueryCacheStat, h7]
      · exact absurd hmem (by simp)
    · intro h0
      simp only [Block.QueryCacheStat, hcach h0]
      rfl

/-- C7, a worked instance: the sample node, batch size 2, one carfile with three
pending placements and no batch in flight. -/
theorem queryCacheStat_counts_witness :
    (sampleBlock.QueryCacheStat failingLoaderEnv).WaitCacheBlockNum = 3 ∧
    (sampleBlock.QueryCacheStat failingLoaderEnv).DoingCacheBlockNum = 0 ∧
    0 < failingLoaderEnv.Batch ∧
    ∃ out, doLoadBlock failingLoaderEnv sampleBlock = some out ∧
      (∀ h pending doReqs during, LoadEvent.load h pending doReqs during ∈ out.2 →
        (during.QueryCacheStat failingLoaderEnv).DoingCacheBlockNum = (doReqs.length : Nat)) ∧
      (sampleBlock.cachingList = [] →
        (out.1.QueryCacheStat failingLoaderEnv).DoingCacheBlockNum = 0) :=
  ⟨(queryCacheStat_counts failingLoaderEnv sampleBlock).1,
   (queryCacheStat_counts failingLoaderEnv sampleBlock).2.1,
   by decide,
   (queryCacheStat_counts failingLoaderEnv sampleBlock).2.2.2.2 (by decide)⟩

/-! ### The filter step `filterAvailableReq` -/

lemma needsFetch_congr {σ : Type} (env : Env σ) {st st0 : σ}
    (h : ∀ k, env.getBlockWithCID st k = env.getBlockWithCID st0 k) (q : delayReq) :
    needsFetch env st q = needsFetch env st0 q := by
  unfold needsFetch
  cases env.cidDecode q.blockInfo.Cid with
  | none => rfl
  | some cid => simp only [h]

lemma availablePosted_congr {σ : Type} (env : Env σ) {st st0 : σ}
    (h : ∀ k, env.getBlockWithCID st k = env.getBlockWithCID st0 k) (q : delayReq) :
    availablePosted env st q = availablePosted env st0 q := by
  unfold availablePosted
  cases env.cidDecode q.blockInfo.Cid with
  | none => rfl
  | some cid => simp only [h]

/-- The outcome of `filterAvailableReq` in closed form, on a node where
`updateCidAndFid` leaves the block store alone. -/
lemma filterAvailableReq_closed {σ : Type} (env : Env σ)
    (hframe : ∀ s c f k,
      env.getBlockWithCID (env.updateCidAndFid s c f) k = env.getBlockWithCID s k)
    (st0 st : σ) (hst : ∀ k, env.getBlockWithCID st k = env.getBlockWithCID st0 k)
    (reqs : List delayReq) :
    (filterAvailableReq env st reqs).results = reqs.filter (needsFetch env st0) ∧
    (filterAvailableReq env st reqs).posted = reqs.filterMap (availablePosted env st0) ∧
    ∀ k, env.getBlockWithCID (filterAvailableReq env st reqs).store k =
      env.getBlockWithCID st0 k := by
  induction reqs generalizing st with
  | nil => exact ⟨rfl, rfl, hst⟩
  | cons q rest ih =>
    have hn := needsFetch_congr env hst q
    have hp := availablePosted_congr env hst q
    cases hd : env.cidDecode q.blockInfo.Cid with
    | none =>
      have hnq : needsFetch env st0 q = false := by rw [← hn]; simp [needsFetch, hd]
      have hpq : availablePosted env st0 q = none := by rw [← hp]; simp [availablePosted, hd]
      simp only [filterAvailableReq, hd, List.filter_cons, List.filterMap_cons, hnq, hpq]
      exact ih st hst
    | some cid =>
      cases hg : env.getBlockWithCID st cid with
      | none =>
        have hnq : needsFetch env st0 q = true := by rw [← hn]; simp [needsFetch, hd, hg]
        have hpq : availablePosted env st0 q = none := by
          rw [← hp]; simp [availablePosted, hd, hg]
        obtain ⟨h1, h2, h3⟩ := ih st hst
        simp only [filterAvailableReq, hd, hg, List.filter_cons, List.filterMap_cons, hnq, hpq,
          if_true]
        exact ⟨by rw [h1], h2, h3⟩
      | some buf =>
        have hnq : needsFetch env st0 q = false := by rw [← hn]; simp [needsFetch, hd, hg]
        have hst1 : ∀ k, env.getBlockWithCID
            (if env.getFIDFromCID st q.blockInfo.Cid ≠ toString q.blockInfo.Fid
              then env.updateCidAndFid st cid (toString q.blockInfo.Fid) else st) k =
            env.getBlockWithCID st0 k := by
          intro k
          split
          · rw [hframe, hst]
          · exact hst k
        obtain ⟨h1, h2, h3⟩ := ih _ hst1
        cases hl : getLinks env buf cid with
        | none =>
          have hpq : availablePosted env st0 q = none := by
            rw [← hp]; simp [availablePosted, hd, hg, hl]
          simp only [filterAvailableReq, hd, hg, hl, List.filter_cons, List.filterMap_cons,
            hnq, hpq]
          exact ⟨h1, h2, h3⟩
        | some links =>
          have hpq : availablePosted env st0 q = some (availableResult q cid buf links) := by
            rw [← hp]; simp [availablePosted, hd, hg, hl]
          simp only [filterAvailableReq, hd, hg, hl, List.filter_cons, List.filterMap_cons,
            hnq, hpq]
          exact ⟨h1, by rw [h2]; rfl, h3⟩

/-- C2 (as amended). On a node where `updateCidAndFid` leaves the block store
alone, `filterAvailableReq` returns exactly the placements whose CID decodes and
is not stored locally, in input order; a placement whose CID decodes and is
stored locally is not returned, and a positive result is posted for it when the
links of the stored block are resolved; every result posted is such a positive
result, so nothing is posted for a stored block whose links are not resolved
and nothing for a CID that does not decode; and the block store is left as it
was. -/
theorem filterAvailableReq_short_circuit {σ : Type} (env : Env σ)
    (hframe : ∀ s c f k,
      env.getBlockWithCID (env.updateCidAndFid s c f) k = env.getBlockWithCID s k)
    (st : σ) (reqs : List delayReq) :
    (filterAvailableReq env st reqs).results =
      reqs.filter (fun q => match env.cidDecode q.blockInfo.Cid with
        | none => false
        | some cid => (env.getBlockWithCID st cid).isNone) ∧
    (∀ q ∈ reqs, ∀ cid buf, env.cidDecode q.blockInfo.Cid = some cid →
      env.getBlockWithCID st cid = some buf →
      q ∉ (filterAvailableReq env st reqs).results ∧
      ∀ links, getLinks env buf cid = some links →
        ∃ x ∈ (filterAvailableReq env st reqs).posted,
          x.IsOK = true ∧ x.Cid = cid ∧ x.CarFileHash = q.carFileHash ∧
          x.CacheID = q.CacheID) ∧
    (∀ x ∈ (filterAvailableReq env st reqs).posted,
      x.IsOK = true ∧ ∃ q ∈ reqs, ∃ buf links, env.cidDecode q.blockInfo.Cid = some x.Cid ∧
        env.getBlockWithCID st x.Cid = some buf ∧ getLinks env buf x.Cid = some links ∧
        x.CarFileHash = q.carFileHash ∧ x.CacheID = q.CacheID) ∧
    (∀ k, env.getBlockWithCID (filterAvailableReq env st reqs).store k =
      env.getBlockWithCID st k) := by
  obtain ⟨h1, h2, h3⟩ := filterAvailableReq_closed env hframe st st (fun _ => rfl) reqs
  refine ⟨h1, ?_, ?_, h3⟩
  · intro q hq cid buf hd hg
    refine ⟨?_, ?_⟩
    · rw [h1, List.mem_filter]
      rintro ⟨_, hn⟩
      simp [needsFetch, hd, hg] at hn
    · intro links hl
      refine ⟨availableResult q cid buf links, ?_, rfl, rfl, rfl, rfl⟩
      rw [h2, List.mem_filterMap]
      exact ⟨q, hq, by simp [availablePosted, hd, hg, hl]⟩
  · intro x hx
    rw [h2, List.mem_filterMap] at hx
    obtain ⟨q, hq, hx⟩ := hx
    unfold availablePosted at hx
    cases hd : env.cidDecode q.blockInfo.Cid with
    | none => simp [hd] at hx
    | some cid =>
      cases hg : env.getBlockWithCID st cid with
      | none => simp [hd, hg] at hx
      | some buf =>
        cases hl : getLinks env buf cid with
        | none => simp [hd, hg, hl] at hx
        | some links =>
          simp only [hd, hg, hl, Option.some.injEq] at hx
          subst hx
          exact ⟨rfl, q, hq, buf, links, hd, hg, hl, rfl, rfl⟩

/-- C2, a worked instance: `c1` is stored locally as a block without links and
`c2` is not stored; `c1` is reported and `c2` is returned. -/
theorem filterAvailableReq_short_circuit_witness :
    (∀ s c f k, leafEnv.getBlockWithCID (leafEnv.updateCidAndFid s c f) k =
      leafEnv.getBlockWithCID s k) ∧
    (filterAvailableReq leafEnv 0
      [samplePlacement "c1" 1 0, samplePlacement "c2" 2 0]).results =
      [samplePlacement "c2" 2 0] ∧
    ∃ x ∈ (filterAvailableReq leafEnv 0
        [samplePlacement "c1" 1 0, samplePlacement "c2" 2 0]).posted,
      x.IsOK = true ∧ x.Cid = "c1" ∧ x.CarFileHash = "carA" ∧ x.CacheID = "cache1" :=
  ⟨fun _ _ _ _ => rfl,
   (filterAvailableReq_short_circuit leafEnv (fun _ _ _ _ => rfl) 0
      [samplePlacement "c1" 1 0, samplePlacement "c2" 2 0]).1,
   ((filterAvailableReq_short_circuit leafEnv (fun _ _ _ _ => rfl) 0
      [samplePlacement "c1" 1 0, samplePlacement "c2" 2 0]).2.1
      (samplePlacement "c1" 1 0) (by simp) "c1" [1, 2, 3] rfl rfl).2 [] rfl⟩

/-- C2, where the claim as stated fails: the block `c1` is stored locally, yet
no result is posted for its placement, because the links of the stored block
are not resolved; and `bad` is not stored locally, yet its placement is not
returned, because `bad` does not decode as a CID. -/
theorem filterAvailableReq_short_circuit_counterexample :
    storedEnv.getBlockWithCID 0 "c1" = some [1, 2, 3] ∧
    storedEnv.cidDecode "bad" = none ∧
    (∀ k, k ≠ "c1" → storedEnv.getBlockWithCID 0 k = none) ∧
    (filterAvailableReq storedEnv 0
      [samplePlacement "c1" 1 0, samplePlacement "bad" 2 0]).posted = [] ∧
    (filterAvailableReq storedEnv 0
      [samplePlacement "c1" 1 0, samplePlacement "bad" 2 0]).results = [] := by
  refine ⟨rfl, rfl, ?_, by decide, by decide⟩
  intro k hk
  simp [storedEnv, hk]

/-! ### The figures of a positive result -/

lemma foldl_linkStats (links : List Link) (cids : List String) (n : Nat) (hn : n < 2 ^ 64) :
    links.foldl (fun acc link => (acc.1 ++ [link.Cid], (acc.2 + link.Size) % 2 ^ 64)) (cids, n)
      = (cids ++ links.map Link.Cid, (n + (links.map Link.Size).sum) % 2 ^ 64) := by
  induction links generalizing cids n with
  | nil =>
    simp only [List.foldl_nil, List.map_nil, List.sum_nil, List.append_nil, Nat.add_zero,
      Nat.mod_eq_of_lt hn]
  | cons l rest ih =>
    rw [List.foldl_cons, ih _ _ (Nat.mod_lt _ (by norm_num))]
    simp only [List.map_cons, List.sum_cons, List.append_assoc, List.singleton_append,
      Nat.mod_add_mod, Nat.add_assoc]

lemma linkStats_eq (links : List Link) :
    linkStats links = (links.map Link.Cid, (links.map Link.Size).sum % 2 ^ 64) := by
  unfold linkStats
  rw [foldl_linkStats links [] 0 (by norm_num)]
  simp

lemma reportsBlock_cacheResult (cid : String) (data : List UInt8) (links : List Link)
    (h c : String) :
    ReportsBlock
      (cacheResult
        { cid := cid, links := (linkStats links).1, blockSize := (data.length : Int),
          linksSize := (linkStats links).2, carFileHash := h, CacheID := c } none)
      data links := by
  refine ⟨?_, ?_, ?_⟩ <;> simp [cacheResult, linkStats_eq]

lemma filterAvailableReq_posted {σ : Type} (env : Env σ) (st : σ) (reqs : List delayReq) :
    ∀ x ∈ (filterAvailableReq env st reqs).posted,
      x.IsOK = true ∧ ∃ s buf links, env.getBlockWithCID s x.Cid = some buf ∧
        getLinks env buf x.Cid = some links ∧ ReportsBlock x buf links := by
  induction reqs generalizing st with
  | nil => simp [filterAvailableReq]
  | cons q rest ih =>
    simp only [filterAvailableReq]
    split
    · exact ih _
    · split
      · rename_i cid _ buf hg
        split
        · exact ih _
        · rename_i links hl
          intro x hx
          rcases List.mem_cons.1 hx with rfl | hx
          · exact ⟨rfl, st, buf, links, hg, hl, reportsBlock_cacheResult _ _ _ _ _⟩
          · exact ih _ x hx
      · exact ih _

lemma saveLoaded_posted {σ : Type} (env : Env σ) (st : σ) (m : List (String × delayReq))
    (blocks : List IpfsBlock) :
    ∀ x ∈ (saveLoaded env st m blocks).posted,
      x.IsOK = true ∧ ∃ b ∈ blocks, ∃ links, b.cid = x.Cid ∧
        resolveLinks env b = some links ∧ ReportsBlock x b.rawData links := by
  induction blocks generalizing st m with
  | nil => simp [saveLoaded]
  | cons b rest ih =>
    have hmono : ∀ (st : σ) (m : List (String × delayReq)),
        ∀ x ∈ (saveLoaded env st m rest).posted,
          x.IsOK = true ∧ ∃ b' ∈ b :: rest, ∃ links, b'.cid = x.Cid ∧
            resolveLinks env b' = some links ∧ ReportsBlock x b'.rawData links := by
      intro st m x hx
      obtain ⟨h1, b', hb', h2⟩ := ih st m x hx
      exact ⟨h1, b', List.mem_cons_of_mem _ hb', h2⟩
    simp only [saveLoaded]
    split
    · exact hmono _ _
    · split
      · exact hmono _ _
      · split
        · exact hmono _ _
        · rename_i links hl
          intro x hx
          rcases List.mem_cons.1 hx with rfl | hx
          · exact ⟨rfl, b, List.mem_cons_self _ _, links, rfl, hl,
              reportsBlock_cacheResult _ _ _ _ _⟩
          · exact hmono _ _ x hx

lemma retryOrFail_negative {σ : Type} (env : Env σ) (m : List (String × delayReq)) :
    ∀ x ∈ (retryOrFail env m).1, x.IsOK = false ∧ x.Msg = "Request timeout" := by
  induction m with
  | nil => simp [retryOrFail]
  | cons q rest ih =>
    simp only [retryOrFail]
    split
    · intro x hx
      rcases List.mem_cons.1 hx with rfl | hx
      · exact ⟨rfl, rfl⟩
      · exact ih x hx
    · exact ih

/-- Where a positive result of `loadBlocks` comes from: a block stored locally
(the filter step) or a block returned by the loader. -/
lemma loadBlocksFuel_positive {σ : Type} (env : Env σ) (fuel : Nat) (st : σ)
    (reqs : List delayReq) (out : σ × List CacheResultInfo)
    (ho : loadBlocksFuel env fuel st reqs = some out) :
    ∀ x ∈ out.2, x.IsOK = true →
      (∃ s buf links, env.getBlockWithCID s x.Cid = some buf ∧
        getLinks env buf x.Cid = some links ∧ ReportsBlock x buf links) ∨
      (∃ s qs blocks, (env.blockLoader s qs).2 = some blocks ∧ ∃ b ∈ blocks, ∃ links,
        b.cid = x.Cid ∧ resolveLinks env b = some links ∧ ReportsBlock x b.rawData links) := by
  induction fuel generalizing st reqs out with
  | zero => simp [loadBlocksFuel] at ho
  | succ n ih =>
    have hf := filterAvailableReq_posted env st reqs
    rw [loadBlocksFuel] at ho
    simp only [] at ho
    split at ho
    · simp only [Option.some.injEq] at ho
      subst ho
      intro x hx _
      exact Or.inl (hf x hx).2
    · split at ho
      · simp only [Option.some.injEq] at ho
        subst ho
        intro x hx _
        exact Or.inl (hf x hx).2
      · rename_i blocks hb
        have hs := saveLoaded_posted env
          (env.blockLoader (filterAvailableReq env st reqs).store
            (filterAvailableReq env st reqs).results).1
          (buildReqMap (filterAvailableReq env st reqs).results) blocks
        have ht := retryOrFail_negative env (env.rangeOrder (saveLoaded env
          (env.blockLoader (filterAvailableReq env st reqs).store
            (filterAvailableReq env st reqs).results).1
          (buildReqMap (filterAvailableReq env st reqs).results) blocks).reqMap)
        have key : ∀ (tail : List CacheResultInfo),
            (∀ x ∈ tail, x.IsOK = true →
              (∃ s buf links, env.getBlockWithCID s x.Cid = some buf ∧
                getLinks env buf x.Cid = some links ∧ ReportsBlock x buf links) ∨
              (∃ s qs blocks, (env.blockLoader s qs).2 = some blocks ∧ ∃ b ∈ blocks, ∃ links,
                b.cid = x.Cid ∧ resolveLinks env b = some links ∧
                ReportsBlock x b.rawData links)) →
            ∀ x ∈ (filterAvailableReq env st reqs).posted ++
              ((saveLoaded env
                (env.blockLoader (filterAvailableReq env st reqs).store
                  (filterAvailableReq env st reqs).results).1
                (buildReqMap (filterAvailableReq env st reqs).results) blocks).posted ++
              ((retryOrFail env (env.rangeOrder (saveLoaded env
                (env.blockLoader (filterAvailableReq env st reqs).store
                  (filterAvailableReq env st reqs).results).1
                (buildReqMap (filterAvailableReq env st reqs).results) blocks).reqMap)).1 ++
              tail)), x.IsOK = true →
              (∃ s buf links, env.getBlockWithCID s x.Cid = some buf ∧
                getLinks env buf x.Cid = some links ∧ ReportsBlock x buf links) ∨
              (∃ s qs blocks, (env.blockLoader s qs).2 = some blocks ∧ ∃ b ∈ blocks, ∃ links,
                b.cid = x.Cid ∧ resolveLinks env b = some links ∧
                ReportsBlock x b.rawData links) := by
          intro tail htail x hx hok
          simp only [List.mem_append] at hx
          rcases hx with hx | hx | hx | hx
          · exact Or.inl (hf x hx).2
          · exact Or.inr ⟨_, _, blocks, hb, (hs x hx).2⟩
          · have := (ht x hx).1
            rw [hok] at this
            exact absurd this (by simp)
          · exact htail x hx hok
        split at ho
        · rw [Option.map_eq_some'] at ho
          obtain ⟨r, hr, rfl⟩ := ho
          exact key r.2 (ih _ _ r hr)
        · simp only [Option.some.injEq] at ho
          subst ho
          have := key [] (by simp)
          simpa using this

/-- C8 (as amended). Every positive result posted by the node carries the byte
length of the data of its block as `BlockSize`, the child CIDs of the block in
link order as `Links`, and as `LinksSize` the sum of the declared sizes of those
links modulo `2 ^ 64` (the sum itself when it is below `2 ^ 64`): for a block
stored locally (`filterAvailableReq`) the data are the stored bytes and the
links those of `getLinks`; for a block fetched by `loadBlocks` they are the data
and the links of a block that the loader returned. -/
theorem positive_result_figures {σ : Type} (env : Env σ) :
    (∀ st reqs, ∀ x ∈ (filterAvailableReq env st reqs).posted,
      x.IsOK = true ∧ ∃ s buf links, env.getBlockWithCID s x.Cid = some buf ∧
        getLinks env buf x.Cid = some links ∧ ReportsBlock x buf links ∧
        ((links.map Link.Size).sum < 2 ^ 64 → x.LinksSize = (links.map Link.Size).sum)) ∧
    (∀ st reqs out, loadBlocks env st reqs = some out → ∀ x ∈ out.2, x.IsOK = true →
      (∃ s buf links, env.getBlockWithCID s x.Cid = some buf ∧
        getLinks env buf x.Cid = some links ∧ ReportsBlock x buf links ∧
        ((links.map Link.Size).sum < 2 ^ 64 → x.LinksSize = (links.map Link.Size).sum)) ∨
      (∃ s qs blocks, (env.blockLoader s qs).2 = some blocks ∧ ∃ b ∈ blocks, ∃ links,
        b.cid = x.Cid ∧ resolveLinks env b = some links ∧ ReportsBlock x b.rawData links ∧
        ((links.map Link.Size).sum < 2 ^ 64 → x.LinksSize = (links.map Link.Size).sum))) := by
  refine ⟨?_, ?_⟩
  · intro st reqs x hx
    obtain ⟨h1, s, buf, links, h2, h3, h4⟩ := filterAvailableReq_posted env st reqs x hx
    exact ⟨h1, s, buf, links, h2, h3, h4, fun hlt => by rw [h4.2.2, Nat.mod_eq_of_lt hlt]⟩
  · intro st reqs out ho x hx hok
    rcases loadBlocksFuel_positive env _ st reqs out ho x hx hok with h | h
    · obtain ⟨s, buf, links, h2, h3, h4⟩ := h
      exact Or.inl ⟨s, buf, links, h2, h3, h4,
        fun hlt => by rw [h4.2.2, Nat.mod_eq_of_lt hlt]⟩
    · obtain ⟨s, qs, blocks, hb, b, hmem, links, h2, h3, h4⟩ := h
      exact Or.inr ⟨s, qs, blocks, hb, b, hmem, links, h2, h3, h4,
        fun hlt => by rw [h4.2.2, Nat.mod_eq_of_lt hlt]⟩

/-- C8, a worked instance: the loader returns the block `c1`, one byte long, with
links of the declared sizes 10 and 20; the result posted reports 1, both child
CIDs and 30. -/
theorem positive_result_figures_witness :
    loadBlocks linkedEnv 0 [samplePlacement "c1" 1 0] = some (1, [linkedResult]) ∧
    ((∃ s buf links, linkedEnv.getBlockWithCID s linkedResult.Cid = some buf ∧
        getLinks linkedEnv buf linkedResult.Cid = some links ∧
        ReportsBlock linkedResult buf links ∧
        ((links.map Link.Size).sum < 2 ^ 64 →
          linkedResult.LinksSize = (links.map Link.Size).sum)) ∨
      (∃ s qs blocks, (linkedEnv.blockLoader s qs).2 = some blocks ∧ ∃ b ∈ blocks, ∃ links,
        b.cid = linkedResult.Cid ∧ resolveLinks linkedEnv b = some links ∧
        ReportsBlock linkedResult b.rawData links ∧
        ((links.map Link.Size).sum < 2 ^ 64 →
          linkedResult.LinksSize = (links.map Link.Size).sum))) :=
  ⟨by decide,
   (positive_result_figures linkedEnv).2 0 [samplePlacement "c1" 1 0] (1, [linkedResult])
     (by decide) linkedResult (by simp) rfl⟩

/-- C8, where the claim as stated fails: the loader returns a block whose two
links declare the size `2 ^ 63` each; the sum of the declared sizes is `2 ^ 64`,
and the positive result posted carries `LinksSize` 0. -/
theorem positive_result_figures_counterexample :
    resolveLinks wrapEnv { cid := "c1", rawData := [7] } =
      some [{ Cid := "k1", Size := 9223372036854775808 },
            { Cid := "k2", Size := 9223372036854775808 }] ∧
    loadBlocks wrapEnv 0 [samplePlacement "c1" 1 0] =
      some (1, [{ Cid := "c1", IsOK := true, Msg := "", From := "", Links := ["k1", "k2"],
                  BlockSize := 1, LinksSize := 0, CarFileHash := "carA",
                  CacheID := "cache1" }]) ∧
    (0 : Nat) ≠ 9223372036854775808 + 9223372036854775808 := by
  refine ⟨rfl, by decide, by decide⟩

/-! ### Retry and final failure in `loadBlocks` -/

lemma retryOrFail_fst {σ : Type} (env : Env σ) (m : List (String × delayReq)) :
    (retryOrFail env m).1 =
      (m.filter (fun p => decide (p.2.count ≥ env.BlockDownloadRetryNum))).map
        (fun p => timeoutResult p.2) := by
  induction m with
  | nil => rfl
  | cons q rest ih =>
    by_cases hq : q.2.count ≥ env.BlockDownloadRetryNum
    · simp only [retryOrFail, hq, if_true, ih, List.filter_cons, decide_True, List.map_cons]
      rfl
    · simp only [retryOrFail, hq, if_false, ih, List.filter_cons, decide_False]
      rfl

lemma key_filter_singleton {m : List (String × delayReq)} {p : String × delayReq}
    (hm : (m.map Prod.fst).Nodup) (hp : p ∈ m) :
    m.filter (fun q => decide (q.1 = p.1)) = [p] := by
  induction m with
  | nil => simp at hp
  | cons q rest ih =>
    rw [List.map_cons, List.nodup_cons] at hm
    rcases List.mem_cons.1 hp with rfl | hp
    · rw [List.filter_cons]
      simp only [decide_True, if_true, List.cons.injEq, true_and]
      rw [List.filter_eq_nil_iff]
      intro a ha hdec
      exact hm.1 (by rw [← of_decide_eq_true hdec]; exact List.mem_map_of_mem _ ha)
    · have hne : q.1 ≠ p.1 := fun h => hm.1 (h ▸ List.mem_map_of_mem _ hp)
      rw [List.filter_cons]
      simp only [hne, decide_False, Bool.false_eq_true, if_false]
      exact ih hm.2 hp

lemma key_filter_length_le {m : List (String × delayReq)} (hm : (m.map Prod.fst).Nodup)
    (c : String) : (m.filter (fun q => decide (q.1 = c))).length ≤ 1 := by
  by_cases h : ∃ p ∈ m, p.1 = c
  · obtain ⟨p, hp, rfl⟩ := h
    rw [key_filter_singleton hm hp]
    rfl
  · have : m.filter (fun q => decide (q.1 = c)) = [] := by
      rw [List.filter_eq_nil_iff]
      intro a ha hdec
      exact h ⟨a, ha, of_decide_eq_true hdec⟩
    rw [this]
    exact Nat.zero_le _

lemma negativesFor_append (c : String) (l l' : List CacheResultInfo) :
    negativesFor c (l ++ l') = negativesFor c l ++ negativesFor c l' := by
  simp [negativesFor]

lemma negativesFor_of_positive (c : String) {l : List CacheResultInfo}
    (h : ∀ x ∈ l, x.IsOK = true) : negativesFor c l = [] := by
  unfold negativesFor
  rw [List.filter_eq_nil_iff]
  intro x hx
  simp [h x hx]

/-- The negative results of the last loop of a round for the CID `c`: one for
each entry of the request map filed under `c` whose retries are used up. -/
lemma negativesFor_retryOrFail {σ : Type} (env : Env σ) {reqs : List delayReq}
    {m : List (String × delayReq)} (hm : ReqMapOver reqs m) (c : String) :
    negativesFor c (retryOrFail env m).1 =
      ((m.filter (fun q => decide (q.1 = c))).filter
        (fun p => decide (p.2.count ≥ env.BlockDownloadRetryNum))).map
        (fun p => timeoutResult p.2) := by
  rw [retryOrFail_fst]
  unfold negativesFor
  rw [List.filter_map, List.filter_filter, List.filter_filter]
  congr 1
  apply List.filter_congr
  intro p hp
  have hk := (hm.2 p hp).1
  simp only [Function.comp, timeoutResult, cacheResultWithError, cacheResult, Bool.not_false,
    Bool.true_and, beq_iff_eq, ← hk]
  by_cases h1 : p.1 = c <;> by_cases h2 : p.2.count ≥ env.BlockDownloadRetryNum <;>
    simp [h1, h2]

lemma negativesFor_retryOrFail_length {σ : Type} (env : Env σ) {reqs : List delayReq}
    {m : List (String × delayReq)} (hm : ReqMapOver reqs m) (c : String) :
    (negativesFor c (retryOrFail env m).1).length ≤ 1 := by
  rw [negativesFor_retryOrFail env hm, List.length_map]
  exact le_trans (List.length_filter_le _ _) (key_filter_length_le hm.1 c)

/-- A CID with a negative result in the last loop of a round is not tried again. -/
lemma retry_cid_ne_of_negative {σ : Type} (env : Env σ) {reqs : List delayReq}
    {m : List (String × delayReq)} (hm : ReqMapOver reqs m) {c : String}
    (hc : negativesFor c (retryOrFail env m).1 ≠ []) :
    ∀ r ∈ (retryOrFail env m).2, r.blockInfo.Cid ≠ c := by
  rw [negativesFor_retryOrFail env hm] at hc
  obtain ⟨x, hx⟩ := List.exists_mem_of_ne_nil _ hc
  obtain ⟨p, hp, _⟩ := List.mem_map.1 hx
  rw [List.mem_filter, List.mem_filter] at hp
  obtain ⟨⟨hpm, hpc⟩, hge⟩ := hp
  have hpc := of_decide_eq_true hpc
  have hge := of_decide_eq_true hge
  intro r hr heq
  obtain ⟨q, hq, hlt, rfl⟩ := (mem_retryOrFail_retry env).1 hr
  have hqk : q.1 = p.1 := by
    rw [hpc, (hm.2 q hq).1]
    exact heq
  have := List.inj_on_of_nodup_map hm.1 hq hpm hqk
  subst this
  omega

lemma roundUnsatisfied_over {σ : Type} (env : Env σ) (st : σ) (reqs : List delayReq)
    (blocks : List IpfsBlock) :
    ReqMapOver reqs (env.rangeOrder (roundUnsatisfied env st reqs blocks)) := by
  have h1 := buildReqMap_over (filterAvailableReq env st reqs).results
  have h2 := h1.sublist (saveLoaded_reqMap_sublist env
    (env.blockLoader (filterAvailableReq env st reqs).store
      (filterAvailableReq env st reqs).results).1 _ blocks)
  have h3 := h2.perm (env.rangeOrder_perm _)
  exact h3.mono (fun r hr => (filterAvailableReq_results_sublist env st reqs).subset hr)

/-- One round of `loadBlocks` whose loader call succeeds, unfolded. -/
lemma loadBlocksFuel_round {σ : Type} (env : Env σ) (fuel : Nat) (st : σ)
    (reqs : List delayReq) (blocks : List IpfsBlock)
    (hne : (filterAvailableReq env st reqs).results ≠ [])
    (hb : (env.blockLoader (filterAvailableReq env st reqs).store
      (filterAvailableReq env st reqs).results).2 = some blocks) :
    loadBlocksFuel env (fuel + 1) st reqs =
      if (roundOutcome env st reqs blocks).2.length > 0 then
        (loadBlocksFuel env fuel
          (saveLoaded env
            (env.blockLoader (filterAvailableReq env st reqs).store
              (filterAvailableReq env st reqs).results).1
            (buildReqMap (filterAvailableReq env st reqs).results) blocks).store
          (roundOutcome env st reqs blocks).2).map
          (fun r => (r.1, (filterAvailableReq env st reqs).posted ++
            (roundSaved env st reqs blocks ++ ((roundOutcome env st reqs blocks).1 ++ r.2))))
      else
        some ((saveLoaded env
            (env.blockLoader (filterAvailableReq env st reqs).store
              (filterAvailableReq env st reqs).results).1
            (buildReqMap (filterAvailableReq env st reqs).results) blocks).store,
          (filterAvailableReq env st reqs).posted ++
            (roundSaved env st reqs blocks ++ (roundOutcome env st reqs blocks).1)) := by
  have hlen : ¬ (filterAvailableReq env st reqs).results.length = 0 := by
    rwa [List.length_eq_zero]
  rw [loadBlocksFuel]
  simp only [hlen, if_false, hb]
  rfl

/-- A round of `loadBlocks` whose loader call fails, unfolded. -/
lemma loadBlocksFuel_loader_error {σ : Type} (env : Env σ) (fuel : Nat) (st : σ)
    (reqs : List delayReq)
    (hne : (filterAvailableReq env st reqs).results ≠ [])
    (hb : (env.blockLoader (filterAvailableReq env st reqs).store
      (filterAvailableReq env st reqs).results).2 = none) :
    loadBlocksFuel env (fuel + 1) st reqs =
      some ((env.blockLoader (filterAvailableReq env st reqs).store
        (filterAvailableReq env st reqs).results).1, (filterAvailableReq env st reqs).posted) := by
  have hlen : ¬ (filterAvailableReq env st reqs).results.length = 0 := by
    rwa [List.length_eq_zero]
  rw [loadBlocksFuel]
  simp only [hlen, if_false, hb]

lemma loadBlocksFuel_nothing_left {σ : Type} (env : Env σ) (fuel : Nat) (st : σ)
    (reqs : List delayReq) (he : (filterAvailableReq env st reqs).results = []) :
    loadBlocksFuel env (fuel + 1) st reqs =
      some ((filterAvailableReq env st reqs).store, (filterAvailableReq env st reqs).posted) := by
  rw [loadBlocksFuel]
  simp only [he, List.length_nil, if_true]

lemma roundSaved_positive {σ : Type} (env : Env σ) (st : σ) (reqs : List delayReq)
    (blocks : List IpfsBlock) : ∀ x ∈ roundSaved env st reqs blocks, x.IsOK = true :=
  fun x hx => (saveLoaded_posted env _ _ blocks x hx).1

lemma roundOutcome_fst_cid {σ : Type} (env : Env σ) (st : σ) (reqs : List delayReq)
    (blocks : List IpfsBlock) :
    ∀ x ∈ (roundOutcome env st reqs blocks).1,
      x.Cid ∈ reqs.map (fun r => r.blockInfo.Cid) := by
  intro x hx
  unfold roundOutcome at hx
  rw [retryOrFail_fst] at hx
  obtain ⟨p, hp, rfl⟩ := List.mem_map.1 hx
  have hp' := (List.mem_filter.1 hp).1
  exact List.mem_map.2 ⟨p.2, ((roundUnsatisfied_over env st reqs blocks).2 p hp').2, rfl⟩

lemma roundOutcome_snd_cid {σ : Type} (env : Env σ) (st : σ) (reqs : List delayReq)
    (blocks : List IpfsBlock) :
    ∀ c ∈ (roundOutcome env st reqs blocks).2.map (fun r => r.blockInfo.Cid),
      c ∈ reqs.map (fun r => r.blockInfo.Cid) := by
  intro c hc
  obtain ⟨r, hr, rfl⟩ := List.mem_map.1 hc
  obtain ⟨p, hp, _, rfl⟩ := (mem_retryOrFail_retry env).1 hr
  exact List.mem_map.2 ⟨p.2, ((roundUnsatisfied_over env st reqs blocks).2 p hp).2, rfl⟩

/-- Over all rounds of `loadBlocks`, a negative result is for the CID of a
placement of the batch, and no CID gets more than one. -/
lemma loadBlocksFuel_negatives {σ : Type} (env : Env σ) (fuel : Nat) (st : σ)
    (reqs : List delayReq) (out : σ × List CacheResultInfo)
    (ho : loadBlocksFuel env fuel st reqs = some out) :
    (∀ x ∈ out.2, x.IsOK = false → x.Cid ∈ reqs.map (fun r => r.blockInfo.Cid)) ∧
    ∀ c, (negativesFor c out.2).length ≤ 1 := by
  induction fuel generalizing st reqs out with
  | zero => simp [loadBlocksFuel] at ho
  | succ n ih =>
    have hfpos : ∀ x ∈ (filterAvailableReq env st reqs).posted, x.IsOK = true :=
      fun x hx => (filterAvailableReq_posted env st reqs x hx).1
    have honly : out.2 = (filterAvailableReq env st reqs).posted →
        (∀ x ∈ out.2, x.IsOK = false → x.Cid ∈ reqs.map (fun r => r.blockInfo.Cid)) ∧
        ∀ c, (negativesFor c out.2).length ≤ 1 := by
      intro h
      rw [h]
      refine ⟨fun x hx hf => ?_, fun c => ?_⟩
      · rw [hfpos x hx] at hf
        exact absurd hf (by simp)
      · rw [negativesFor_of_positive c hfpos]
        exact Nat.zero_le _
    by_cases hne : (filterAvailableReq env st reqs).results = []
    · rw [loadBlocksFuel_nothing_left env n st reqs hne, Option.some.injEq] at ho
      exact honly (by rw [← ho])
    · cases hb : (env.blockLoader (filterAvailableReq env st reqs).store
          (filterAvailableReq env st reqs).results).2 with
      | none =>
        rw [loadBlocksFuel_loader_error env n st reqs hne hb, Option.some.injEq] at ho
        exact honly (by rw [← ho])
      | some blocks =>
        rw [loadBlocksFuel_round env n st reqs blocks hne hb] at ho
        have hover := roundUnsatisfied_over env st reqs blocks
        have hspos := roundSaved_positive env st reqs blocks
        have htneg : ∀ x ∈ (roundOutcome env st reqs blocks).1, x.IsOK = false :=
          fun x hx => (retryOrFail_negative env _ x hx).1
        have hshape : ∀ tail : List CacheResultInfo,
            out.2 = (filterAvailableReq env st reqs).posted ++
              (roundSaved env st reqs blocks ++ ((roundOutcome env st reqs blocks).1 ++ tail)) →
            (∀ x ∈ tail, x.IsOK = false →
              x.Cid ∈ (roundOutcome env st reqs blocks).2.map (fun r => r.blockInfo.Cid)) →
            (∀ c, (negativesFor c tail).length ≤ 1) →
            (∀ x ∈ out.2, x.IsOK = false → x.Cid ∈ reqs.map (fun r => r.blockInfo.Cid)) ∧
            ∀ c, (negativesFor c out.2).length ≤ 1 := by
          intro tail hout htail hlen
          rw [hout]
          refine ⟨fun x hx hf => ?_, fun c => ?_⟩
          · simp only [List.mem_append] at hx
            rcases hx with hx | hx | hx | hx
            · rw [hfpos x hx] at hf
              exact absurd hf (by simp)
            · rw [hspos x hx] at hf
              exact absurd hf (by simp)
            · exact roundOutcome_fst_cid env st reqs blocks x hx
            · exact roundOutcome_snd_cid env st reqs blocks _ (htail x hx hf)
          · rw [negativesFor_append, negativesFor_append, negativesFor_append,
              negativesFor_of_positive c hfpos, negativesFor_of_positive c hspos]
            simp only [List.nil_append, List.length_append]
            by_cases hc : negativesFor c (roundOutcome env st reqs blocks).1 = []
            · rw [hc]
              simpa using hlen c
            · have hnot := retry_cid_ne_of_negative env hover hc
              have htl : negativesFor c tail = [] := by
                unfold negativesFor
                rw [List.filter_eq_nil_iff]
                intro x hx hcond
                simp only [Bool.and_eq_true, Bool.not_eq_true', beq_iff_eq] at hcond
                obtain ⟨r, hr, hrc⟩ := List.mem_map.1 (htail x hx hcond.1)
                exact hnot r hr (by rw [hrc, hcond.2])
              rw [htl]
              simpa using negativesFor_retryOrFail_length env hover c
        split at ho
        · rw [Option.map_eq_some'] at ho
          obtain ⟨r, hr, rfl⟩ := ho
          obtain ⟨h1, h2⟩ := ih _ _ r hr
          exact hshape r.2 rfl h1 h2
        · rw [Option.some.injEq] at ho
          subst ho
          exact hshape [] (by simp) (by simp) (by simp [negativesFor])

lemma saveLoaded_reqMap_eq {σ : Type} (env : Env σ) (st : σ) (m : List (String × delayReq))
    (blocks : List IpfsBlock) :
    (saveLoaded env st m blocks).reqMap =
      m.filter (fun p => decide (∀ x ∈ (saveLoaded env st m blocks).posted, x.Cid ≠ p.1)) := by
  induction blocks generalizing st m with
  | nil => simp [saveLoaded]
  | cons b rest ih =>
    simp only [saveLoaded]
    split
    · exact ih _ _
    · split
      · exact ih _ _
      · split
        · exact ih _ _
        · simp only [ih, reqMapDelete, List.filter_filter]
          apply List.filter_congr
          intro p _
          simp only [cacheResult, List.mem_cons, forall_eq_or_imp, ne_eq, Bool.decide_and,
            Bool.and_comm, decide_not]
          by_cases h1 : b.cid = p.1
          · simp [h1]
          · have h2 : ¬ p.1 = b.cid := fun h => h1 h.symm
            simp [h1, h2]

/-- C1 (as amended). In a round of `loadBlocks` in which the filter step leaves
something to fetch and the loader call succeeds:
* the placements the round did not satisfy are those of the request map (one
  placement for each CID) for which the round posted no positive result: the
  loader did not return the block, or saving or link resolution failed;
* such a placement with a count below `BlockDownloadRetryNum` is tried again in
  the next round with its count increased by one and gets no negative result in
  this round;
* such a placement whose count has reached `BlockDownloadRetryNum` is not tried
  again and gets exactly one negative result, `timeoutResult`, which has
  `IsOK = false` and the message `Request timeout`;
* the next round is `loadBlocks` on the placements to try again;
and over all rounds no CID gets more than one negative result. -/
theorem loadBlocks_retry_or_fail {σ : Type} (env : Env σ) (fuel : Nat) (st : σ)
    (reqs : List delayReq) (blocks : List IpfsBlock)
    (hne : (filterAvailableReq env st reqs).results ≠ [])
    (hb : (env.blockLoader (filterAvailableReq env st reqs).store
      (filterAvailableReq env st reqs).results).2 = some blocks) :
    (∀ p ∈ buildReqMap (filterAvailableReq env st reqs).results,
      p ∈ roundUnsatisfied env st reqs blocks ↔
        ∀ x ∈ roundSaved env st reqs blocks, x.Cid ≠ p.1) ∧
    (∀ p ∈ roundUnsatisfied env st reqs blocks,
      p.2 ∈ reqs ∧ p.1 = p.2.blockInfo.Cid ∧
      (p.2.count < env.BlockDownloadRetryNum →
        { p.2 with count := p.2.count + 1 } ∈ (roundOutcome env st reqs blocks).2 ∧
        negativesFor p.1 (roundOutcome env st reqs blocks).1 = []) ∧
      (env.BlockDownloadRetryNum ≤ p.2.count →
        (∀ r ∈ (roundOutcome env st reqs blocks).2, r.blockInfo.Cid ≠ p.1) ∧
        negativesFor p.1 (roundOutcome env st reqs blocks).1 = [timeoutResult p.2])) ∧
    (∀ r ∈ (roundOutcome env st reqs blocks).2,
      ∃ p ∈ roundUnsatisfied env st reqs blocks,
        p.2.count < env.BlockDownloadRetryNum ∧ r = { p.2 with count := p.2.count + 1 }) ∧
    loadBlocksFuel env (fuel + 1) st reqs =
      (if (roundOutcome env st reqs blocks).2.length > 0 then
        (loadBlocksFuel env fuel
          (saveLoaded env
            (env.blockLoader (filterAvailableReq env st reqs).store
              (filterAvailableReq env st reqs).results).1
            (buildReqMap (filterAvailableReq env st reqs).results) blocks).store
          (roundOutcome env st reqs blocks).2).map
          (fun r => (r.1, (filterAvailableReq env st reqs).posted ++
            (roundSaved env st reqs blocks ++ ((roundOutcome env st reqs blocks).1 ++ r.2))))
      else
        some ((saveLoaded env
            (env.blockLoader (filterAvailableReq env st reqs).store
              (filterAvailableReq env st reqs).results).1
            (buildReqMap (filterAvailableReq env st reqs).results) blocks).store,
          (filterAvailableReq env st reqs).posted ++
            (roundSaved env st reqs blocks ++ (roundOutcome env st reqs blocks).1))) ∧
    (∀ v : delayReq, (timeoutResult v).IsOK = false ∧ (timeoutResult v).Msg = "Request timeout" ∧
      (timeoutResult v).Msg ≠ "" ∧ (timeoutResult v).Cid = v.blockInfo.Cid ∧
      (timeoutResult v).CarFileHash = v.carFileHash ∧ (timeoutResult v).CacheID = v.CacheID) ∧
    (∀ out, loadBlocks env st reqs = some out → ∀ cid, (negativesFor cid out.2).length ≤ 1) := by
  have hover := roundUnsatisfied_over env st reqs blocks
  refine ⟨?_, ?_, ?_, loadBlocksFuel_round env fuel st reqs blocks hne hb, ?_, ?_⟩
  · intro p hp
    unfold roundUnsatisfied roundSaved
    rw [saveLoaded_reqMap_eq, List.mem_filter]
    simp [hp]
  · intro p hp
    have hp' : p ∈ env.rangeOrder (roundUnsatisfied env st reqs blocks) :=
      (env.rangeOrder_perm _).symm.subset hp
    have hneg := negativesFor_retryOrFail env hover p.1
    rw [key_filter_singleton hover.1 hp'] at hneg
    refine ⟨(hover.2 p hp').2, (hover.2 p hp').1, ?_, ?_⟩
    · intro hlt
      refine ⟨(mem_retryOrFail_retry env).2 ⟨p, hp', hlt, rfl⟩, ?_⟩
      unfold roundOutcome
      rw [hneg, List.filter_cons]
      have : ¬ p.2.count ≥ env.BlockDownloadRetryNum := by omega
      simp [this]
    · intro hge
      refine ⟨?_, ?_⟩
      · apply retry_cid_ne_of_negative env hover
        rw [hneg, List.filter_cons]
        simp [hge]
      · unfold roundOutcome
        rw [hneg, List.filter_cons]
        simp [hge]
  · intro r hr
    obtain ⟨p, hp, hlt, rfl⟩ := (mem_retryOrFail_retry env).1 hr
    exact ⟨p, (env.rangeOrder_perm _).subset hp, hlt, rfl⟩
  · intro v
    have hmsg : (timeoutResult v).Msg = "Request timeout" := rfl
    refine ⟨rfl, hmsg, ?_, rfl, rfl, rfl⟩
    rw [hmsg]
    decide
  · intro out ho cid
    exact (loadBlocksFuel_negatives env _ st reqs out ho).2 cid

/-- C1, a worked instance: a loader that never returns the block; the placement
`c1` is tried with the counts 0, 1, 2 and 3, the loader being called four times,
and gets one negative result. -/
theorem loadBlocks_retry_or_fail_witness :
    (filterAvailableReq emptyLoaderEnv 0 [samplePlacement "c1" 1 0]).results ≠ [] ∧
    (emptyLoaderEnv.blockLoader
      (filterAvailableReq emptyLoaderEnv 0 [samplePlacement "c1" 1 0]).store
      (filterAvailableReq emptyLoaderEnv 0 [samplePlacement "c1" 1 0]).results).2 = some [] ∧
    loadBlocks emptyLoaderEnv 0 [samplePlacement "c1" 1 0] =
      some (4, [timeoutResult (samplePlacement "c1" 1 3)]) ∧
    (∀ out, loadBlocks emptyLoaderEnv 0 [samplePlacement "c1" 1 0] = some out →
      ∀ cid, (negativesFor cid out.2).length ≤ 1) :=
  ⟨by decide, rfl, by decide,
   (loadBlocks_retry_or_fail emptyLoaderEnv 0 0 [samplePlacement "c1" 1 0] []
     (by decide) rfl).2.2.2.2.2⟩

/-- C1, where the claim as stated fails. First, the loader call fails in the
first round for a placement with count 0, three retries being allowed:
`loadBlocks` returns after this one call of the loader (the node state counts
the calls) and has posted no result at all. Second, a batch holds the CID `c1`
twice, for the cache attempts `cache1` and `cache2`, and the loader never
returns the block: the request map keeps one placement for the CID, and the only
result posted is the negative result for `cache2`; the placement of `cache1`
gets none. -/
theorem loadBlocks_retry_or_fail_counterexample :
    ((samplePlacement "c1" 1 0).count < failingLoaderEnv.BlockDownloadRetryNum ∧
      (failingLoaderEnv.blockLoader 0 [samplePlacement "c1" 1 0]).2 = none ∧
      loadBlocks failingLoaderEnv 0 [samplePlacement "c1" 1 0] = some (1, [])) ∧
    loadBlocks emptyLoaderEnv 0
        [samplePlacement "c1" 1 0, { samplePlacement "c1" 2 0 with CacheID := "cache2" }] =
      some (4, [timeoutResult { samplePlacement "c1" 2 3 with CacheID := "cache2" }]) := by
  refine ⟨⟨by decide, rfl, by decide⟩, by decide⟩

/-! ### The end of a cache attempt (`updateAndSaveCacheEndInfo`, `cacheEnd`) -/

lemma updateAndSaveCacheEndInfo_counts {δ : Type} (env : SchedEnv δ) (db : δ) (d : Data)
    (doneCache : Cache) :
    (d.updateAndSaveCacheEndInfo env db doneCache).data.cacheCount = d.cacheCount ∧
    (d.updateAndSaveCacheEndInfo env db doneCache).data.needReliability = d.needReliability ∧
    (d.updateAndSaveCacheEndInfo env db doneCache).data.reliability =
      if doneCache.status = CacheStatus.Success then d.reliability + doneCache.reliability
      else d.reliability := by
  simp only [Data.updateAndSaveCacheEndInfo]
  refine ⟨?_, ?_, ?_⟩ <;> split <;> split <;> rfl

lemma cacheEndDeferred_dispatched {δ : Type} (env : SchedEnv δ) (db : δ) (d : Data)
    (err : Option String) (b : Bool) : (Data.cacheEndDeferred env db d err b).dispatched = b := by
  cases err <;> rfl

lemma cacheEndDeferred_taskEnd {δ : Type} (env : SchedEnv δ) (db : δ) (d : Data)
    (err : Option String) (b : Bool) : (Data.cacheEndDeferred env db d err b).taskEnd = err := by
  cases err <;> rfl

/-- C10. `updateAndSaveCacheEndInfo` adds the reliability of the finished attempt
to the reliability of the carfile when the status of the attempt is Success and
leaves the reliability of the carfile as it is when the status is Timeout or
Failed (or any other); the row handed to `SaveCacheEndResults` for the carfile
carries the reliability that the record has in memory after the update, and what
the function returns is what this call of `SaveCacheEndResults` returns. -/
theorem updateAndSaveCacheEndInfo_reliability {δ : Type} (env : SchedEnv δ) (db : δ)
    (d : Data) (doneCache : Cache) :
    (doneCache.status = CacheStatus.Success →
      (d.updateAndSaveCacheEndInfo env db doneCache).data.reliability =
        d.reliability + doneCache.reliability) ∧
    (doneCache.status = CacheStatus.Timeout ∨ doneCache.status = CacheStatus.Failed →
      (d.updateAndSaveCacheEndInfo env db doneCache).data.reliability = d.reliability) ∧
    (doneCache.status ≠ CacheStatus.Success →
      (d.updateAndSaveCacheEndInfo env db doneCache).data.reliability = d.reliability) ∧
    (d.updateAndSaveCacheEndInfo env db doneCache).dInfo.Reliability =
      (d.updateAndSaveCacheEndInfo env db doneCache).data.reliability ∧
    (d.updateAndSaveCacheEndInfo env db doneCache).dInfo.CarfileHash = d.carfileHash ∧
    ∃ db', ((d.updateAndSaveCacheEndInfo env db doneCache).db,
        (d.updateAndSaveCacheEndInfo env db doneCache).err) =
      env.SaveCacheEndResults db' (d.updateAndSaveCacheEndInfo env db doneCache).dInfo
        (d.updateAndSaveCacheEndInfo env db doneCache).cInfo := by
  have h := (updateAndSaveCacheEndInfo_counts env db d doneCache).2.2
  refine ⟨?_, ?_, ?_, ?_, ?_, ?_⟩
  · intro hs
    rw [h, if_pos hs]
  · intro hs
    rw [h, if_neg]
    rcases hs with hs | hs <;> rw [hs] <;> decide
  · intro hs
    rw [h, if_neg hs]
  · simp only [Data.updateAndSaveCacheEndInfo]
  · simp only [Data.updateAndSaveCacheEndInfo]
    split <;> split <;> rfl
  · exact ⟨_, rfl⟩

/-- C10, a worked instance: a successful attempt of reliability 1 takes the
sample carfile from reliability 0 to 1, and 1 is the reliability handed to
`SaveCacheEndResults`. -/
theorem updateAndSaveCacheEndInfo_reliability_witness :
    (sampleCache CacheStatus.Success).status = CacheStatus.Success ∧
    ((sampleData CacheStatus.Success).updateAndSaveCacheEndInfo sampleSched 0
      (sampleCache CacheStatus.Success)).data.reliability = 0 + 1 ∧
    ((sampleData CacheStatus.Success).updateAndSaveCacheEndInfo sampleSched 0
      (sampleCache CacheStatus.Success)).dInfo.Reliability = 1 :=
  ⟨rfl,
   (updateAndSaveCacheEndInfo_reliability sampleSched 0 (sampleData CacheStatus.Success)
     (sampleCache CacheStatus.Success)).1 rfl,
   by decide⟩

/-- C9. `cacheEnd` calls `dispatchCache` exactly when saving the end results
succeeded, `isContinue` is true, `cacheCount ≤ needReliability` and the
reliability of the carfile, as `updateAndSaveCacheEndInfo` has just updated it,
is below `needReliability`; so with `cacheCount > needReliability` it does not;
and whenever it does not call `dispatchCache` it writes a task-end record.
(`updateAndSaveCacheEndInfo` leaves `cacheCount` and `needReliability` alone;
after a call of `dispatchCache` a task-end record is written when the call
returns an error.) -/
theorem cacheEnd_dispatch_iff {δ : Type} (env : SchedEnv δ) (db : δ) (d : Data)
    (doneCache : Cache) (isContinue : Bool) :
    ((d.cacheEnd env db doneCache isContinue).dispatched = true ↔
      (d.updateAndSaveCacheEndInfo env db doneCache).err = none ∧ isContinue = true ∧
      d.cacheCount ≤ d.needReliability ∧
      (d.updateAndSaveCacheEndInfo env db doneCache).data.reliability < d.needReliability) ∧
    (d.cacheCount > d.needReliability →
      (d.cacheEnd env db doneCache isContinue).dispatched = false) ∧
    ((d.cacheEnd env db doneCache isContinue).dispatched = false →
      ∃ msg, (d.cacheEnd env db doneCache isContinue).taskEnd = some msg) ∧
    ((d.cacheEnd env db doneCache isContinue).dispatched = true →
      (d.cacheEnd env db doneCache isContinue).taskEnd =
        ((d.updateAndSaveCacheEndInfo env db doneCache).data.dispatchCache env
          (d.updateAndSaveCacheEndInfo env db doneCache).db
          ((d.updateAndSaveCacheEndInfo env db doneCache).data.getUndoneCache env)).err) := by
  obtain ⟨hc, hn, _⟩ := updateAndSaveCacheEndInfo_counts env db d doneCache
  have key :
      ((d.cacheEnd env db doneCache isContinue).dispatched = true ↔
        (d.updateAndSaveCacheEndInfo env db doneCache).err = none ∧ isContinue = true ∧
        d.cacheCount ≤ d.needReliability ∧
        (d.updateAndSaveCacheEndInfo env db doneCache).data.reliability < d.needReliability) ∧
      ((d.cacheEnd env db doneCache isContinue).dispatched = false →
        ∃ msg, (d.cacheEnd env db doneCache isContinue).taskEnd = some msg) ∧
      ((d.cacheEnd env db doneCache isContinue).dispatched = true →
        (d.cacheEnd env db doneCache isContinue).taskEnd =
          ((d.updateAndSaveCacheEndInfo env db doneCache).data.dispatchCache env
            (d.updateAndSaveCacheEndInfo env db doneCache).db
            ((d.updateAndSaveCacheEndInfo env db doneCache).data.getUndoneCache env)).err) := by
    unfold Data.cacheEnd
    simp only []
    cases he : (d.updateAndSaveCacheEndInfo env db doneCache).err with
    | some e =>
      simp only [cacheEndDeferred_dispatched, cacheEndDeferred_taskEnd]
      simp
    | none =>
      cases isContinue with
      | false =>
        simp only [Bool.not_false, if_true, cacheEndDeferred_dispatched,
          cacheEndDeferred_taskEnd]
        simp
      | true =>
        simp only [Bool.not_true, Bool.false_eq_true, if_false, hc, hn]
        by_cases h1 : d.cacheCount > d.needReliability
        · simp only [h1, if_true, cacheEndDeferred_dispatched, cacheEndDeferred_taskEnd]
          refine ⟨?_, ?_, ?_⟩
          · constructor
            · intro h; exact absurd h (by simp)
            · rintro ⟨_, _, h, _⟩; omega
          · intro _; exact ⟨_, rfl⟩
          · intro h; exact absurd h (by simp)
        · simp only [h1, if_false]
          by_cases h2 : d.needReliability ≤
              (d.updateAndSaveCacheEndInfo env db doneCache).data.reliability
          · simp only [h2, if_true, cacheEndDeferred_dispatched, cacheEndDeferred_taskEnd]
            refine ⟨?_, ?_, ?_⟩
            · constructor
              · intro h; exact absurd h (by simp)
              · rintro ⟨_, _, _, h⟩; omega
            · intro _; exact ⟨_, rfl⟩
            · intro h; exact absurd h (by simp)
          · simp only [h2, if_false, cacheEndDeferred_dispatched, cacheEndDeferred_taskEnd]
            refine ⟨?_, ?_, ?_⟩
            · constructor
              · intro _; exact ⟨trivial, trivial, by omega, by omega⟩
              · intro _; trivial
            · intro h; exact absurd h (by simp)
            · intro _; trivial
  refine ⟨key.1, ?_, key.2.1, key.2.2⟩
  intro hgt
  cases hd : (d.cacheEnd env db doneCache isContinue).dispatched with
  | false => rfl
  | true =>
    have := (key.1.1 hd).2.2.1
    omega

/-- C9, a worked instance: the first attempt of the sample carfile (target
reliability 2, one attempt started) ends in Success with reliability 1, and
`cacheEnd` dispatches a second attempt; with `isContinue` false it writes a
task-end record instead. -/
theorem cacheEnd_dispatch_iff_witness :
    ((sampleData CacheStatus.Success).cacheEnd sampleSched 0
      (sampleCache CacheStatus.Success) true).dispatched = true ∧
    ((sampleData CacheStatus.Success).cacheEnd sampleSched 0
      (sampleCache CacheStatus.Success) false).dispatched = false ∧
    ∃ msg, ((sampleData CacheStatus.Success).cacheEnd sampleSched 0
      (sampleCache CacheStatus.Success) false).taskEnd = some msg :=
  ⟨(cacheEnd_dispatch_iff sampleSched 0 (sampleData CacheStatus.Success)
      (sampleCache CacheStatus.Success) true).1.2 (by decide),
   by decide,
   (cacheEnd_dispatch_iff sampleSched 0 (sampleData CacheStatus.Success)
      (sampleCache CacheStatus.Success) false).2.2.1 (by decide)⟩

/-! ### The area suffix `ReplaceArea` -/

lemma isUpperASCII_iff (c : Char) : isUpperASCII c = true ↔ 65 ≤ c.toNat ∧ c.toNat ≤ 90 := by
  simp [isUpperASCII]

lemma asciiToLower_of_not_upper {c : Char} (h : isUpperASCII c = false) :
    asciiToLower c = c := by
  simp [asciiToLower, h]

lemma asciiToLower_not_upper (c : Char) : isUpperASCII (asciiToLower c) = false := by
  unfold asciiToLower
  by_cases h : isUpperASCII c = true
  · simp only [h, if_true]
    have hb := (isUpperASCII_iff c).1 h
    generalize c.toNat = n at hb
    obtain ⟨h1, h2⟩ := hb
    interval_cases n <;> rfl
  · simp only [h, if_false]
    simpa using h

lemma asciiToLower_ascii {c : Char} (hc : c.toNat < 128) : (asciiToLower c).toNat < 128 := by
  unfold asciiToLower
  by_cases h : isUpperASCII c = true
  · simp only [h, if_true]
    have hb := (isUpperASCII_iff c).1 h
    generalize c.toNat = n at hb
    obtain ⟨h1, h2⟩ := hb
    interval_cases n <;> decide
  · simp only [h, if_false]
    exact hc

lemma asciiToLower_ne_dash {c : Char} (hc : c ≠ '-') : asciiToLower c ≠ '-' := by
  unfold asciiToLower
  by_cases h : isUpperASCII c = true
  · simp only [h, if_true]
    have hb := (isUpperASCII_iff c).1 h
    generalize c.toNat = n at hb
    obtain ⟨h1, h2⟩ := hb
    interval_cases n <;> decide
  · simp only [h, if_false]
    exact hc

lemma dash_not_upper : isUpperASCII '-' = false := by decide

lemma underscore_not_upper : isUpperASCII '_' = false := by decide

lemma map_asciiToLower_of_no_upper {s : List Char} (h : s.any isUpperASCII = false) :
    s.map asciiToLower = s := by
  induction s with
  | nil => rfl
  | cons c rest ih =>
    simp only [List.any_cons, Bool.or_eq_false_iff] at h
    rw [List.map_cons, asciiToLower_of_not_upper h.1, ih h.2]

/-- `strings.ToLower` on a string of ASCII characters. -/
lemma stringsToLower_ascii (ulower : Char → Char) {s : List Char}
    (hs : ∀ c ∈ s, c.toNat < 128) : stringsToLower ulower s = s.map asciiToLower := by
  have hall : s.all (fun c => decide (c.toNat < 128)) = true := by
    rw [List.all_eq_true]
    intro c hc
    simpa using hs c hc
  unfold stringsToLower
  simp only [hall, if_true]
  by_cases hu : s.any isUpperASCII = true
  · simp [hu]
  · have hu' : s.any isUpperASCII = false := by simpa using hu
    simp only [hu', Bool.not_false, if_true]
    exact (map_asciiToLower_of_no_upper hu').symm

/-- `strings.ToLower` on a string with a character outside ASCII. -/
lemma stringsToLower_unicode (ulower : Char → Char) {s : List Char}
    (hs : ¬ ∀ c ∈ s, c.toNat < 128) : stringsToLower ulower s = s.map ulower := by
  have hall : s.all (fun c => decide (c.toNat < 128)) = false := by
    by_contra hne
    have : s.all (fun c => decide (c.toNat < 128)) = true := by simpa using hne
    rw [List.all_eq_true] at this
    exact hs (fun c hc => by simpa using this c hc)
  unfold stringsToLower
  simp [hall]

lemma replaceDash_no_dash (s : List Char) : '-' ∉ replaceDash s := by
  unfold replaceDash
  intro h
  obtain ⟨c, _, hc⟩ := List.mem_map.1 h
  by_cases hd : c = '-'
  · simp [hd] at hc
  · simp [hd] at hc

lemma replaceDash_of_no_dash {s : List Char} (h : '-' ∉ s) : replaceDash s = s := by
  unfold replaceDash
  induction s with
  | nil => rfl
  | cons c rest ih =>
    have hc : c ≠ '-' := fun e => h (e ▸ List.mem_cons_self _ _)
    have hr : '-' ∉ rest := fun e => h (List.mem_cons_of_mem _ e)
    rw [List.map_cons, ih hr]
    simp [hc]

lemma map_eq_self {α : Type} (f : α → α) (l : List α) (h : ∀ c ∈ l, f c = c) :
    l.map f = l := by
  induction l with
  | nil => rfl
  | cons c rest ih =>
    rw [List.map_cons, h c (List.mem_cons_self _ _),
      ih (fun x hx => h x (List.mem_cons_of_mem _ hx))]

/-- Running `ToLower` and `Replace` on a string that has no upper-case ASCII
letter, no dash, and only characters that `unicode.ToLower` leaves alone gives
the string back. -/
lemma replaceArea_fixed (ulower : Char → Char) {r : List Char}
    (hup : ∀ c ∈ r, isUpperASCII c = false) (hdash : '-' ∉ r)
    (hfix : (¬ ∀ c ∈ r, c.toNat < 128) → ∀ c ∈ r, ulower c = c) :
    replaceDash (stringsToLower ulower r) = r := by
  have hlow : stringsToLower ulower r = r := by
    by_cases hs : ∀ c ∈ r, c.toNat < 128
    · rw [stringsToLower_ascii ulower hs]
      exact map_eq_self _ _ (fun c hc => asciiToLower_of_not_upper (hup c hc))
    · rw [stringsToLower_unicode ulower hs]
      exact map_eq_self _ _ (hfix hs)
  rw [hlow, replaceDash_of_no_dash hdash]

/-- C20. `ReplaceArea` on an area of ASCII characters returns the area with every
upper-case letter lowered and every `-` replaced by `_`; the result has as many
characters as the area, no upper-case ASCII letter, and `ReplaceArea` returns it
unchanged. On every area the result has no `-`. On an area with a character
outside ASCII every character goes through `unicode.ToLower` and then has `-`
replaced by `_`; as `unicode.ToLower` never yields an upper-case ASCII letter,
maps its own values to themselves and leaves `_` alone, the result again has no
upper-case ASCII letter and is returned unchanged by `ReplaceArea`. -/
theorem replaceArea_normalises (unicodeToLower : Char → Char) (serverArea : String) :
    ((∀ c ∈ serverArea.data, c.toNat < 128) →
      (ReplaceArea unicodeToLower serverArea).data =
        serverArea.data.map (fun c => if c = '-' then '_' else asciiToLower c) ∧
      (ReplaceArea unicodeToLower serverArea).length = serverArea.length ∧
      (∀ c ∈ (ReplaceArea unicodeToLower serverArea).data, isUpperASCII c = false) ∧
      ReplaceArea unicodeToLower (ReplaceArea unicodeToLower serverArea) =
        ReplaceArea unicodeToLower serverArea) ∧
    '-' ∉ (ReplaceArea unicodeToLower serverArea).data ∧
    ((¬ ∀ c ∈ serverArea.data, c.toNat < 128) →
      (ReplaceArea unicodeToLower serverArea).data =
        serverArea.data.map
          (fun c => if unicodeToLower c = '-' then '_' else unicodeToLower c) ∧
      (ReplaceArea unicodeToLower serverArea).length = serverArea.length ∧
      ((∀ c, isUpperASCII (unicodeToLower c) = false) →
        (∀ c, unicodeToLower (unicodeToLower c) = unicodeToLower c) →
        unicodeToLower '_' = '_' →
        (∀ c ∈ (ReplaceArea unicodeToLower serverArea).data, isUpperASCII c = false) ∧
        ReplaceArea unicodeToLower (ReplaceArea unicodeToLower serverArea) =
          ReplaceArea unicodeToLower serverArea)) := by
  refine ⟨?_, replaceDash_no_dash _, ?_⟩
  · intro hs
    have hdata : (ReplaceArea unicodeToLower serverArea).data =
        serverArea.data.map (fun c => if c = '-' then '_' else asciiToLower c) := by
      simp only [ReplaceArea, stringsToLower_ascii unicodeToLower hs, replaceDash,
        List.map_map]
      apply List.map_congr_left
      intro c _
      by_cases hc : c = '-'
      · subst hc
        simp [asciiToLower_of_not_upper dash_not_upper]
      · simp [hc, asciiToLower_ne_dash hc]
    have hup : ∀ c ∈ (ReplaceArea unicodeToLower serverArea).data, isUpperASCII c = false := by
      intro c hc
      rw [hdata] at hc
      obtain ⟨x, _, rfl⟩ := List.mem_map.1 hc
      by_cases hx : x = '-'
      · simp only [hx, if_true]
        exact underscore_not_upper
      · simp only [hx, if_false]
        exact asciiToLower_not_upper x
    have hascii : ∀ c ∈ (ReplaceArea unicodeToLower serverArea).data, c.toNat < 128 := by
      intro c hc
      rw [hdata] at hc
      obtain ⟨x, hxs, rfl⟩ := List.mem_map.1 hc
      by_cases hx : x = '-'
      · simp only [hx, if_true]
        decide
      · simp only [hx, if_false]
        exact asciiToLower_ascii (hs x hxs)
    refine ⟨hdata, ?_, hup, ?_⟩
    · simp only [String.length, hdata, List.length_map]
    · have hfix := replaceArea_fixed unicodeToLower hup (replaceDash_no_dash _)
        (fun hn => absurd hascii hn)
      show String.mk _ = _
      rw [hfix]
  · intro hs
    have hdata : (ReplaceArea unicodeToLower serverArea).data =
        serverArea.data.map
          (fun c => if unicodeToLower c = '-' then '_' else unicodeToLower c) := by
      simp only [ReplaceArea, stringsToLower_unicode unicodeToLower hs, replaceDash,
        List.map_map]
      rfl
    refine ⟨hdata, ?_, ?_⟩
    · simp only [String.length, hdata, List.length_map]
    · intro h1 h2 h3
      have hup : ∀ c ∈ (ReplaceArea unicodeToLower serverArea).data,
          isUpperASCII c = false := by
        intro c hc
        rw [hdata] at hc
        obtain ⟨x, _, rfl⟩ := List.mem_map.1 hc
        by_cases hx : unicodeToLower x = '-'
        · simp only [hx, if_true]
          exact underscore_not_upper
        · simp only [hx, if_false]
          exact h1 x
      have hfixed : ∀ c ∈ (ReplaceArea unicodeToLower serverArea).data,
          unicodeToLower c = c := by
        intro c hc
        rw [hdata] at hc
        obtain ⟨x, _, rfl⟩ := List.mem_map.1 hc
        by_cases hx : unicodeToLower x = '-'
        · simp only [hx, if_true]
          exact h3
        · simp only [hx, if_false]
          exact h2 x
      refine ⟨hup, ?_⟩
      have hfix := replaceArea_fixed unicodeToLower hup (replaceDash_no_dash _)
        (fun _ => hfixed)
      show String.mk _ = _
      rw [hfix]

/-- C20, a worked instance: the area `CN-GD-Shenzhen`. -/
theorem replaceArea_normalises_witness :
    (∀ c ∈ ("CN-GD-Shenzhen" : String).data, c.toNat < 128) ∧
    ReplaceArea asciiToLower "CN-GD-Shenzhen" = "cn_gd_shenzhen" ∧
    ReplaceArea asciiToLower (ReplaceArea asciiToLower "CN-GD-Shenzhen") =
      ReplaceArea asciiToLower "CN-GD-Shenzhen" :=
  ⟨by decide, by decide,
   ((replaceArea_normalises asciiToLower "CN-GD-Shenzhen").1 (by decide)).2.2.2⟩

/-! ### Go maps with string keys -/

lemma mapGet_mapSet {β : Type} (m : List (String × β)) (k k' : String) (v : β) :
    mapGet (mapSet m k v) k' = if k = k' then some v else mapGet m k' := by
  induction m with
  | nil =>
    by_cases h : k = k' <;> simp [mapSet, mapGet, h]
  | cons p rest ih =>
    by_cases hp : p.1 = k
    · by_cases h : k = k'
      · simp [mapSet, mapGet, hp, h]
      · have : ¬ p.1 = k' := fun e => h (hp ▸ e)
        simp [mapSet, mapGet, hp, h]
    · by_cases hk : p.1 = k'
      · have hkk : ¬ k = k' := fun e => hp (e ▸ hk)
        have hkk' : ¬ k' = k := fun e => hkk e.symm
        subst hk
        simp [mapSet, mapGet, hkk, hkk']
      · simp [mapSet, mapGet, hp, hk, ih]

lemma mem_mapSet' {β : Type} {m : List (String × β)} {k : String} {v : β} {p : String × β}
    (h : p ∈ mapSet m k v) : p ∈ m ∨ p = (k, v) := by
  induction m with
  | nil => simpa [mapSet] using h
  | cons q rest ih =>
    by_cases hq : q.1 = k
    · simp only [mapSet, hq, if_true, List.mem_cons] at h
      rcases h with h | h
      · exact Or.inr h
      · exact Or.inl (List.mem_cons_of_mem _ h)
    · simp only [mapSet, hq, if_false, List.mem_cons] at h
      rcases h with h | h
      · exact Or.inl (h ▸ List.mem_cons_self _ _)
      · rcases ih h with h | h
        · exact Or.inl (List.mem_cons_of_mem _ h)
        · exact Or.inr h

lemma mapSet_keys {β : Type} (m : List (String × β)) (k : String) (v : β) (k' : String) :
    k' ∈ (mapSet m k v).map Prod.fst ↔ k' = k ∨ k' ∈ m.map Prod.fst := by
  induction m with
  | nil => simp [mapSet]
  | cons q rest ih =>
    by_cases hq : q.1 = k
    · simp only [mapSet, hq, if_true, List.map_cons, List.mem_cons]
      constructor
      · rintro (h | h)
        · exact Or.inl h
        · exact Or.inr (Or.inr h)
      · rintro (h | h | h)
        · exact Or.inl h
        · exact Or.inl h
        · exact Or.inr h
    · simp only [mapSet, hq, if_false, List.map_cons, List.mem_cons, ih]
      tauto

lemma mapSet_keys_nodup {β : Type} {m : List (String × β)} (k : String) (v : β)
    (hm : (m.map Prod.fst).Nodup) : ((mapSet m k v).map Prod.fst).Nodup := by
  induction m with
  | nil => simp [mapSet]
  | cons q rest ih =>
    rw [List.map_cons, List.nodup_cons] at hm
    by_cases hq : q.1 = k
    · simp only [mapSet, hq, if_true, List.map_cons, List.nodup_cons]
      exact ⟨hq ▸ hm.1, hm.2⟩
    · simp only [mapSet, hq, if_false, List.map_cons, List.nodup_cons]
      refine ⟨?_, ih hm.2⟩
      intro hmem
      rcases (mapSet_keys rest k v q.1).1 hmem with h | h
      · exact hq h
      · exact hm.1 h

lemma mapGet_eq_some_iff {β : Type} {m : List (String × β)} (hm : (m.map Prod.fst).Nodup)
    (k : String) (v : β) : mapGet m k = some v ↔ (k, v) ∈ m := by
  induction m with
  | nil => simp [mapGet]
  | cons q rest ih =>
    rw [List.map_cons, List.nodup_cons] at hm
    by_cases hq : q.1 = k
    · simp only [mapGet, hq, if_true, Option.some.injEq, List.mem_cons]
      constructor
      · intro h
        exact Or.inl (by rw [← hq, ← h])
      · rintro (h | h)
        · rw [← h]
        · exact absurd (List.mem_map_of_mem Prod.fst h) (by simpa [hq] using hm.1)
    · simp only [mapGet, hq, if_false, List.mem_cons, ih hm.2]
      constructor
      · exact Or.inr
      · rintro (h | h)
        · exact absurd (by rw [← h]) hq
        · exact h

lemma mapGet_eq_none_iff {β : Type} (m : List (String × β)) (k : String) :
    mapGet m k = none ↔ k ∉ m.map Prod.fst := by
  induction m with
  | nil => simp [mapGet]
  | cons q rest ih =>
    by_cases hq : q.1 = k
    · simp [mapGet, hq]
    · have : ¬ k = q.1 := fun e => hq e.symm
      simp [mapGet, hq, ih, this]

/-- The map filled from a list of entries, one assignment after the other. -/
lemma foldl_mapSet_facts {β : Type} (l : List (String × β)) (m : List (String × β))
    (hm : (m.map Prod.fst).Nodup) :
    ((l.foldl (fun m p => mapSet m p.1 p.2) m).map Prod.fst).Nodup ∧
    (∀ p ∈ l.foldl (fun m p => mapSet m p.1 p.2) m, p ∈ m ∨ p ∈ l) ∧
    (∀ k, k ∈ (l.foldl (fun m p => mapSet m p.1 p.2) m).map Prod.fst ↔
      k ∈ l.map Prod.fst ∨ k ∈ m.map Prod.fst) := by
  induction l generalizing m with
  | nil => exact ⟨hm, fun p hp => Or.inl hp, fun k => by simp⟩
  | cons q rest ih =>
    rw [List.foldl_cons]
    obtain ⟨h1, h2, h3⟩ := ih (mapSet m q.1 q.2) (mapSet_keys_nodup _ _ hm)
    refine ⟨h1, ?_, ?_⟩
    · intro p hp
      rcases h2 p hp with h | h
      · rcases mem_mapSet' h with h | h
        · exact Or.inl h
        · exact Or.inr (h ▸ List.mem_cons_self _ _)
      · exact Or.inr (List.mem_cons_of_mem _ h)
    · intro k
      rw [h3, mapSet_keys]
      simp only [List.map_cons, List.mem_cons]
      tauto

/-- When the entries with one key all carry one value, the map filled from the
list holds exactly the entries of the list. -/
lemma foldl_mapSet_get {β : Type} (l : List (String × β))
    (hl : ∀ p ∈ l, ∀ q ∈ l, p.1 = q.1 → p.2 = q.2) (k : String) (v : β) :
    mapGet (l.foldl (fun m p => mapSet m p.1 p.2) []) k = some v ↔ (k, v) ∈ l := by
  obtain ⟨h1, h2, h3⟩ := foldl_mapSet_facts l [] (by simp)
  rw [mapGet_eq_some_iff h1]
  constructor
  · intro h
    rcases h2 _ h with h | h
    · simp at h
    · exact h
  · intro h
    have hk : k ∈ (l.foldl (fun m p => mapSet m p.1 p.2) []).map Prod.fst :=
      (h3 k).2 (Or.inl (List.mem_map_of_mem Prod.fst h))
    obtain ⟨p, hp, hpk⟩ := List.mem_map.1 hk
    have hpl : p ∈ l := by
      rcases h2 p hp with h' | h'
      · simp at h'
      · exact h'
    have hv : p.2 = v := hl p hpl (k, v) h hpk
    have : p = (k, v) := Prod.ext hpk hv
    rw [← this]
    exact hp

/-! ### C15: `GetUndoneBlocks` -/

lemma getUndoneBlocks_eq (db : SqlDB) (env : SqlEnv) (cacheID : String) :
    (db.GetUndoneBlocks env cacheID).1 =
      ((env.blockOrder (db.blockInfo.filter (fun b =>
        decide (b.CacheID = cacheID ∧ b.Status ≠ CacheStatus.Success)))).map
        (fun b => (b.CID, b.ID))).foldl (fun m p => mapSet m p.1 p.2) [] := by
  simp only [SqlDB.GetUndoneBlocks, List.foldl_map]

lemma mem_undone_rows (db : SqlDB) (env : SqlEnv) (cacheID : String) (p : String × String) :
    p ∈ (env.blockOrder (db.blockInfo.filter (fun b =>
        decide (b.CacheID = cacheID ∧ b.Status ≠ CacheStatus.Success)))).map
        (fun b => (b.CID, b.ID)) ↔
      ∃ b ∈ db.blockInfo, b.CacheID = cacheID ∧ b.Status ≠ CacheStatus.Success ∧
        b.CID = p.1 ∧ b.ID = p.2 := by
  simp only [List.mem_map, (env.blockOrder_perm _).mem_iff, List.mem_filter,
    decide_eq_true_eq]
  constructor
  · rintro ⟨b, ⟨hb, hc, hs⟩, rfl⟩
    exact ⟨b, hb, hc, hs, rfl, rfl⟩
  · rintro ⟨b, hb, hc, hs, h1, h2⟩
    exact ⟨b, ⟨hb, hc, hs⟩, Prod.ext h1 h2⟩

/-- C15: `GetUndoneBlocks` returns no error and a map from cid to block id
whose every entry is the cid and the id of a row of the given cache with a
status other than Success, so that no row of another cache and no Success row
appears; and on a block table in which `cid_hash` is a function of `cid` and
no two rows have the same `(cache_id, cid_hash)`, the map holds under the cid
of every such row the id of that row, and nothing else. -/
theorem getUndoneBlocks_exact (db : SqlDB) (env : SqlEnv) (cacheID : String) :
    (db.GetUndoneBlocks env cacheID).2 = none ∧
    ((db.GetUndoneBlocks env cacheID).1.map Prod.fst).Nodup ∧
    (∀ p ∈ (db.GetUndoneBlocks env cacheID).1,
      ∃ b ∈ db.blockInfo, b.CacheID = cacheID ∧ b.Status ≠ CacheStatus.Success ∧
        b.CID = p.1 ∧ b.ID = p.2) ∧
    (∀ b ∈ db.blockInfo, b.CacheID = cacheID → b.Status ≠ CacheStatus.Success →
      b.CID ∈ (db.GetUndoneBlocks env cacheID).1.map Prod.fst) ∧
    (∀ hashOf : String → String,
      (∀ b ∈ db.blockInfo, b.CIDHash = hashOf b.CID) →
      (∀ b1 ∈ db.blockInfo, ∀ b2 ∈ db.blockInfo,
        b1.CacheID = b2.CacheID → b1.CIDHash = b2.CIDHash → b1 = b2) →
      (∀ b ∈ db.blockInfo, b.CacheID = cacheID → b.Status ≠ CacheStatus.Success →
        mapGet (db.GetUndoneBlocks env cacheID).1 b.CID = some b.ID) ∧
      (∀ cid id, mapGet (db.GetUndoneBlocks env cacheID).1 cid = some id ↔
        ∃ b ∈ db.blockInfo, b.CacheID = cacheID ∧ b.Status ≠ CacheStatus.Success ∧
          b.CID = cid ∧ b.ID = id)) := by
  obtain ⟨h1, h2, h3⟩ := foldl_mapSet_facts
    ((env.blockOrder (db.blockInfo.filter (fun b =>
        decide (b.CacheID = cacheID ∧ b.Status ≠ CacheStatus.Success)))).map
        (fun b => (b.CID, b.ID))) [] (by simp)
  rw [← getUndoneBlocks_eq] at h1 h2 h3
  refine ⟨rfl, h1, ?_, ?_, ?_⟩
  · intro p hp
    rcases h2 p hp with h | h
    · simp at h
    · exact (mem_undone_rows db env cacheID p).1 h
  · intro b hb hc hs
    refine (h3 b.CID).2 (Or.inl ?_)
    exact List.mem_map_of_mem Prod.fst
      ((mem_undone_rows db env cacheID (b.CID, b.ID)).2 ⟨b, hb, hc, hs, rfl, rfl⟩)
  · intro hashOf hhash hkey
    have hcons : ∀ p ∈ (env.blockOrder (db.blockInfo.filter (fun b =>
        decide (b.CacheID = cacheID ∧ b.Status ≠ CacheStatus.Success)))).map
        (fun b => (b.CID, b.ID)),
        ∀ q ∈ (env.blockOrder (db.blockInfo.filter (fun b =>
        decide (b.CacheID = cacheID ∧ b.Status ≠ CacheStatus.Success)))).map
        (fun b => (b.CID, b.ID)), p.1 = q.1 → p.2 = q.2 := by
      intro p hp q hq hpq
      obtain ⟨b1, hb1, hc1, -, hcid1, hid1⟩ := (mem_undone_rows db env cacheID p).1 hp
      obtain ⟨b2, hb2, hc2, -, hcid2, hid2⟩ := (mem_undone_rows db env cacheID q).1 hq
      have hh : b1.CIDHash = b2.CIDHash := by
        rw [hhash b1 hb1, hhash b2 hb2, hcid1, hcid2, hpq]
      have hbb : b1 = b2 := hkey b1 hb1 b2 hb2 (hc1.trans hc2.symm) hh
      rw [← hid1, ← hid2, hbb]
    have hget : ∀ cid id, mapGet (db.GetUndoneBlocks env cacheID).1 cid = some id ↔
        ∃ b ∈ db.blockInfo, b.CacheID = cacheID ∧ b.Status ≠ CacheStatus.Success ∧
          b.CID = cid ∧ b.ID = id := by
      intro cid id
      rw [getUndoneBlocks_eq, foldl_mapSet_get _ hcons cid id]
      exact mem_undone_rows db env cacheID (cid, id)
    refine ⟨?_, hget⟩
    intro b hb hc hs
    exact (hget b.CID b.ID).2 ⟨b, hb, hc, hs, rfl, rfl⟩

/-- C15 at a table with two undone rows and a Success row of cache `c1` and a
row of cache `c2`: the map holds the two undone rows of `c1`. -/
theorem getUndoneBlocks_exact_witness :
    (undoneSampleDB.GetUndoneBlocks sampleSql "c1").1 = [("cid1", "b1"), ("cid3", "b3")] ∧
    (∀ b ∈ undoneSampleDB.blockInfo, b.CacheID = "c1" → b.Status ≠ CacheStatus.Success →
      mapGet (undoneSampleDB.GetUndoneBlocks sampleSql "c1").1 b.CID = some b.ID) :=
  ⟨by decide,
   ((getUndoneBlocks_exact undoneSampleDB sampleSql "c1").2.2.2.2 (fun cid => cid)
      (by decide) (by decide)).1⟩

/-! ### C16: `GetBlocksWithHash` -/

lemma getBlocksWithHash_eq (db : SqlDB) (env : SqlEnv) (hash : String) :
    (db.GetBlocksWithHash env hash).1 =
      ((env.blockOrder (db.blockInfo.filter (fun b =>
        decide (b.CIDHash = hash ∧ b.Status = CacheStatus.Success)))).map
        (fun b => (b.CarfileHash, b))).foldl (fun m p => mapSet m p.1 p.2) [] := by
  simp only [SqlDB.GetBlocksWithHash, List.foldl_map]

lemma length_eq_dedup_of_keys {α : Type} [DecidableEq α] {l m : List α} (hl : l.Nodup)
    (h : ∀ k, k ∈ l ↔ k ∈ m) : l.length = m.dedup.length := by
  rw [← List.toFinset_card_of_nodup hl, ← List.card_toFinset]
  congr 1
  ext k
  simp [h k]

/-- C16, as the code has it: `GetBlocksWithHash` returns no error and a map
keyed by carfile hash; each entry is a block row with the given `cid_hash` and
status Success filed under its own carfile hash, and every carfile with such
a row has one entry, so the number of returned blocks is the number of
different carfile hashes among those rows, at most the number of those rows;
when no two of those rows belong to one carfile, every such row is returned
and the two numbers agree. -/
theorem getBlocksWithHash_per_carfile (db : SqlDB) (env : SqlEnv) (hash : String) :
    (db.GetBlocksWithHash env hash).2 = none ∧
    ((db.GetBlocksWithHash env hash).1.map Prod.fst).Nodup ∧
    (∀ p ∈ (db.GetBlocksWithHash env hash).1,
      p.2 ∈ db.blockInfo ∧ p.2.CIDHash = hash ∧ p.2.Status = CacheStatus.Success ∧
        p.2.CarfileHash = p.1) ∧
    (∀ b ∈ db.blockInfo, b.CIDHash = hash → b.Status = CacheStatus.Success →
      ∃ b0, (b.CarfileHash, b0) ∈ (db.GetBlocksWithHash env hash).1) ∧
    (db.GetBlocksWithHash env hash).1.length =
      (((db.blockInfo.filter (fun b =>
        decide (b.CIDHash = hash ∧ b.Status = CacheStatus.Success))).map
        (fun b => b.CarfileHash)).dedup).length ∧
    (db.GetBlocksWithHash env hash).1.length ≤
      (db.blockInfo.filter (fun b =>
        decide (b.CIDHash = hash ∧ b.Status = CacheStatus.Success))).length ∧
    (((db.blockInfo.filter (fun b =>
        decide (b.CIDHash = hash ∧ b.Status = CacheStatus.Success))).map
        (fun b => b.CarfileHash)).Nodup →
      (db.GetBlocksWithHash env hash).1.length =
        (db.blockInfo.filter (fun b =>
          decide (b.CIDHash = hash ∧ b.Status = CacheStatus.Success))).length ∧
      ∀ b ∈ db.blockInfo, b.CIDHash = hash → b.Status = CacheStatus.Success →
        (b.CarfileHash, b) ∈ (db.GetBlocksWithHash env hash).1) := by
  obtain ⟨h1, h2, h3⟩ := foldl_mapSet_facts
    ((env.blockOrder (db.blockInfo.filter (fun b =>
        decide (b.CIDHash = hash ∧ b.Status = CacheStatus.Success)))).map
        (fun b => (b.CarfileHash, b))) [] (by simp)
  rw [← getBlocksWithHash_eq] at h1 h2 h3
  have hmem : ∀ p : String × BlockInfo,
      p ∈ (env.blockOrder (db.blockInfo.filter (fun b =>
        decide (b.CIDHash = hash ∧ b.Status = CacheStatus.Success)))).map
        (fun b => (b.CarfileHash, b)) ↔
      (p.2 ∈ db.blockInfo ∧ p.2.CIDHash = hash ∧ p.2.Status = CacheStatus.Success ∧
        p.2.CarfileHash = p.1) := by
    intro p
    simp only [List.mem_map, (env.blockOrder_perm _).mem_iff, List.mem_filter,
      decide_eq_true_eq]
    constructor
    · rintro ⟨b, ⟨hb, hc, hs⟩, rfl⟩
      exact ⟨hb, hc, hs, rfl⟩
    · rintro ⟨hb, hc, hs, hk⟩
      exact ⟨p.2, ⟨hb, hc, hs⟩, Prod.ext hk rfl⟩
  have hentry : ∀ p ∈ (db.GetBlocksWithHash env hash).1,
      p.2 ∈ db.blockInfo ∧ p.2.CIDHash = hash ∧ p.2.Status = CacheStatus.Success ∧
        p.2.CarfileHash = p.1 := by
    intro p hp
    rcases h2 p hp with h | h
    · simp at h
    · exact (hmem p).1 h
  have hkeys : ∀ k, k ∈ (db.GetBlocksWithHash env hash).1.map Prod.fst ↔
      k ∈ (db.blockInfo.filter (fun b =>
        decide (b.CIDHash = hash ∧ b.Status = CacheStatus.Success))).map
        (fun b => b.CarfileHash) := by
    intro k
    rw [h3 k]
    simp only [List.map_nil, List.not_mem_nil, or_false, List.map_map, List.mem_map,
      (env.blockOrder_perm _).mem_iff, Function.comp]
  have hcover : ∀ b ∈ db.blockInfo, b.CIDHash = hash → b.Status = CacheStatus.Success →
      ∃ b0, (b.CarfileHash, b0) ∈ (db.GetBlocksWithHash env hash).1 := by
    intro b hb hc hs
    have hk : b.CarfileHash ∈ (db.GetBlocksWithHash env hash).1.map Prod.fst :=
      (hkeys _).2 (List.mem_map_of_mem _
        (List.mem_filter.2 ⟨hb, by simp [hc, hs]⟩))
    obtain ⟨p, hp, hpk⟩ := List.mem_map.1 hk
    exact ⟨p.2, by rw [← hpk]; exact hp⟩
  have hlen : (db.GetBlocksWithHash env hash).1.length =
      (((db.blockInfo.filter (fun b =>
        decide (b.CIDHash = hash ∧ b.Status = CacheStatus.Success))).map
        (fun b => b.CarfileHash)).dedup).length := by
    rw [← length_eq_dedup_of_keys h1 hkeys, List.length_map]
  refine ⟨rfl, h1, hentry, hcover, hlen, ?_, ?_⟩
  · rw [hlen]
    calc _ ≤ ((db.blockInfo.filter (fun b =>
        decide (b.CIDHash = hash ∧ b.Status = CacheStatus.Success))).map
        (fun b => b.CarfileHash)).length := (List.dedup_sublist _).length_le
      _ = _ := List.length_map _ _
  · intro hnd
    refine ⟨by rw [hlen, hnd.dedup, List.length_map], ?_⟩
    intro b hb hc hs
    obtain ⟨b0, hb0⟩ := hcover b hb hc hs
    obtain ⟨h0b, h0c, h0s, h0k⟩ := hentry _ hb0
    have hb0f : b0 ∈ db.blockInfo.filter (fun b =>
        decide (b.CIDHash = hash ∧ b.Status = CacheStatus.Success)) :=
      List.mem_filter.2 ⟨h0b, decide_eq_true ⟨h0c, h0s⟩⟩
    have hbf : b ∈ db.blockInfo.filter (fun b =>
        decide (b.CIDHash = hash ∧ b.Status = CacheStatus.Success)) :=
      List.mem_filter.2 ⟨hb, by simp [hc, hs]⟩
    have hbb : b0 = b := List.inj_on_of_nodup_map hnd hb0f hbf h0k
    rw [hbb] at hb0
    exact hb0

/-- C16 at a table where the block is cached for two carfiles: both rows are
returned. -/
theorem getBlocksWithHash_per_carfile_witness :
    ((twoCarfilesDB.blockInfo.filter (fun b =>
        decide (b.CIDHash = "cid1" ∧ b.Status = CacheStatus.Success))).map
        (fun b => b.CarfileHash)).Nodup ∧
    (twoCarfilesDB.GetBlocksWithHash sampleSql "cid1").1.length = 2 :=
  ⟨by decide,
   ((getBlocksWithHash_per_carfile twoCarfilesDB sampleSql "cid1").2.2.2.2.2.2
      (by decide)).1⟩

/-- C16 as claimed fails: two attempts of one carfile hold the block with
status Success, two rows have the `cid_hash`, and one block is returned. -/
theorem getBlocksWithHash_per_carfile_counterexample :
    (twoAttemptsDB.blockInfo.filter (fun b =>
        decide (b.CIDHash = "cid1" ∧ b.Status = CacheStatus.Success))).length = 2 ∧
    (twoAttemptsDB.GetBlocksWithHash sampleSql "cid1").1.length = 1 ∧
    (twoAttemptsDB.GetBlocksWithHash sampleSql "cid1").2 = none := by
  decide

/-! ### C18, C19: `SaveCacheEndResults` and the block rows -/

lemma saveCacheEndResults_err (db : SqlDB) (env : SqlEnv) (dInfo : DataInfo)
    (cInfo : CacheInfo) :
    (db.SaveCacheEndResults env dInfo cInfo).2 = none ∨
      (db.SaveCacheEndResults env dInfo cInfo).1 = db := by
  unfold SqlDB.SaveCacheEndResults
  simp only
  split
  · exact Or.inr rfl
  · exact Or.inl rfl

lemma saveCacheEndResults_blocks (db : SqlDB) (env : SqlEnv) (dInfo : DataInfo)
    (cInfo : CacheInfo) (h : (db.SaveCacheEndResults env dInfo cInfo).2 = none) :
    (db.SaveCacheEndResults env dInfo cInfo).1.blockInfo =
      if cInfo.Status = CacheStatus.Timeout then
        db.blockInfo.map (fun b =>
          if b.CacheID = cInfo.CacheID ∧ b.Status ≠ CacheStatus.Success then
            { b with EndTime := some env.now }
          else b)
      else db.blockInfo := by
  unfold SqlDB.SaveCacheEndResults at h ⊢
  simp only at h ⊢
  split
  · rename_i err heq
    rw [heq] at h
    simp at h
  · rfl

lemma saveCacheEndResults_caches (db : SqlDB) (env : SqlEnv) (dInfo : DataInfo)
    (cInfo : CacheInfo) (h : (db.SaveCacheEndResults env dInfo cInfo).2 = none) :
    ∃ iSize iCount : Int, (db.SaveCacheEndResults env dInfo cInfo).1.cacheInfo =
      db.cacheInfo.map (fun c =>
        if c.CacheID = cInfo.CacheID then
          { c with DoneSize := iSize, DoneBlocks := iCount, Reliability := cInfo.Reliability,
                   Status := cInfo.Status, TotalSize := cInfo.TotalSize,
                   TotalBlocks := cInfo.TotalBlocks, Nodes := cInfo.Nodes,
                   EndTime := some env.now }
        else c) := by
  unfold SqlDB.SaveCacheEndResults at h ⊢
  simp only at h ⊢
  split
  · rename_i err heq
    rw [heq] at h
    simp at h
  · rename_i iSize heq
    exact ⟨iSize, _, rfl⟩

lemma saveCacheEndResults_ok_of_success (db : SqlDB) (env : SqlEnv) (dInfo : DataInfo)
    (cInfo : CacheInfo)
    (h : (∃ b ∈ db.blockInfo, b.CacheID = cInfo.CacheID ∧ b.Status = CacheStatus.Success) ∨
      ∃ n, env.sumOfNone = .ok n) :
    (db.SaveCacheEndResults env dInfo cInfo).2 = none := by
  unfold SqlDB.SaveCacheEndResults
  simp only
  split
  · rename_i err heq
    exfalso
    by_cases hlen : (db.blockInfo.filter (fun b =>
        decide (b.CacheID = cInfo.CacheID ∧ b.Status = CacheStatus.Success))).length = 0
    · rw [if_pos hlen] at heq
      rcases h with ⟨b, hb, hc, hs⟩ | ⟨n, hn⟩
      · have hmem : b ∈ db.blockInfo.filter (fun b =>
            decide (b.CacheID = cInfo.CacheID ∧ b.Status = CacheStatus.Success)) :=
          List.mem_filter.2 ⟨hb, decide_eq_true ⟨hc, hs⟩⟩
        rw [List.length_eq_zero] at hlen
        rw [hlen] at hmem
        simp at hmem
      · rw [hn] at heq
        cases heq
    · rw [if_neg hlen] at heq
      cases heq
  · rfl

/-- C18, as the code has it: when `SaveCacheEndResults` is called with cache
status Timeout and the sums of the Success blocks can be read (some block of
the cache is Success, or the driver accepts the sum over no rows), the call
returns nil and `end_time` is stamped on exactly the blocks of that cache
whose status is not Success, whether Pending, Failed or other; the Success
blocks of the cache and the blocks of other caches keep their `end_time`, and
no other column of a block row changes. When the status is not Timeout, or
when the call returns an error, no block row is modified. -/
theorem saveCacheEndResults_block_rows (db : SqlDB) (env : SqlEnv) (dInfo : DataInfo)
    (cInfo : CacheInfo) :
    (((∃ b ∈ db.blockInfo, b.CacheID = cInfo.CacheID ∧ b.Status = CacheStatus.Success) ∨
        ∃ n, env.sumOfNone = .ok n) →
      (db.SaveCacheEndResults env dInfo cInfo).2 = none) ∧
    ((db.SaveCacheEndResults env dInfo cInfo).2 = none →
      cInfo.Status = CacheStatus.Timeout →
      (db.SaveCacheEndResults env dInfo cInfo).1.blockInfo =
        db.blockInfo.map (fun b =>
          if b.CacheID = cInfo.CacheID ∧ b.Status ≠ CacheStatus.Success then
            { b with EndTime := some env.now }
          else b)) ∧
    (cInfo.Status ≠ CacheStatus.Timeout →
      (db.SaveCacheEndResults env dInfo cInfo).1.blockInfo = db.blockInfo) ∧
    ((db.SaveCacheEndResults env dInfo cInfo).2 ≠ none →
      (db.SaveCacheEndResults env dInfo cInfo).1 = db) := by
  refine ⟨saveCacheEndResults_ok_of_success db env dInfo cInfo, ?_, ?_, ?_⟩
  · intro h ht
    rw [saveCacheEndResults_blocks db env dInfo cInfo h, if_pos ht]
  · intro ht
    rcases saveCacheEndResults_err db env dInfo cInfo with h | h
    · rw [saveCacheEndResults_blocks db env dInfo cInfo h, if_neg ht]
    · rw [h]
  · intro h
    rcases saveCacheEndResults_err db env dInfo cInfo with h' | h'
    · exact absurd h' h
    · exact h'

/-- C18 at the attempt `c1` ending by timeout at time 9: the Failed block and
the Pending block of `c1` are stamped, the Success block and the block of the
other attempt are not. -/
theorem saveCacheEndResults_block_rows_witness :
    (timeoutSampleDB.SaveCacheEndResults sampleSql (sampleDataInfo 0)
        (sampleCacheInfo "c1" CacheStatus.Timeout 0)).2 = none ∧
    (timeoutSampleDB.SaveCacheEndResults sampleSql (sampleDataInfo 0)
        (sampleCacheInfo "c1" CacheStatus.Timeout 0)).1.blockInfo =
      [sampleBlockRow "b1" "c1" "cid1" "E1" CacheStatus.Success (some 3),
       sampleBlockRow "b2" "c1" "cid2" "E1" CacheStatus.Failed (some 9),
       sampleBlockRow "b3" "c1" "cid3" "" CacheStatus.Pending (some 9),
       sampleBlockRow "b4" "c2" "cid1" "" CacheStatus.Pending none] :=
  ⟨by decide,
   ((saveCacheEndResults_block_rows timeoutSampleDB sampleSql (sampleDataInfo 0)
      (sampleCacheInfo "c1" CacheStatus.Timeout 0)).2.1 (by decide) (by decide)).trans
      (by decide)⟩

/-- C18 as claimed fails: the block `b2` of the attempt is Failed, not Pending,
with `end_time` 5, and the call with status Timeout at time 9 returns nil and
sets its `end_time` to 9. -/
theorem saveCacheEndResults_block_rows_counterexample :
    sampleBlockRow "b2" "c1" "cid2" "E1" CacheStatus.Failed (some 5) ∈
      timeoutSampleDB.blockInfo ∧
    (timeoutSampleDB.SaveCacheEndResults sampleSql (sampleDataInfo 0)
        (sampleCacheInfo "c1" CacheStatus.Timeout 0)).2 = none ∧
    (timeoutSampleDB.SaveCacheEndResults sampleSql (sampleDataInfo 0)
        (sampleCacheInfo "c1" CacheStatus.Timeout 0)).1.blockInfo.map
        (fun b => (b.ID, b.Status, b.EndTime)) =
      [("b1", CacheStatus.Success, some 3), ("b2", CacheStatus.Failed, some 9),
       ("b3", CacheStatus.Pending, some 9), ("b4", CacheStatus.Pending, none)] := by
  decide

/-- C19, as the code has it: `SaveCacheEndResults` changes the status of no
block row, and when an attempt terminates with status Timeout and the call
returns nil, every cache row of the attempt has status Timeout and every block
row of the attempt that was Pending is still Pending, with `end_time` set to
the time of the call. -/
theorem saveCacheEndResults_timeout_status (db : SqlDB) (env : SqlEnv) (dInfo : DataInfo)
    (cInfo : CacheInfo) :
    (db.SaveCacheEndResults env dInfo cInfo).1.blockInfo.map (fun b => (b.ID, b.Status)) =
      db.blockInfo.map (fun b => (b.ID, b.Status)) ∧
    ((db.SaveCacheEndResults env dInfo cInfo).2 = none →
      cInfo.Status = CacheStatus.Timeout →
      (∀ c ∈ (db.SaveCacheEndResults env dInfo cInfo).1.cacheInfo,
        c.CacheID = cInfo.CacheID → c.Status = CacheStatus.Timeout) ∧
      (db.SaveCacheEndResults env dInfo cInfo).1.cacheInfo.map (fun c => c.CacheID) =
        db.cacheInfo.map (fun c => c.CacheID) ∧
      (∀ b ∈ db.blockInfo, b.CacheID = cInfo.CacheID → b.Status = CacheStatus.Pending →
        { b with EndTime := some env.now } ∈
          (db.SaveCacheEndResults env dInfo cInfo).1.blockInfo)) := by
  constructor
  · rcases saveCacheEndResults_err db env dInfo cInfo with h | h
    · rw [saveCacheEndResults_blocks db env dInfo cInfo h]
      split
      · rw [List.map_map]
        apply List.map_congr_left
        intro b _
        simp only [Function.comp]
        split <;> rfl
      · rfl
    · rw [h]
  · intro h ht
    obtain ⟨iSize, iCount, hc⟩ := saveCacheEndResults_caches db env dInfo cInfo h
    refine ⟨?_, ?_, ?_⟩
    · intro c hcm hid
      rw [hc] at hcm
      obtain ⟨c0, _, rfl⟩ := List.mem_map.1 hcm
      by_cases h0 : c0.CacheID = cInfo.CacheID
      · simp only [h0, if_true]
        exact ht
      · rw [if_neg h0] at hid
        exact absurd hid h0
    · rw [hc, List.map_map]
      apply List.map_congr_left
      intro c _
      simp only [Function.comp]
      split <;> rfl
    · intro b hb hid hs
      rw [saveCacheEndResults_blocks db env dInfo cInfo h, if_pos ht]
      refine List.mem_map.2 ⟨b, hb, ?_⟩
      have hns : b.Status ≠ CacheStatus.Success := by
        rw [hs]
        decide
      rw [if_pos ⟨hid, hns⟩]

/-- C19 at the attempt `c1` ending by timeout at time 9: its cache row is
Timeout, its Pending block `b3` is still Pending and carries `end_time` 9. -/
theorem saveCacheEndResults_timeout_status_witness :
    ((timeoutSampleDB.SaveCacheEndResults sampleSql (sampleDataInfo 0)
        (sampleCacheInfo "c1" CacheStatus.Timeout 0)).1.cacheInfo.map
        (fun c => (c.CacheID, c.Status)) =
      [("c1", CacheStatus.Timeout), ("c2", CacheStatus.Running)]) ∧
    sampleBlockRow "b3" "c1" "cid3" "" CacheStatus.Pending (some 9) ∈
      (timeoutSampleDB.SaveCacheEndResults sampleSql (sampleDataInfo 0)
        (sampleCacheInfo "c1" CacheStatus.Timeout 0)).1.blockInfo :=
  ⟨by decide,
   ((saveCacheEndResults_timeout_status timeoutSampleDB sampleSql (sampleDataInfo 0)
      (sampleCacheInfo "c1" CacheStatus.Timeout 0)).2 (by decide) (by decide)).2.2
      (sampleBlockRow "b3" "c1" "cid3" "" CacheStatus.Pending none) (by decide)
      (by decide) (by decide)⟩

/-- C19 as claimed fails: the attempt `c1` terminates with status Timeout, the
call returns nil, the cache row is Timeout, and the block `b3`, Pending
before, is Pending afterwards: no block row has status Timeout. -/
theorem saveCacheEndResults_timeout_status_counterexample :
    (timeoutSampleDB.blockInfo.map (fun b => (b.ID, b.CacheID, b.Status)) =
      [("b1", "c1", CacheStatus.Success), ("b2", "c1", CacheStatus.Failed),
       ("b3", "c1", CacheStatus.Pending), ("b4", "c2", CacheStatus.Pending)]) ∧
    (timeoutSampleDB.SaveCacheEndResults sampleSql (sampleDataInfo 0)
        (sampleCacheInfo "c1" CacheStatus.Timeout 0)).2 = none ∧
    ((timeoutSampleDB.SaveCacheEndResults sampleSql (sampleDataInfo 0)
        (sampleCacheInfo "c1" CacheStatus.Timeout 0)).1.blockInfo.map
        (fun b => (b.ID, b.CacheID, b.Status)) =
      [("b1", "c1", CacheStatus.Success), ("b2", "c1", CacheStatus.Failed),
       ("b3", "c1", CacheStatus.Pending), ("b4", "c2", CacheStatus.Pending)]) ∧
    ((timeoutSampleDB.SaveCacheEndResults sampleSql (sampleDataInfo 0)
        (sampleCacheInfo "c1" CacheStatus.Timeout 0)).1.cacheInfo.map
        (fun c => (c.CacheID, c.Status)) =
      [("c1", CacheStatus.Timeout), ("c2", CacheStatus.Running)]) := by
  decide

/-! ### C17: `UpdateCacheInfoOfQuitNode` -/

lemma mapGet_mapAdd (m : List (String × Int)) (k k' : String) (v : Int) :
    mapGet (mapAdd m k v) k' =
      if k = k' then some ((mapGet m k).getD 0 + v) else mapGet m k' := by
  unfold mapAdd
  cases h : mapGet m k <;> simp [mapGet_mapSet]

lemma mapAdd_keys_nodup {m : List (String × Int)} (k : String) (v : Int)
    (hm : (m.map Prod.fst).Nodup) : ((mapAdd m k v).map Prod.fst).Nodup := by
  unfold mapAdd
  cases h : mapGet m k <;> exact mapSet_keys_nodup _ _ hm

lemma foldl_mapAdd_nodup (cs : List CacheRow) (m : List (String × Int))
    (hm : (m.map Prod.fst).Nodup) :
    ((cs.foldl (fun m c => mapAdd m c.CarfileHash c.Reliability) m).map Prod.fst).Nodup := by
  induction cs generalizing m with
  | nil => exact hm
  | cons c rest ih => exact ih _ (mapAdd_keys_nodup _ _ hm)

lemma reliabilityOf_cons (c : CacheRow) (rest : List CacheRow) (h : String) :
    reliabilityOf (c :: rest) h =
      if c.CarfileHash = h then c.Reliability + reliabilityOf rest h
      else reliabilityOf rest h := by
  unfold reliabilityOf
  by_cases hc : c.CarfileHash = h <;> simp [List.filter_cons, hc]

lemma reliabilityOf_of_not_mem (cs : List CacheRow) (h : String)
    (hn : h ∉ cs.map (fun c => c.CarfileHash)) : reliabilityOf cs h = 0 := by
  induction cs with
  | nil => rfl
  | cons c rest ih =>
    simp only [List.map_cons, List.mem_cons, not_or] at hn
    rw [reliabilityOf_cons, if_neg (fun e => hn.1 e.symm), ih hn.2]

lemma reliabilityOf_perm {cs1 cs2 : List CacheRow} (hp : cs1.Perm cs2) (h : String) :
    reliabilityOf cs1 h = reliabilityOf cs2 h := by
  unfold reliabilityOf
  exact ((hp.filter _).map _).sum_eq

lemma foldl_mapAdd_get (cs : List CacheRow) (m : List (String × Int)) (h : String) :
    mapGet (cs.foldl (fun m c => mapAdd m c.CarfileHash c.Reliability) m) h =
      if h ∈ cs.map (fun c => c.CarfileHash) then
        some ((mapGet m h).getD 0 + reliabilityOf cs h)
      else mapGet m h := by
  induction cs generalizing m with
  | nil => simp
  | cons c rest ih =>
    rw [List.foldl_cons, ih, mapGet_mapAdd, reliabilityOf_cons]
    by_cases hc : c.CarfileHash = h
    · subst hc
      by_cases hr : c.CarfileHash ∈ rest.map (fun c => c.CarfileHash)
      · simp [hr, add_assoc]
      · simp [hr, reliabilityOf_of_not_mem rest _ hr]
    · have hc' : ¬ h = c.CarfileHash := fun e => hc e.symm
      simp [hc, hc']

lemma mapGet_perm {β : Type} {m1 m2 : List (String × β)} (hp : m1.Perm m2)
    (hnd : (m2.map Prod.fst).Nodup) (k : String) : mapGet m1 k = mapGet m2 k := by
  have hnd1 : (m1.map Prod.fst).Nodup := ((hp.map Prod.fst).nodup_iff).2 hnd
  apply Option.ext
  intro v
  rw [Option.mem_def, Option.mem_def, mapGet_eq_some_iff hnd1, mapGet_eq_some_iff hnd,
    hp.mem_iff]

lemma foldl_decrement (es : List (String × Int)) (hnd : (es.map Prod.fst).Nodup)
    (rows : List DataRow) :
    es.foldl (fun rows entry => rows.map (fun d =>
        if d.CarfileHash = entry.1 then { d with Reliability := d.Reliability - entry.2 }
        else d)) rows =
      rows.map (fun d => match mapGet es d.CarfileHash with
        | some r => { d with Reliability := d.Reliability - r }
        | none => d) := by
  induction es generalizing rows with
  | nil => simp [mapGet]
  | cons e rest ih =>
    rw [List.map_cons, List.nodup_cons] at hnd
    rw [List.foldl_cons, ih hnd.2, List.map_map]
    apply List.map_congr_left
    intro d _
    simp only [Function.comp]
    by_cases hd : d.CarfileHash = e.1
    · have hnone : mapGet rest e.1 = none := (mapGet_eq_none_iff rest e.1).2 hnd.1
      simp [hd, mapGet, hnone]
    · have hd' : ¬ e.1 = d.CarfileHash := fun h => hd h.symm
      simp [hd, hd', mapGet]

lemma mem_successCachesOfDevice (db : SqlDB) (deviceID : String) (c : CacheRow) :
    c ∈ db.successCachesOfDevice deviceID ↔
      c ∈ db.cacheInfo ∧ c.Status = CacheStatus.Success ∧
        ∃ b ∈ db.blockInfo, b.DeviceID = deviceID ∧ b.CacheID = c.CacheID := by
  simp [SqlDB.successCachesOfDevice, List.mem_filter]

/-- C17, as the code has it. The caches selected are the cache rows with
status Success whose cache id is that of some block row of the device. When
there is none, `UpdateCacheInfoOfQuitNode` returns the error Not Found, count 0
and an empty map and changes no row. Otherwise it returns nil, the number of
selected caches and, per carfile with a selected cache, the sum of their
reliability; it sets to Restore the cache rows with the id of a selected cache
(with pairwise different cache ids: exactly the selected rows) and every block
row of the device with status Success, and it lowers the reliability of every
data row of such a carfile by that sum; no other row or column changes. -/
theorem updateCacheInfoOfQuitNode_effect (db : SqlDB) (env : SqlEnv) (deviceID : String) :
    (db.successCachesOfDevice deviceID = [] →
      db.UpdateCacheInfoOfQuitNode env deviceID =
        { db := db, successCacheCount := 0, carfileReliabilitys := [],
          err := some errNotFind }) ∧
    (db.successCachesOfDevice deviceID ≠ [] →
      (db.UpdateCacheInfoOfQuitNode env deviceID).err = none ∧
      (db.UpdateCacheInfoOfQuitNode env deviceID).successCacheCount =
        (db.successCachesOfDevice deviceID).length ∧
      ((db.UpdateCacheInfoOfQuitNode env deviceID).carfileReliabilitys.map Prod.fst).Nodup ∧
      (∀ h, mapGet (db.UpdateCacheInfoOfQuitNode env deviceID).carfileReliabilitys h =
        if h ∈ (db.successCachesOfDevice deviceID).map (fun c => c.CarfileHash) then
          some (reliabilityOf (db.successCachesOfDevice deviceID) h)
        else none) ∧
      (db.UpdateCacheInfoOfQuitNode env deviceID).db.cacheInfo =
        db.cacheInfo.map (fun c =>
          if c.CacheID ∈ (db.successCachesOfDevice deviceID).map (fun c => c.CacheID) then
            { c with Status := CacheStatus.Restore }
          else c) ∧
      (db.UpdateCacheInfoOfQuitNode env deviceID).db.blockInfo =
        db.blockInfo.map (fun b =>
          if b.DeviceID = deviceID ∧ b.Status = CacheStatus.Success then
            { b with Status := CacheStatus.Restore }
          else b) ∧
      (db.UpdateCacheInfoOfQuitNode env deviceID).db.dataInfo =
        db.dataInfo.map (fun d =>
          if d.CarfileHash ∈
              (db.successCachesOfDevice deviceID).map (fun c => c.CarfileHash) then
            { d with Reliability :=
                d.Reliability - reliabilityOf (db.successCachesOfDevice deviceID) d.CarfileHash }
          else d) ∧
      ((db.cacheInfo.map (fun c => c.CacheID)).Nodup →
        (db.UpdateCacheInfoOfQuitNode env deviceID).db.cacheInfo =
          db.cacheInfo.map (fun c =>
            if c ∈ db.successCachesOfDevice deviceID then
              { c with Status := CacheStatus.Restore }
            else c))) := by
  have hperm := env.cacheOrder_perm (db.successCachesOfDevice deviceID)
  constructor
  · intro hS
    have hlen : (env.cacheOrder (db.successCachesOfDevice deviceID)).length ≤ 0 := by
      rw [hperm.length_eq, hS]
      simp
    unfold SqlDB.UpdateCacheInfoOfQuitNode
    simp only
    rw [if_pos hlen]
  · intro hS
    have hlen : ¬ (env.cacheOrder (db.successCachesOfDevice deviceID)).length ≤ 0 := by
      rw [hperm.length_eq, Nat.le_zero, List.length_eq_zero]
      exact hS
    have hids : ∀ k, k ∈ (env.cacheOrder (db.successCachesOfDevice deviceID)).map
          (fun c => c.CacheID) ↔
        k ∈ (db.successCachesOfDevice deviceID).map (fun c => c.CacheID) :=
      fun k => (hperm.map _).mem_iff
    have hhashes : ∀ k, k ∈ (env.cacheOrder (db.successCachesOfDevice deviceID)).map
          (fun c => c.CarfileHash) ↔
        k ∈ (db.successCachesOfDevice deviceID).map (fun c => c.CarfileHash) :=
      fun k => (hperm.map _).mem_iff
    have hnd := foldl_mapAdd_nodup (env.cacheOrder (db.successCachesOfDevice deviceID)) []
      (by simp)
    have hget : ∀ h, mapGet ((env.cacheOrder (db.successCachesOfDevice deviceID)).foldl
          (fun m c => mapAdd m c.CarfileHash c.Reliability) []) h =
        if h ∈ (db.successCachesOfDevice deviceID).map (fun c => c.CarfileHash) then
          some (reliabilityOf (db.successCachesOfDevice deviceID) h)
        else none := by
      intro h
      rw [foldl_mapAdd_get, reliabilityOf_perm hperm]
      by_cases hm : h ∈ (db.successCachesOfDevice deviceID).map (fun c => c.CarfileHash)
      · rw [if_pos ((hhashes h).2 hm), if_pos hm]
        simp [mapGet]
      · rw [if_neg (fun e => hm ((hhashes h).1 e)), if_neg hm]
        rfl
    have hcache : (db.UpdateCacheInfoOfQuitNode env deviceID).db.cacheInfo =
        db.cacheInfo.map (fun c =>
          if c.CacheID ∈ (db.successCachesOfDevice deviceID).map (fun c => c.CacheID) then
            { c with Status := CacheStatus.Restore }
          else c) := by
      unfold SqlDB.UpdateCacheInfoOfQuitNode
      simp only
      rw [if_neg hlen]
      apply List.map_congr_left
      intro c _
      by_cases hc : c.CacheID ∈ (db.successCachesOfDevice deviceID).map (fun c => c.CacheID)
      · rw [if_pos ((hids _).2 hc), if_pos hc]
      · rw [if_neg (fun e => hc ((hids _).1 e)), if_neg hc]
    refine ⟨?_, ?_, ?_, ?_, hcache, ?_, ?_, ?_⟩
    · unfold SqlDB.UpdateCacheInfoOfQuitNode
      simp only
      rw [if_neg hlen]
    · unfold SqlDB.UpdateCacheInfoOfQuitNode
      simp only
      rw [if_neg hlen, hperm.length_eq]
    · unfold SqlDB.UpdateCacheInfoOfQuitNode
      simp only
      rw [if_neg hlen]
      exact hnd
    · intro h
      unfold SqlDB.UpdateCacheInfoOfQuitNode
      simp only
      rw [if_neg hlen]
      exact hget h
    · unfold SqlDB.UpdateCacheInfoOfQuitNode
      simp only
      rw [if_neg hlen]
    · unfold SqlDB.UpdateCacheInfoOfQuitNode
      simp only
      rw [if_neg hlen]
      simp only
      rw [foldl_decrement _ (((env.relRange_perm _).map Prod.fst).nodup_iff.2 hnd)]
      apply List.map_congr_left
      intro d _
      rw [mapGet_perm (env.relRange_perm _) hnd, hget]
      by_cases hm : d.CarfileHash ∈
          (db.successCachesOfDevice deviceID).map (fun c => c.CarfileHash)
      · simp only [if_pos hm]
      · simp only [if_neg hm]
    · intro hpk
      rw [hcache]
      apply List.map_congr_left
      intro c hc
      by_cases hm : c ∈ db.successCachesOfDevice deviceID
      · rw [if_pos (List.mem_map_of_mem (fun c => c.CacheID) hm), if_pos hm]
      · have hn : c.CacheID ∉ (db.successCachesOfDevice deviceID).map (fun c => c.CacheID) := by
          intro hmem
          obtain ⟨s, hs, hsid⟩ := List.mem_map.1 hmem
          have hsc : s ∈ db.cacheInfo := ((mem_successCachesOfDevice db deviceID s).1 hs).1
          have : s = c := List.inj_on_of_nodup_map hpk hsc hc hsid
          exact hm (this ▸ hs)
        rw [if_neg hn, if_neg hm]

/-- C17 at a carfile held with success on the devices `E1` and `E2`, when `E1`
quits: the cache `c1` and the Success blocks on `E1` go to Restore, the
carfile loses the reliability of `c1`. -/
theorem updateCacheInfoOfQuitNode_effect_witness :
    quitSampleDB.successCachesOfDevice "E1" ≠ [] ∧
    (quitSampleDB.UpdateCacheInfoOfQuitNode sampleSql "E1").successCacheCount = 1 ∧
    ((quitSampleDB.UpdateCacheInfoOfQuitNode sampleSql "E1").db.cacheInfo.map
        (fun c => (c.CacheID, c.Status)) =
      [("c1", CacheStatus.Restore), ("c2", CacheStatus.Success),
       ("c3", CacheStatus.Running)]) ∧
    ((quitSampleDB.UpdateCacheInfoOfQuitNode sampleSql "E1").db.dataInfo.map
        (fun d => d.Reliability) = [1]) ∧
    (quitSampleDB.UpdateCacheInfoOfQuitNode sampleSql "E1").db.blockInfo =
      quitSampleDB.blockInfo.map (fun b =>
        if b.DeviceID = "E1" ∧ b.Status = CacheStatus.Success then
          { b with Status := CacheStatus.Restore }
        else b) :=
  ⟨by decide, by decide, by decide, by decide,
   ((updateCacheInfoOfQuitNode_effect quitSampleDB sampleSql "E1").2
      (by decide)).2.2.2.2.2.1⟩

/-- C17 as claimed fails: the running cache `c1` has a Success block on device
`E1`, yet the call for `E1` returns Not Found with count 0 and leaves the
cache and its block as they were. -/
theorem updateCacheInfoOfQuitNode_effect_counterexample :
    sampleBlockRow "b1" "c1" "cid1" "E1" CacheStatus.Success (some 3) ∈
      runningSampleDB.blockInfo ∧
    sampleCacheRow "c1" CacheStatus.Running 0 ∈ runningSampleDB.cacheInfo ∧
    runningSampleDB.UpdateCacheInfoOfQuitNode sampleSql "E1" =
      { db := runningSampleDB, successCacheCount := 0, carfileReliabilitys := [],
        err := some "Not Found" } := by
  decide

/-! ### C12: the totals of a carfile -/

lemma foldl_exist {α : Type} (f : α → Bool) (l : List α) (b : Bool) :
    l.foldl (fun exist p => if exist then true else f p) b = (b || l.any f) := by
  induction l generalizing b with
  | nil => simp
  | cons x rest ih =>
    rw [List.foldl_cons, ih]
    cases b <;> simp

lemma existRootCache_iff {δ : Type} (env : SchedEnv δ) (d : Data) :
    d.existRootCache env = true ↔
      ∃ p ∈ d.CacheMap, p.2.isRootCache = true ∧ p.2.status = CacheStatus.Success := by
  unfold Data.existRootCache
  rw [foldl_exist (fun p : String × Cache =>
    p.2.isRootCache && decide (p.2.status = CacheStatus.Success))]
  simp only [Bool.false_or, List.any_eq_true, Bool.and_eq_true, decide_eq_true_eq,
    (env.cacheRange_perm d.CacheMap).mem_iff]

lemma updateAndSaveCacheingInfo_data {δ : Type} (env : SchedEnv δ)
    (save : δ → DataInfo → CacheInfo → Option BlockInfo → List BlockInfo → δ × Option String)
    (db : δ) (d : Data) (blockInfo : Option BlockInfo) (cache : Cache)
    (createBlocks : List BlockInfo) :
    (d.updateAndSaveCacheingInfo env save db blockInfo cache createBlocks).data =
      if d.existRootCache env = true then d
      else { d with totalSize := cache.totalSize, totalBlocks := cache.totalBlocks } := by
  unfold Data.updateAndSaveCacheingInfo
  cases h : d.existRootCache env <;> simp

lemma updateAndSaveCacheingInfos_of_root {δ : Type} (env : SchedEnv δ)
    (save : δ → DataInfo → CacheInfo → Option BlockInfo → List BlockInfo → δ × Option String)
    (calls : List (Option BlockInfo × Cache × List BlockInfo)) (db : δ) (d : Data)
    (h : d.existRootCache env = true) :
    (d.updateAndSaveCacheingInfos env save db calls).2 = d := by
  induction calls generalizing db with
  | nil => rfl
  | cons call rest ih =>
    unfold Data.updateAndSaveCacheingInfos
    rw [List.foldl_cons]
    simp only
    rw [updateAndSaveCacheingInfo_data, if_pos h]
    exact ih _

/-- C12: when the cache map of the carfile holds a root attempt with status
Success, a call of `updateAndSaveCacheingInfo`, for any attempt, leaves
`totalSize` and `totalBlocks` (and the whole carfile record) unchanged, and so
does every sequence of such calls; when the map holds no such attempt, the
call sets them to the `totalSize` and `totalBlocks` of the reporting attempt
and changes nothing else of the record; in both cases the data row handed to
`SaveCacheingResults` carries the totals of the record after the call. -/
theorem updateAndSaveCacheingInfo_totals {δ : Type} (env : SchedEnv δ)
    (save : δ → DataInfo → CacheInfo → Option BlockInfo → List BlockInfo → δ × Option String)
    (db : δ) (d : Data) (blockInfo : Option BlockInfo) (cache : Cache)
    (createBlocks : List BlockInfo) :
    ((∃ p ∈ d.CacheMap, p.2.isRootCache = true ∧ p.2.status = CacheStatus.Success) →
      (d.updateAndSaveCacheingInfo env save db blockInfo cache createBlocks).data = d ∧
      ∀ calls, (d.updateAndSaveCacheingInfos env save db calls).2 = d) ∧
    ((¬ ∃ p ∈ d.CacheMap, p.2.isRootCache = true ∧ p.2.status = CacheStatus.Success) →
      (d.updateAndSaveCacheingInfo env save db blockInfo cache createBlocks).data =
        { d with totalSize := cache.totalSize, totalBlocks := cache.totalBlocks }) ∧
    (d.updateAndSaveCacheingInfo env save db blockInfo cache createBlocks).dInfo.TotalSize =
      (d.updateAndSaveCacheingInfo env save db blockInfo cache createBlocks).data.totalSize ∧
    (d.updateAndSaveCacheingInfo env save db blockInfo cache createBlocks).dInfo.TotalBlocks =
      (d.updateAndSaveCacheingInfo env save db blockInfo cache createBlocks).data.totalBlocks := by
  refine ⟨?_, ?_, rfl, rfl⟩
  · intro h
    have hex := (existRootCache_iff env d).2 h
    refine ⟨?_, fun calls => updateAndSaveCacheingInfos_of_root env save calls db d hex⟩
    rw [updateAndSaveCacheingInfo_data, if_pos hex]
  · intro h
    have hex : ¬ d.existRootCache env = true := fun e => h ((existRootCache_iff env d).1 e)
    rw [updateAndSaveCacheingInfo_data, if_neg hex]

/-- C12 at the sample carfile (totals 10 and 3): with its root attempt Success
a report of another attempt with totals 99 and 7 changes nothing, with its
root attempt still running the report sets the totals to 99 and 7. -/
theorem updateAndSaveCacheingInfo_totals_witness :
    ((sampleData CacheStatus.Success).updateAndSaveCacheingInfo sampleSched
        (fun db _ _ _ _ => (db, none)) 0 none otherCache []).data =
      sampleData CacheStatus.Success ∧
    ((sampleData CacheStatus.Running).updateAndSaveCacheingInfo sampleSched
        (fun db _ _ _ _ => (db, none)) 0 none otherCache []).data =
      { sampleData CacheStatus.Running with totalSize := 99, totalBlocks := 7 } :=
  ⟨((updateAndSaveCacheingInfo_totals sampleSched (fun db _ _ _ _ => (db, none)) 0
      (sampleData CacheStatus.Success) none otherCache []).1
      ⟨("cache1", sampleCache CacheStatus.Success), by decide, rfl, rfl⟩).1,
   (updateAndSaveCacheingInfo_totals sampleSched (fun db _ _ _ _ => (db, none)) 0
      (sampleData CacheStatus.Running) none otherCache []).2.1 (by decide)⟩

/-! ### C13, C14: a new attempt in `dispatchCache` -/

lemma cacheMapStore_eq_mapSet (m : List (String × Cache)) (k : String) (c : Cache) :
    cacheMapStore m k c = mapSet m k c := by
  induction m with
  | nil => rfl
  | cons p rest ih => simp only [cacheMapStore, mapSet, ih]

lemma dispatchCache_new_ok {δ : Type} (env : SchedEnv δ) (db : δ) (d : Data) (c : Cache)
    (blockID : String)
    (h : (env.newCache db d (!d.existRootCache env)).2 = .ok (c, blockID)) :
    d.dispatchCache env db none =
      { db := (env.startCache (env.newCache db d (!d.existRootCache env)).1 c
          [(d.carfileCid, blockID)]).1
        data := { d with CacheMap := cacheMapStore d.CacheMap c.cacheID c,
                         cacheCount := d.cacheCount + 1 }
        err := (env.startCache (env.newCache db d (!d.existRootCache env)).1 c
          [(d.carfileCid, blockID)]).2
        started := true } := by
  simp only [Data.dispatchCache, h]

/-- C13, as the code has it: the flag that `dispatchCache` (cache argument nil)
hands to `newCache` is true exactly when the cache map of the carfile holds no
root attempt with status Success; the outcome of `dispatchCache` depends on
`newCache` only through its value at that flag; the first attempt (empty cache
map) is created with the flag true, and once a root attempt with status
Success is in the map every new attempt is created with the flag false. When
`newCache` marks the attempt as it is told, the attempt stored in the cache
map is root exactly when the map held no root attempt with status Success. -/
theorem dispatchCache_root_flag {δ : Type} (env : SchedEnv δ) (db : δ) (d : Data) :
    ((!d.existRootCache env) = true ↔
      ¬ ∃ p ∈ d.CacheMap, p.2.isRootCache = true ∧ p.2.status = CacheStatus.Success) ∧
    (∀ newCache2 : δ → Data → Bool → δ × Except String (Cache × String),
      newCache2 db d (!d.existRootCache env) = env.newCache db d (!d.existRootCache env) →
      d.dispatchCache { env with newCache := newCache2 } db none =
        d.dispatchCache env db none) ∧
    (d.CacheMap = [] → (!d.existRootCache env) = true) ∧
    (∀ c blockID, (env.newCache db d (!d.existRootCache env)).2 = .ok (c, blockID) →
      c.isRootCache = (!d.existRootCache env) →
      mapGet (d.dispatchCache env db none).data.CacheMap c.cacheID = some c ∧
      (c.isRootCache = true ↔
        ¬ ∃ p ∈ d.CacheMap, p.2.isRootCache = true ∧ p.2.status = CacheStatus.Success)) := by
  have hflag : (!d.existRootCache env) = true ↔
      ¬ ∃ p ∈ d.CacheMap, p.2.isRootCache = true ∧ p.2.status = CacheStatus.Success := by
    rw [← existRootCache_iff env d]
    cases d.existRootCache env <;> simp
  refine ⟨hflag, ?_, ?_, ?_⟩
  · intro newCache2 h
    have hex : Data.existRootCache { env with newCache := newCache2 } d =
        d.existRootCache env := rfl
    simp only [Data.dispatchCache, hex, h]
  · intro hempty
    rw [hflag, hempty]
    simp
  · intro c blockID hnew hmark
    refine ⟨?_, by rw [hmark]; exact hflag⟩
    rw [dispatchCache_new_ok env db d c blockID hnew]
    simp only [cacheMapStore_eq_mapSet, mapGet_mapSet, if_true]

/-- C13 at the sample carfile whose root attempt is Success: the next attempt is
created, stored under its id, and is not root. -/
theorem dispatchCache_root_flag_witness :
    mapGet ((sampleData CacheStatus.Success).dispatchCache sampleSched 0 none).data.CacheMap
        "cache2" =
      some { cacheID := "cache2", carfileHash := "carA", status := CacheStatus.Running,
             reliability := 0, doneSize := 0, doneBlocks := 0, totalSize := 0,
             totalBlocks := 0, nodes := 0, isRootCache := false } :=
  ((dispatchCache_root_flag sampleSched 0 (sampleData CacheStatus.Success)).2.2.2
    { cacheID := "cache2", carfileHash := "carA", status := CacheStatus.Running,
      reliability := 0, doneSize := 0, doneBlocks := 0, totalSize := 0,
      totalBlocks := 0, nodes := 0, isRootCache := false } "block1" rfl rfl).1

/-- C13 as claimed fails: the first attempt of the carfile, `cache1`, a root
attempt, has failed and is in the cache map, one attempt has been started;
the new attempt created by `dispatchCache` with cache argument nil is not the
first attempt of the carfile, and it is created root. -/
theorem dispatchCache_root_flag_counterexample :
    failedRootData.cacheCount = 1 ∧
    failedRootData.CacheMap.map (fun p => (p.1, p.2.isRootCache, p.2.status)) =
      [("cache1", true, CacheStatus.Failed)] ∧
    (failedRootData.dispatchCache sampleSched 0 none).started = true ∧
    (failedRootData.dispatchCache sampleSched 0 none).data.cacheCount = 2 ∧
    (failedRootData.dispatchCache sampleSched 0 none).data.CacheMap.map
        (fun p => (p.1, p.2.isRootCache, p.2.status)) =
      [("cache1", true, CacheStatus.Failed), ("cache2", true, CacheStatus.Running)] := by
  decide

/-- C14: when `dispatchCache` creates a new attempt (cache argument nil and
`newCache` returns an attempt and a block id), `startCache` is called on that
attempt with the block list whose single entry maps the root CID of the
carfile to the block id returned by `newCache`, its error is the returned
error, the new attempt is stored in the cache map under its cache id (the
other entries stay as they are) and `cacheCount` grows by one. -/
theorem dispatchCache_new_attempt {δ : Type} (env : SchedEnv δ) (db : δ) (d : Data)
    (c : Cache) (blockID : String)
    (h : (env.newCache db d (!d.existRootCache env)).2 = .ok (c, blockID)) :
    (d.dispatchCache env db none).started = true ∧
    (d.dispatchCache env db none).db =
      (env.startCache (env.newCache db d (!d.existRootCache env)).1 c
        [(d.carfileCid, blockID)]).1 ∧
    (d.dispatchCache env db none).err =
      (env.startCache (env.newCache db d (!d.existRootCache env)).1 c
        [(d.carfileCid, blockID)]).2 ∧
    (∀ startCache2 : δ → Cache → List (String × String) → δ × Option String,
      startCache2 (env.newCache db d (!d.existRootCache env)).1 c [(d.carfileCid, blockID)] =
        env.startCache (env.newCache db d (!d.existRootCache env)).1 c
          [(d.carfileCid, blockID)] →
      d.dispatchCache { env with startCache := startCache2 } db none =
        d.dispatchCache env db none) ∧
    (d.dispatchCache env db none).data.CacheMap = cacheMapStore d.CacheMap c.cacheID c ∧
    mapGet (d.dispatchCache env db none).data.CacheMap c.cacheID = some c ∧
    (∀ k, k ≠ c.cacheID →
      mapGet (d.dispatchCache env db none).data.CacheMap k = mapGet d.CacheMap k) ∧
    (d.dispatchCache env db none).data.cacheCount = d.cacheCount + 1 := by
  rw [dispatchCache_new_ok env db d c blockID h]
  refine ⟨rfl, rfl, rfl, ?_, rfl, ?_, ?_, rfl⟩
  · intro startCache2 h2
    have hex : Data.existRootCache { env with startCache := startCache2 } d =
        d.existRootCache env := rfl
    have hnew : (env.newCache db d (!d.existRootCache env)).2 = .ok (c, blockID) := h
    simp only [Data.dispatchCache, hex, hnew, h2]
  · simp only [cacheMapStore_eq_mapSet, mapGet_mapSet, if_true]
  · intro k hk
    have hne : ¬ c.cacheID = k := fun e => hk e.symm
    simp only [cacheMapStore_eq_mapSet, mapGet_mapSet, if_neg hne]

/-- C14 at a carfile newly admitted: the attempt `cache2` is started with the
list of the root CID `cidA` and the block id `block1` and stored under its
id. -/
theorem dispatchCache_new_attempt_witness :
    (freshData.dispatchCache sampleSched 0 none).started = true ∧
    (freshData.dispatchCache sampleSched 0 none).data.CacheMap.map (fun p => p.1) =
      ["cache2"] ∧
    (freshData.dispatchCache sampleSched 0 none).data.cacheCount = 1 :=
  ⟨(dispatchCache_new_attempt sampleSched 0 freshData
      { cacheID := "cache2", carfileHash := "carA", status := CacheStatus.Running,
        reliability := 0, doneSize := 0, doneBlocks := 0, totalSize := 0,
        totalBlocks := 0, nodes := 0, isRootCache := true } "block1" rfl).1,
   by decide, by decide⟩

/-! ### C11: the reliability of a carfile against its Success attempts -/

/-- C11 fails on the code: attempt `c1` terminates with Success (reliability
1), device `E1`, which holds it, quits, and attempt `c2` terminates with
Success (reliability 1) on the same carfile record. After the first two steps
the carfile row agrees with the Success attempts (1 and 1, then 0 and 0);
after the third the record and the carfile row say 2 while the only Success
attempt, `c2`, has reliability 1. -/
theorem reliability_after_quit_and_end :
    (twoAttemptsData.updateAndSaveCacheEndInfo (sqlSched sampleSql) twoRunningDB
        (endedCache "c1" CacheStatus.Success 1)).err = none ∧
    reliabilityFigures (twoAttemptsData.updateAndSaveCacheEndInfo (sqlSched sampleSql)
        twoRunningDB (endedCache "c1" CacheStatus.Success 1)).db = ([1], 1) ∧
    ((twoAttemptsData.updateAndSaveCacheEndInfo (sqlSched sampleSql) twoRunningDB
        (endedCache "c1" CacheStatus.Success 1)).db.UpdateCacheInfoOfQuitNode
        sampleSql "E1").err = none ∧
    reliabilityFigures ((twoAttemptsData.updateAndSaveCacheEndInfo (sqlSched sampleSql)
        twoRunningDB (endedCache "c1" CacheStatus.Success 1)).db.UpdateCacheInfoOfQuitNode
        sampleSql "E1").db = ([0], 0) ∧
    ((twoAttemptsData.updateAndSaveCacheEndInfo (sqlSched sampleSql) twoRunningDB
        (endedCache "c1" CacheStatus.Success 1)).data.updateAndSaveCacheEndInfo
        (sqlSched sampleSql)
        ((twoAttemptsData.updateAndSaveCacheEndInfo (sqlSched sampleSql) twoRunningDB
          (endedCache "c1" CacheStatus.Success 1)).db.UpdateCacheInfoOfQuitNode
          sampleSql "E1").db
        (endedCache "c2" CacheStatus.Success 1)).err = none ∧
    ((twoAttemptsData.updateAndSaveCacheEndInfo (sqlSched sampleSql) twoRunningDB
        (endedCache "c1" CacheStatus.Success 1)).data.updateAndSaveCacheEndInfo
        (sqlSched sampleSql)
        ((twoAttemptsData.updateAndSaveCacheEndInfo (sqlSched sampleSql) twoRunningDB
          (endedCache "c1" CacheStatus.Success 1)).db.UpdateCacheInfoOfQuitNode
          sampleSql "E1").db
        (endedCache "c2" CacheStatus.Success 1)).data.reliability = 2 ∧
    reliabilityFigures ((twoAttemptsData.updateAndSaveCacheEndInfo (sqlSched sampleSql)
        twoRunningDB (endedCache "c1" CacheStatus.Success 1)).data.updateAndSaveCacheEndInfo
        (sqlSched sampleSql)
        ((twoAttemptsData.updateAndSaveCacheEndInfo (sqlSched sampleSql) twoRunningDB
          (endedCache "c1" CacheStatus.Success 1)).db.UpdateCacheInfoOfQuitNode
          sampleSql "E1").db
        (endedCache "c2" CacheStatus.Success 1)).db = ([2], 1) := by
  decide

/-! ### C21: reservation of FIDs -/

lemma incrNodeCacheFid_ok (rd : RedisDB) (deviceID : String) (num : Int)
    (h : (rd.IncrNodeCacheFid deviceID num).2.2 = none) :
    (rd.IncrNodeCacheFid deviceID num).2.1 = rd.fidCounter deviceID + num ∧
    (rd.IncrNodeCacheFid deviceID num).1.fidCounter deviceID = rd.fidCounter deviceID + num ∧
    ∀ other, other ≠ deviceID →
      (rd.IncrNodeCacheFid deviceID num).1.fidCounter other = rd.fidCounter other := by
  unfold RedisDB.IncrNodeCacheFid redisIncrBy at h ⊢
  simp only [RedisDB.fidCounter] at h ⊢
  split at h
  · rename_i hr
    simp only [if_pos hr, mapGet_mapSet, if_true, Option.getD_some, true_and]
    intro other ho
    have hne : ¬ deviceID = other := fun e => ho e.symm
    rw [if_neg hne]
  · simp at h

lemma incrNodeCacheFids_lower (calls : List (String × Int)) (rd : RedisDB)
    (h : ∀ c ∈ rd.IncrNodeCacheFids calls, c.err = none ∧ 0 ≤ c.num) :
    ∀ c ∈ rd.IncrNodeCacheFids calls, rd.fidCounter c.deviceID ≤ c.returned - c.num := by
  induction calls generalizing rd with
  | nil => intro c hc; simp [RedisDB.IncrNodeCacheFids] at hc
  | cons call rest ih =>
    intro c hc
    simp only [RedisDB.IncrNodeCacheFids, List.mem_cons] at hc h
    have hhead := h _ (Or.inl rfl)
    obtain ⟨h1, h2, h3⟩ := incrNodeCacheFid_ok rd call.1 call.2 hhead.1
    rcases hc with hc | hc
    · subst hc
      simp only [h1]
      omega
    · have htail := ih (rd.IncrNodeCacheFid call.1 call.2).1
        (fun c hc => h c (Or.inr hc)) c hc
      by_cases hd : c.deviceID = call.1
      · rw [hd] at htail ⊢
        rw [h2] at htail
        have := hhead.2
        simp only at this
        omega
      · rw [h3 _ hd] at htail
        exact htail

/-- C21: a call of `IncrNodeCacheFid` that returns no error returns the previous
counter of the device plus `num`, sets the counter to that number and leaves the
counters of the other devices unchanged; and in every sequence of calls that
return no error and ask for non-negative numbers, the range
`(returned - num, returned]` of a call begins at or above the number returned
by every earlier call for the same device, so that it lies strictly above
every FID reserved for that device before. -/
theorem incrNodeCacheFid_ranges (rd : RedisDB) (calls : List (String × Int)) :
    (∀ deviceID num, (rd.IncrNodeCacheFid deviceID num).2.2 = none →
      (rd.IncrNodeCacheFid deviceID num).2.1 = rd.fidCounter deviceID + num ∧
      (rd.IncrNodeCacheFid deviceID num).1.fidCounter deviceID =
        rd.fidCounter deviceID + num ∧
      ∀ other, other ≠ deviceID →
        (rd.IncrNodeCacheFid deviceID num).1.fidCounter other = rd.fidCounter other) ∧
    (∀ deviceID num, -(2 : Int) ^ 63 ≤ rd.fidCounter deviceID + num →
      rd.fidCounter deviceID + num < (2 : Int) ^ 63 →
      (rd.IncrNodeCacheFid deviceID num).2.2 = none) ∧
    ((∀ c ∈ rd.IncrNodeCacheFids calls, c.err = none ∧ 0 ≤ c.num) →
      (rd.IncrNodeCacheFids calls).Pairwise (fun earlier later =>
        earlier.deviceID = later.deviceID →
          earlier.returned ≤ later.returned - later.num ∧
          ∀ fid fid0, later.returned - later.num < fid → fid0 ≤ earlier.returned →
            fid0 < fid)) := by
  refine ⟨fun deviceID num h => incrNodeCacheFid_ok rd deviceID num h, ?_, ?_⟩
  · intro deviceID num h1 h2
    simp only [RedisDB.IncrNodeCacheFid, redisIncrBy, RedisDB.fidCounter] at h1 h2 ⊢
    rw [if_pos ⟨h1, h2⟩]
  · intro h
    induction calls generalizing rd with
    | nil => simp [RedisDB.IncrNodeCacheFids]
    | cons call rest ih =>
      simp only [RedisDB.IncrNodeCacheFids, List.mem_cons] at h ⊢
      rw [List.pairwise_cons]
      refine ⟨?_, ih _ (fun c hc => h c (Or.inr hc))⟩
      intro later hl hdev
      simp only at hdev
      have hhead := h _ (Or.inl rfl)
      obtain ⟨h1, h2, _⟩ := incrNodeCacheFid_ok rd call.1 call.2 hhead.1
      have hlow := incrNodeCacheFids_lower rest (rd.IncrNodeCacheFid call.1 call.2).1
        (fun c hc => h c (Or.inr hc)) later hl
      rw [← hdev, h2] at hlow
      simp only [h1]
      refine ⟨hlow, ?_⟩
      intro fid fid0 hf hf0
      omega

/-- C21 on a Redis without keys: device `E1` reserves 5, device `E2` reserves
2, device `E1` reserves 3; the calls return 5, 2 and 8, so `E1` gets the FIDs
1 to 5 and then 6 to 8. -/
theorem incrNodeCacheFid_ranges_witness :
    emptyRedis.IncrNodeCacheFids [("E1", 5), ("E2", 2), ("E1", 3)] =
      [{ deviceID := "E1", num := 5, returned := 5, err := none },
       { deviceID := "E2", num := 2, returned := 2, err := none },
       { deviceID := "E1", num := 3, returned := 8, err := none }] ∧
    (emptyRedis.IncrNodeCacheFids [("E1", 5), ("E2", 2), ("E1", 3)]).Pairwise
      (fun earlier later =>
        earlier.deviceID = later.deviceID →
          earlier.returned ≤ later.returned - later.num ∧
          ∀ fid fid0, later.returned - later.num < fid → fid0 ≤ earlier.returned →
            fid0 < fid) :=
  ⟨by decide,
   (incrNodeCacheFid_ranges emptyRedis [("E1", 5), ("E2", 2), ("E1", 3)]).2.2 (by decide)⟩

/-! ### C22: the running-task key -/

lemma wrapInt64_of_range (x : Int) (h1 : -(2 : Int) ^ 63 ≤ x) (h2 : x < (2 : Int) ^ 63) :
    wrapInt64 x = x := by
  unfold wrapInt64
  rw [Int.emod_eq_of_lt (by omega) (by omega)]
  omega

/-- C22, as the code has it: `SetRunningDataTask` stores the cache id under the
running-task key of the carfile with the expiration
`time.Second*time.Duration(timeout)`, which is `timeout` seconds for a timeout
from 1 to 9223372036 seconds; `SetDataTaskToRunningList`, which is given no
timeout, stores the cache id under that key with an expiration of 15 seconds
and puts the task on the running list; neither changes the running-task key of
another carfile, and both return nil. -/
theorem runningDataTask_value_and_ttl (rd : RedisDB) (hash cacheID : String) (timeout : Int) :
    mapGet (rd.SetRunningDataTask hash cacheID timeout).1.runningDataTask hash =
      some (cacheID, wrapInt64 (timeSecond * timeout)) ∧
    (0 < timeout → timeout ≤ 9223372036 →
      mapGet (rd.SetRunningDataTask hash cacheID timeout).1.runningDataTask hash =
        some (cacheID, timeout * timeSecond)) ∧
    mapGet (rd.SetDataTaskToRunningList hash cacheID).1.runningDataTask hash =
      some (cacheID, 15 * timeSecond) ∧
    (hash, cacheID) ∈ (rd.SetDataTaskToRunningList hash cacheID).1.runningDataTaskList ∧
    (∀ other, other ≠ hash →
      mapGet (rd.SetRunningDataTask hash cacheID timeout).1.runningDataTask other =
        mapGet rd.runningDataTask other ∧
      mapGet (rd.SetDataTaskToRunningList hash cacheID).1.runningDataTask other =
        mapGet rd.runningDataTask other) ∧
    (rd.SetRunningDataTask hash cacheID timeout).2 = none ∧
    (rd.SetDataTaskToRunningList hash cacheID).2 = none := by
  refine ⟨?_, ?_, ?_, ?_, ?_, rfl, rfl⟩
  · simp only [RedisDB.SetRunningDataTask, mapGet_mapSet, if_true]
  · intro h1 h2
    simp only [RedisDB.SetRunningDataTask, mapGet_mapSet, if_true]
    rw [wrapInt64_of_range]
    · rw [mul_comm]
    · unfold timeSecond
      omega
    · unfold timeSecond
      omega
  · simp only [RedisDB.SetDataTaskToRunningList, mapGet_mapSet, if_true]
    rw [wrapInt64_of_range]
    · rw [mul_comm]
    · unfold timeSecond
      omega
    · unfold timeSecond
      omega
  · simp only [RedisDB.SetDataTaskToRunningList, redisSAdd]
    split
    · assumption
    · simp
  · intro other ho
    have hne : ¬ hash = other := fun e => ho e.symm
    simp only [RedisDB.SetRunningDataTask, RedisDB.SetDataTaskToRunningList, mapGet_mapSet,
      if_neg hne, and_self]

/-- C22 for the attempt `c1` of carfile `carA` with a timeout of 60 seconds:
`SetRunningDataTask` gives the key 60 seconds. -/
theorem runningDataTask_value_and_ttl_witness :
    mapGet (emptyRedis.SetRunningDataTask "carA" "c1" 60).1.runningDataTask "carA" =
      some ("c1", 60 * timeSecond) :=
  (runningDataTask_value_and_ttl emptyRedis "carA" "c1" 60).2.1 (by decide) (by decide)

/-- C22 as claimed fails: for the attempt `c1` of carfile `carA`, whose timeout
is 60 seconds, `SetDataTaskToRunningList` writes the running-task key with an
expiration of 15 seconds, not the 60 seconds that `SetRunningDataTask` gives
it. -/
theorem runningDataTask_value_and_ttl_counterexample :
    mapGet (emptyRedis.SetDataTaskToRunningList "carA" "c1").1.runningDataTask "carA" =
      some ("c1", 15000000000) ∧
    mapGet (emptyRedis.SetRunningDataTask "carA" "c1" 60).1.runningDataTask "carA" =
      some ("c1", 60000000000) ∧
    mapGet (emptyRedis.SetDataTaskToRunningList "carA" "c1").1.runningDataTask "carA" ≠
      mapGet (emptyRedis.SetRunningDataTask "carA" "c1" 60).1.runningDataTask "carA" := by
  decide

/-! ### C23: the status of a download -/

lemma resultFailed_status (err : GoError) :
    (resultFailed err).status = if err = GoError.ErrNotFound then 404 else 400 := by
  unfold resultFailed
  split <;> rfl

/-- C23: `resultFailed` writes status 404 exactly when the error is
`datastore.ErrNotFound` and status 400 for every other error. In `getBlock` an
unparsable `sn`, an undecodable `sign`, a missing public key, a signature that
does not verify over `cid ++ sn ++ signTime ++ timeout` and an unparsable
`cid` are answered, in this order of tests, with status 400; a request that
passes them is answered with 404 when the block store reports
`datastore.ErrNotFound` for its block, with 400 when the store reports another
error, and with 200 otherwise. -/
theorem getBlock_status {σ κ : Type} (env : DownloadEnv σ κ) (bd : BlockDownload σ κ)
    (r : DownloadRequest) :
    (∀ err, (resultFailed err).status = 404 ↔ err = GoError.ErrNotFound) ∧
    (∀ err, err ≠ GoError.ErrNotFound → (resultFailed err).status = 400) ∧
    (∀ e, env.ParseInt r.sn = .error e → (getBlock env bd r).status = 400) ∧
    (∀ sn e, env.ParseInt r.sn = .ok sn → env.DecodeString r.sign = .error e →
      (getBlock env bd r).status = 400) ∧
    (∀ sn sign, env.ParseInt r.sn = .ok sn → env.DecodeString r.sign = .ok sign →
      bd.publicKey = none → (getBlock env bd r).status = 400) ∧
    (∀ sn sign key e, env.ParseInt r.sn = .ok sn → env.DecodeString r.sign = .ok sign →
      bd.publicKey = some key →
      env.VerifyRsaSign key sign (r.cid ++ r.sn ++ r.signTime ++ r.timeout) = some e →
      (getBlock env bd r).status = 400) ∧
    (∀ sn sign key, env.ParseInt r.sn = .ok sn → env.DecodeString r.sign = .ok sign →
      bd.publicKey = some key →
      env.VerifyRsaSign key sign (r.cid ++ r.sn ++ r.signTime ++ r.timeout) = none →
      (∀ e, env.CIDString2HashString r.cid = .error e → (getBlock env bd r).status = 400) ∧
      (∀ blockHash, env.CIDString2HashString r.cid = .ok blockHash →
        (env.GetReader bd.blockStore blockHash = .error GoError.ErrNotFound →
          (getBlock env bd r).status = 404) ∧
        (∀ msg, env.GetReader bd.blockStore blockHash = .error (GoError.other msg) →
          (getBlock env bd r).status = 400) ∧
        (∀ data, env.GetReader bd.blockStore blockHash = .ok data →
          getBlock env bd r = { status := 200, body := data }))) := by
  refine ⟨?_, ?_, ?_, ?_, ?_, ?_, ?_⟩
  · intro err
    rw [resultFailed_status]
    by_cases h : err = GoError.ErrNotFound <;> simp [h]
  · intro err h
    rw [resultFailed_status, if_neg h]
  · intro e h
    simp only [getBlock, h]
    rfl
  · intro sn e h1 h2
    simp only [getBlock, h1, h2]
    rfl
  · intro sn sign h1 h2 h3
    simp only [getBlock, h1, h2, h3]
    rfl
  · intro sn sign key e h1 h2 h3 h4
    simp only [getBlock, h1, h2, h3, h4]
    rfl
  · intro sn sign key h1 h2 h3 h4
    refine ⟨?_, ?_⟩
    · intro e h5
      simp only [getBlock, h1, h2, h3, h4, h5]
      rfl
    · intro blockHash h5
      refine ⟨?_, ?_, ?_⟩
      · intro h6
        simp only [getBlock, h1, h2, h3, h4, h5, h6]
        rfl
      · intro msg h6
        simp only [getBlock, h1, h2, h3, h4, h5, h6]
        rfl
      · intro data h6
        simp only [getBlock, h1, h2, h3, h4, h5, h6]

/-- C23 at a server that holds the block `cidA` only: a verified request for
`cidB` is answered with 404. -/
theorem getBlock_status_witness :
    (getBlock sampleDownloadEnv { blockStore := ["cidA"], publicKey := some () }
      (sampleDownloadRequest "cidB")).status = 404 :=
  (((getBlock_status sampleDownloadEnv { blockStore := ["cidA"], publicKey := some () }
      (sampleDownloadRequest "cidB")).2.2.2.2.2.2 7 [111, 107] () rfl rfl rfl rfl).2
      "cidB" rfl).1 rfl

/-! ### C24: the results of `DeleteBlocks` -/

lemma failedDeletion_cid (outcome : String × Option GoError) (r : BlockOperationResult)
    (h : failedDeletion outcome = some r) : r.Cid = outcome.1 := by
  unfold failedDeletion at h
  split at h
  · cases h
    rfl
  · cases h

lemma deleteOutcomes_cids {σ : Type} (deleteBlock : σ → String → σ × Option GoError)
    (st : σ) (cids : List String) :
    (deleteOutcomes deleteBlock st cids).map Prod.fst = cids := by
  induction cids generalizing st with
  | nil => rfl
  | cons cid rest ih => simp only [deleteOutcomes, List.map_cons, ih]

lemma filterMap_cid_sublist (os : List (String × Option GoError)) :
    ((os.filterMap failedDeletion).map (fun r => r.Cid)).Sublist (os.map Prod.fst) := by
  induction os with
  | nil => simp
  | cons o rest ih =>
    rw [List.filterMap_cons]
    cases h : failedDeletion o with
    | none => exact ih.trans (List.sublist_cons_self _ _)
    | some r =>
      simp only [List.map_cons]
      rw [failedDeletion_cid o r h]
      exact ih.cons₂ _

/-- C24: for every list of CIDs `DeleteBlocks` returns a nil error and a result
list that holds, in input order, one entry with the CID and the error message
for each CID whose `deleteBlock` returned an error other than
`datastore.ErrNotFound`, and nothing for a CID that was deleted or was reported
as not found; the CIDs of the results are a sublist of the input. -/
theorem deleteBlocks_results {σ : Type} (deleteBlock : σ → String → σ × Option GoError)
    (st : σ) (cids : List String) :
    (DeleteBlocks deleteBlock st cids).2.2 = none ∧
    (DeleteBlocks deleteBlock st cids).2.1 =
      (deleteOutcomes deleteBlock st cids).filterMap failedDeletion ∧
    ((DeleteBlocks deleteBlock st cids).2.1.map (fun r => r.Cid)).Sublist cids ∧
    (∀ cid msg, (cid, some (GoError.other msg)) ∈ deleteOutcomes deleteBlock st cids ↔
      ({ Cid := cid, ErrMsg := msg } : BlockOperationResult) ∈
        (DeleteBlocks deleteBlock st cids).2.1) := by
  have hres : ∀ (cids : List String) (st : σ),
      (DeleteBlocks deleteBlock st cids).2.2 = none ∧
      (DeleteBlocks deleteBlock st cids).2.1 =
        (deleteOutcomes deleteBlock st cids).filterMap failedDeletion := by
    intro cids
    induction cids with
    | nil => intro st; exact ⟨rfl, rfl⟩
    | cons cid rest ih =>
      intro st
      obtain ⟨h1, h2⟩ := ih (deleteBlock st cid).1
      simp only [DeleteBlocks, deleteOutcomes, List.filterMap_cons]
      cases hd : (deleteBlock st cid).2 with
      | none => exact ⟨h1, by simp only [failedDeletion, hd, h2]⟩
      | some err =>
        cases err with
        | ErrNotFound =>
          simp only [if_true]
          exact ⟨h1, by simp only [failedDeletion, hd, h2]⟩
        | other msg =>
          have hne : ¬ GoError.other msg = GoError.ErrNotFound := by
            intro e
            cases e
          simp only [if_neg hne]
          exact ⟨trivial, by simp only [failedDeletion, hd, h2, GoError.Error]⟩
  obtain ⟨h1, h2⟩ := hres cids st
  refine ⟨h1, h2, ?_, ?_⟩
  · rw [h2]
    have := filterMap_cid_sublist (deleteOutcomes deleteBlock st cids)
    rw [deleteOutcomes_cids] at this
    exact this
  · intro cid msg
    rw [h2, List.mem_filterMap]
    constructor
    · intro h
      exact ⟨_, h, rfl⟩
    · rintro ⟨o, ho, hf⟩
      unfold failedDeletion at hf
      split at hf
      · rename_i msg0 heq
        simp only [Option.some.injEq, BlockOperationResult.mk.injEq] at hf
        obtain ⟨hc, hm⟩ := hf
        have : o = (cid, some (GoError.other msg)) := by
          rw [← hc, ← hm, ← heq]
        rw [← this]
        exact ho
      · cases hf

/-! ### C25: `cacheCount` -/

lemma dispatchCache_count {δ : Type} (env : SchedEnv δ) (db : δ) (d : Data)
    (cache : Option Cache) :
    (d.dispatchCache env db cache).data.cacheCount =
      d.cacheCount + (if (d.dispatchCache env db cache).started then 1 else 0) := by
  cases cache with
  | some c =>
    rcases hg : env.GetUndoneBlocks db (env.updateCacheInfo db c).cacheID with e | list <;>
      simp [Data.dispatchCache, hg]
  | none =>
    rcases hn : (env.newCache db d (!d.existRootCache env)).2 with e | ⟨c, blockID⟩ <;>
      simp [Data.dispatchCache, hn]

lemma dispatchCache_started_iff {δ : Type} (env : SchedEnv δ) (db : δ) (d : Data)
    (cache : Option Cache) :
    (d.dispatchCache env db cache).started = true ↔
      match cache with
      | some c => ∃ list, env.GetUndoneBlocks db (env.updateCacheInfo db c).cacheID = .ok list
      | none => ∃ made, (env.newCache db d (!d.existRootCache env)).2 = .ok made := by
  cases cache with
  | some c =>
    rcases hg : env.GetUndoneBlocks db (env.updateCacheInfo db c).cacheID with e | list <;>
      simp [Data.dispatchCache, hg]
  | none =>
    rcases hn : (env.newCache db d (!d.existRootCache env)).2 with e | ⟨c, blockID⟩ <;>
      simp [Data.dispatchCache, hn]

lemma dispatchCache_not_started {δ : Type} (env : SchedEnv δ) (db : δ) (d : Data)
    (cache : Option Cache) (h : (d.dispatchCache env db cache).started = false) :
    (d.dispatchCache env db cache).err ≠ none := by
  cases cache with
  | some c =>
    rcases hg : env.GetUndoneBlocks db (env.updateCacheInfo db c).cacheID with e | list
    · simp [Data.dispatchCache, hg]
    · simp [Data.dispatchCache, hg] at h
  | none =>
    rcases hn : (env.newCache db d (!d.existRootCache env)).2 with e | ⟨c, blockID⟩
    · simp [Data.dispatchCache, hn]
    · simp [Data.dispatchCache, hn] at h

lemma cacheEndDeferred_data {δ : Type} (env : SchedEnv δ) (db : δ) (d : Data)
    (err : Option String) (b : Bool) : (Data.cacheEndDeferred env db d err b).data = d := by
  cases err <;> rfl

lemma cacheEnd_count_ge {δ : Type} (env : SchedEnv δ) (db : δ) (d : Data)
    (doneCache : Cache) (isContinue : Bool) :
    d.cacheCount ≤ (d.cacheEnd env db doneCache isContinue).data.cacheCount := by
  have hc := (updateAndSaveCacheEndInfo_counts env db d doneCache).1
  unfold Data.cacheEnd
  simp only []
  split
  · rw [cacheEndDeferred_data, hc]
  · split
    · rw [cacheEndDeferred_data, hc]
    · split
      · rw [cacheEndDeferred_data, hc]
      · split
        · rw [cacheEndDeferred_data, hc]
        · rw [cacheEndDeferred_data, dispatchCache_count, hc]
          split <;> omega

lemma dispatchCaches_count {δ : Type} (env : SchedEnv δ) (caches : List (Option Cache))
    (db : δ) (d : Data) :
    (Data.dispatchCaches env db d caches).2.1.cacheCount =
      d.cacheCount + ((Data.dispatchCaches env db d caches).2.2 : Int) := by
  induction caches generalizing db d with
  | nil => simp [Data.dispatchCaches]
  | cons cache rest ih =>
    simp only [Data.dispatchCaches]
    rw [ih, dispatchCache_count]
    split <;> push_cast <;> omega

/-- C25: a call of `dispatchCache` that reaches `startCache` increases
`cacheCount` by exactly 1, whatever `startCache` returns, and a call that
returns before (on an error of `GetUndoneBlocks` or of `newCache`) leaves
`cacheCount` unchanged; so after any sequence of calls on a record the
`cacheCount` is its first value plus the number of calls that reached
`startCache`. `updateAndSaveCacheingInfo` and `updateAndSaveCacheEndInfo`
leave `cacheCount` unchanged and `cacheEnd` does not decrease it. -/
theorem dispatchCache_cacheCount {δ : Type} (env : SchedEnv δ) (db : δ) (d : Data)
    (cache : Option Cache) :
    ((d.dispatchCache env db cache).started = true →
      (d.dispatchCache env db cache).data.cacheCount = d.cacheCount + 1) ∧
    ((d.dispatchCache env db cache).started = false →
      (d.dispatchCache env db cache).data.cacheCount = d.cacheCount ∧
      (d.dispatchCache env db cache).err ≠ none) ∧
    ((d.dispatchCache env db cache).started = true ↔
      match cache with
      | some c => ∃ list, env.GetUndoneBlocks db (env.updateCacheInfo db c).cacheID = .ok list
      | none => ∃ made, (env.newCache db d (!d.existRootCache env)).2 = .ok made) ∧
    (∀ startCache2 : δ → Cache → List (String × String) → δ × Option String,
      (d.dispatchCache { env with startCache := startCache2 } db cache).data.cacheCount =
        (d.dispatchCache env db cache).data.cacheCount) ∧
    (∀ caches, (Data.dispatchCaches env db d caches).2.1.cacheCount =
      d.cacheCount + ((Data.dispatchCaches env db d caches).2.2 : Int)) ∧
    (∀ doneCache, (d.updateAndSaveCacheEndInfo env db doneCache).data.cacheCount =
      d.cacheCount) ∧
    (∀ save blockInfo c createBlocks,
      (d.updateAndSaveCacheingInfo env save db blockInfo c createBlocks).data.cacheCount =
        d.cacheCount) ∧
    (∀ doneCache isContinue,
      d.cacheCount ≤ (d.cacheEnd env db doneCache isContinue).data.cacheCount) := by
  refine ⟨?_, ?_, dispatchCache_started_iff env db d cache, ?_,
    fun caches => dispatchCaches_count env caches db d,
    fun doneCache => (updateAndSaveCacheEndInfo_counts env db d doneCache).1, ?_,
    fun doneCache isContinue => cacheEnd_count_ge env db d doneCache isContinue⟩
  · intro h
    rw [dispatchCache_count, h]
    rfl
  · intro h
    refine ⟨?_, dispatchCache_not_started env db d cache h⟩
    rw [dispatchCache_count, h]
    simp
  · intro startCache2
    rw [dispatchCache_count, dispatchCache_count]
    have hs : (d.dispatchCache { env with startCache := startCache2 } db cache).started =
        (d.dispatchCache env db cache).started := by
      have hex : Data.existRootCache { env with startCache := startCache2 } d =
          d.existRootCache env := rfl
      cases cache with
      | some c =>
        simp only [Data.dispatchCache]
        split <;> rfl
      | none =>
        simp only [Data.dispatchCache, hex]
        split <;> rfl
    rw [hs]
  · intro save blockInfo c createBlocks
    rw [updateAndSaveCacheingInfo_data]
    split <;> rfl

/-- C25 at a carfile newly admitted, on a scheduler whose `startCache` fails:
the call returns the error and `cacheCount` is 1 all the same. -/
theorem dispatchCache_cacheCount_witness :
    (freshData.dispatchCache failingStartSched 0 none).err = some "no node" ∧
    (freshData.dispatchCache failingStartSched 0 none).data.cacheCount =
      freshData.cacheCount + 1 :=
  ⟨by decide,
   (dispatchCache_cacheCount failingStartSched 0 freshData none).1 (by decide)⟩

/-! ### C26: the pairs `(cache_id, cid_hash)` of the block rows -/

lemma insertBlock_unique {db db1 : SqlDB} {b : BlockInfo} (h : db.insertBlock b = some db1)
    (hu : UniqueCacheCid db.blockInfo) : UniqueCacheCid db1.blockInfo := by
  unfold SqlDB.insertBlock at h
  split at h
  · cases h
  · rename_i hany
    cases h
    unfold UniqueCacheCid at hu ⊢
    rw [List.pairwise_append]
    refine ⟨hu, List.pairwise_singleton _ _, ?_⟩
    intro a ha b0 hb0
    rw [List.mem_singleton] at hb0
    subst hb0
    intro hk
    apply hany
    rw [List.any_eq_true]
    exact ⟨a, ha, by simp [hk.1, hk.2]⟩

lemma insertCache_blocks {db db1 : SqlDB} {c : CacheRow} (h : db.insertCache c = some db1) :
    db1.blockInfo = db.blockInfo := by
  unfold SqlDB.insertCache at h
  split at h
  · cases h
  · cases h
    rfl

lemma unique_map_of_keys (rows : List BlockInfo) (f : BlockInfo → BlockInfo)
    (hf : ∀ b, (f b).CacheID = b.CacheID ∧ (f b).CIDHash = b.CIDHash)
    (hu : UniqueCacheCid rows) : UniqueCacheCid (rows.map f) := by
  unfold UniqueCacheCid at hu ⊢
  rw [List.pairwise_map]
  refine hu.imp ?_
  intro a b hab
  rw [(hf a).1, (hf a).2, (hf b).1, (hf b).2]
  exact hab

lemma saveCreateBlocks_unique (uuid : SqlDB → String) (createBlocks : List BlockInfo)
    (db db1 : SqlDB) (h : SqlDB.saveCreateBlocks uuid db createBlocks = some db1)
    (hu : UniqueCacheCid db.blockInfo) : UniqueCacheCid db1.blockInfo := by
  induction createBlocks generalizing db with
  | nil =>
    simp only [SqlDB.saveCreateBlocks, Option.some.injEq] at h
    rw [← h]
    exact hu
  | cons info rest ih =>
    unfold SqlDB.saveCreateBlocks at h
    split at h
    · refine ih _ h ?_
      apply unique_map_of_keys _ _ _ hu
      intro b
      split <;> exact ⟨rfl, rfl⟩
    · split at h
      · cases h
      · rename_i db2 hins
        exact ih db2 h (insertBlock_unique hins hu)

lemma call_unique (env : SqlEnv) (uuid : SqlDB → String) (c : SqlCall) (db : SqlDB)
    (hu : UniqueCacheCid db.blockInfo) : UniqueCacheCid (db.call env uuid c).blockInfo := by
  cases c with
  | CreateCache cInfo bInfo =>
    simp only [SqlDB.call]
    cases hc : db.CreateCache cInfo bInfo with
    | none => exact hu
    | some db1 =>
      simp only [Option.getD_some]
      unfold SqlDB.CreateCache at hc
      split at hc
      · cases hc
      · rename_i db0 h0
        refine insertBlock_unique hc ?_
        rw [insertCache_blocks h0]
        exact hu
  | SaveCacheingResults dInfo cInfo blockResult createBlocks =>
    simp only [SqlDB.call]
    cases hc : db.SaveCacheingResults env uuid dInfo cInfo blockResult createBlocks with
    | none => exact hu
    | some db1 =>
      simp only [Option.getD_some]
      unfold SqlDB.SaveCacheingResults at hc
      refine saveCreateBlocks_unique uuid createBlocks _ db1 hc ?_
      cases dInfo <;> cases cInfo <;> cases blockResult <;>
        first
        | exact hu
        | (apply unique_map_of_keys _ _ _ hu
           intro b
           split <;> exact ⟨rfl, rfl⟩)

/-- C26: on a block table with the keys that the spec gives it, after any
sequence of calls of `CreateCache` and `SaveCacheingResults` that starts from
empty tables no two block rows have the same pair `(cache_id, cid_hash)`; and
from any tables of which this holds, it holds after every such sequence. (A
call whose `INSERT` would repeat a pair is refused by the server, `MustExec`
panics and nothing of the call is committed.) -/
theorem block_rows_unique_cache_cid (env : SqlEnv) (uuid : SqlDB → String)
    (cs : List SqlCall) :
    UniqueCacheCid (emptySql.calls env uuid cs).blockInfo ∧
    (∀ db : SqlDB, UniqueCacheCid db.blockInfo →
      UniqueCacheCid (db.calls env uuid cs).blockInfo) := by
  have hall : ∀ db : SqlDB, UniqueCacheCid db.blockInfo →
      UniqueCacheCid (db.calls env uuid cs).blockInfo := by
    induction cs with
    | nil => intro db hu; exact hu
    | cons c rest ih =>
      intro db hu
      unfold SqlDB.calls
      rw [List.foldl_cons]
      exact ih _ (call_unique env uuid c db hu)
  exact ⟨hall emptySql List.Pairwise.nil, hall⟩

/-- C26 at a sequence in which the second call would repeat the pair of the
root block: that call commits nothing, and the table ends with the root block
and the block `cid2` of the third call. -/
theorem block_rows_unique_cache_cid_witness :
    (emptySql.calls sampleSql sampleUuid sampleCalls).blockInfo.map
        (fun b => (b.ID, b.CacheID, b.CIDHash)) =
      [("b1", "c1", "cid1"), ("uu", "c1", "cid2")] ∧
    UniqueCacheCid (emptySql.calls sampleSql sampleUuid (sampleCalls.take 1)).blockInfo ∧
    UniqueCacheCid
      ((emptySql.calls sampleSql sampleUuid (sampleCalls.take 1)).calls sampleSql sampleUuid
        (sampleCalls.drop 1)).blockInfo :=
  ⟨by decide, by unfold UniqueCacheCid; decide,
   (block_rows_unique_cache_cid sampleSql sampleUuid (sampleCalls.drop 1)).2
     (emptySql.calls sampleSql sampleUuid (sampleCalls.take 1))
     (by unfold UniqueCacheCid; decide)⟩

/-! ### C27: termination of `loadBlocks` -/

lemma loadRoundsFuel_spec {σ : Type} (env : Env σ) (fuel : Nat) (st : σ)
    (reqs : List delayReq)
    (h : ∀ r ∈ reqs, (env.BlockDownloadRetryNum - r.count).toNat ≤ fuel) :
    ∃ loaded rest, loadRoundsFuel env (fuel + 1) st reqs = some ((reqs, loaded) :: rest) ∧
      rest.length ≤ fuel ∧ List.Chain (RetryStep env) (reqs, loaded) rest ∧
      ∀ rd ∈ (reqs, loaded) :: rest, rd.2.Sublist rd.1 := by
  induction fuel generalizing st reqs with
  | zero =>
    rw [loadRoundsFuel]
    simp only []
    split
    · exact ⟨[], [], rfl, le_refl _, List.Chain.nil, by simp⟩
    · have hsub := filterAvailableReq_results_sublist env st reqs
      split
      · exact ⟨_, [], rfl, le_refl _, List.Chain.nil, by simpa using hsub⟩
      · rename_i blocks hb
        split
        · rename_i hpos
          obtain ⟨r, hr⟩ := List.exists_mem_of_length_pos hpos
          obtain ⟨v, hv, hlt, _⟩ := retry_of_round env st reqs _ blocks hr
          have := h v hv
          omega
        · exact ⟨_, [], rfl, le_refl _, List.Chain.nil, by simpa using hsub⟩
  | succ n ih =>
    rw [loadRoundsFuel]
    simp only []
    split
    · exact ⟨[], [], rfl, Nat.zero_le _, List.Chain.nil, by simp⟩
    · have hsub := filterAvailableReq_results_sublist env st reqs
      split
      · exact ⟨_, [], rfl, Nat.zero_le _, List.Chain.nil, by simpa using hsub⟩
      · rename_i blocks hb
        split
        · have hnext : ∀ r ∈ (retryOrFail env (env.rangeOrder
              (saveLoaded env (env.blockLoader (filterAvailableReq env st reqs).store
                (filterAvailableReq env st reqs).results).1
                (buildReqMap (filterAvailableReq env st reqs).results) blocks).reqMap)).2,
              (env.BlockDownloadRetryNum - r.count).toNat ≤ n := by
            intro r hr
            obtain ⟨v, hv, hlt, rfl⟩ := retry_of_round env st reqs _ blocks hr
            have := h v hv
            simp only
            omega
          obtain ⟨loaded, rest, heq, hlen, hchain, hsubs⟩ := ih _ _ hnext
          rw [heq]
          refine ⟨_, _, rfl, ?_, ?_, ?_⟩
          · simp only [List.length_cons]
            omega
          · refine List.Chain.cons ?_ hchain
            intro r hr
            exact retry_of_round env st reqs _ blocks hr
          · intro rd hrd
            rcases List.mem_cons.1 hrd with hrd | hrd
            · rw [hrd]
              exact hsub
            · exact hsubs rd hrd
        · exact ⟨_, [], rfl, Nat.zero_le _, List.Chain.nil, by simpa using hsub⟩

lemma chain_exists_prev {α : Type} {R : α → α → Prop} {a : α} {l : List α}
    (h : List.Chain R a l) : ∀ b ∈ l, ∃ a0, R a0 b := by
  induction h with
  | nil => intro b hb; simp at hb
  | cons hab _ ih =>
    intro b hb
    rcases List.mem_cons.1 hb with rfl | hb
    · exact ⟨_, hab⟩
    · exact ih b hb

lemma foldr_max_le (l : List Nat) (n : Nat) (h : ∀ a ∈ l, a ≤ n) : l.foldr max 0 ≤ n := by
  induction l with
  | nil => exact Nat.zero_le _
  | cons b rest ih =>
    rw [List.foldr_cons]
    exact max_le (h b (List.mem_cons_self _ _)) (ih (fun a ha => h a (List.mem_cons_of_mem _ ha)))

/-- C27: `loadBlocks` returns for every batch. The calls it sets off are the
call itself and then, one from the other, the recursive calls; every placement
of a recursive call is a placement of the calling round whose count was below
`helper.BlockDownloadRetryNum`, with its count increased by one, so its count
is at most the retry number; the placements handed to the block loader in a
call are among the placements of the call; and the number of calls is at most
one more than the largest number of retries that a placement of the batch has
left. For a batch whose counts are not negative and a retry number that is not
negative, there are at most `helper.BlockDownloadRetryNum + 1` calls, so the
block loader is invoked at most that often for any placement. -/
theorem loadBlocks_terminates {σ : Type} (env : Env σ) (st : σ) (reqs : List delayReq) :
    (loadBlocks env st reqs).isSome = true ∧
    ∃ loaded rest, loadRounds env st reqs = some ((reqs, loaded) :: rest) ∧
      rest.length + 1 ≤ retryFuel env reqs ∧
      List.Chain (RetryStep env) (reqs, loaded) rest ∧
      (∀ rd ∈ (reqs, loaded) :: rest, rd.2.Sublist rd.1) ∧
      (∀ rd ∈ rest, ∀ r ∈ rd.1, r.count ≤ env.BlockDownloadRetryNum) ∧
      ((∀ r ∈ reqs, 0 ≤ r.count) → 0 ≤ env.BlockDownloadRetryNum →
        ((rest.length + 1 : Nat) : Int) ≤ env.BlockDownloadRetryNum + 1 ∧
        ∀ cid, ((((reqs, loaded) :: rest).filter (fun rd =>
            rd.2.any (fun r => decide (r.blockInfo.Cid = cid)))).length : Int) ≤
          env.BlockDownloadRetryNum + 1) := by
  refine ⟨loadBlocks_isSome env st reqs, ?_⟩
  have hfuel : ∀ r ∈ reqs, (env.BlockDownloadRetryNum - r.count).toNat ≤
      (reqs.map (fun r => (env.BlockDownloadRetryNum - r.count).toNat)).foldr max 0 :=
    fun r hr => le_foldr_max _ (List.mem_map_of_mem _ hr)
  obtain ⟨loaded, rest, heq, hlen, hchain, hsubs⟩ := loadRoundsFuel_spec env _ st reqs hfuel
  refine ⟨loaded, rest, heq, ?_, hchain, hsubs, ?_, ?_⟩
  · unfold retryFuel
    omega
  · intro rd hrd r hr
    obtain ⟨a0, ha0⟩ := chain_exists_prev hchain rd hrd
    obtain ⟨v, _, hlt, rfl⟩ := ha0 r hr
    simp only
    omega
  · intro hcount hretry
    have hmax : (reqs.map (fun r => (env.BlockDownloadRetryNum - r.count).toNat)).foldr max 0 ≤
        env.BlockDownloadRetryNum.toNat := by
      apply foldr_max_le
      intro a ha
      obtain ⟨r, hr, rfl⟩ := List.mem_map.1 ha
      have := hcount r hr
      omega
    have hcalls : ((rest.length + 1 : Nat) : Int) ≤ env.BlockDownloadRetryNum + 1 := by
      have h1 : rest.length + 1 ≤ env.BlockDownloadRetryNum.toNat + 1 := by omega
      have h2 : ((env.BlockDownloadRetryNum.toNat : Nat) : Int) = env.BlockDownloadRetryNum :=
        Int.toNat_of_nonneg hretry
      omega
    refine ⟨hcalls, ?_⟩
    intro cid
    have hle := List.length_filter_le (fun rd : List delayReq × List delayReq =>
      rd.2.any (fun r => decide (r.blockInfo.Cid = cid))) ((reqs, loaded) :: rest)
    rw [List.length_cons] at hle
    omega

/-- C27 on the sample node (retry number 3) with a loader that never returns a
block: a batch of one placement with count 0 sets off four calls, with the
counts 0, 1, 2 and 3, and no more than `3 + 1`. -/
theorem loadBlocks_terminates_witness :
    (loadRounds emptyLoaderEnv 0 [samplePlacement "c1" 1 0]).map
        (fun rounds => rounds.map (fun rd => rd.2.map (fun r => r.count))) =
      some [[0], [1], [2], [3]] ∧
    ∃ loaded rest,
      loadRounds emptyLoaderEnv 0 [samplePlacement "c1" 1 0] =
        some (([samplePlacement "c1" 1 0], loaded) :: rest) ∧
      ((rest.length + 1 : Nat) : Int) ≤ emptyLoaderEnv.BlockDownloadRetryNum + 1 := by
  refine ⟨by decide, ?_⟩
  obtain ⟨loaded, rest, h1, _, _, _, _, h6⟩ :=
    (loadBlocks_terminates emptyLoaderEnv 0 [samplePlacement "c1" 1 0]).2
  exact ⟨loaded, rest, h1, (h6 (by decide) (by decide)).1⟩

/-! ### C28: `apiReq2DelayReq` -/

lemma string_length_eq_zero (s : String) : s.length = 0 ↔ s = "" := by
  constructor
  · intro h
    cases s with
    | mk data =>
      have hd : data = [] := List.length_eq_zero.1 h
      rw [hd]
  · intro h
    subst h
    rfl

/-- C28: `apiReq2DelayReq` returns, in the order of `BlockInfos`, one delayed
request for each placement of the request whose `Cid` is not empty and none for
a placement with an empty `Cid`; each has count 0, the `DownloadURL`, the
`DownloadToken`, the carfile hash and the `CacheID` of the request and the
placement with its `Cid` and `Fid` as they are. -/
theorem apiReq2DelayReq_items (req : ReqCacheData) :
    apiReq2DelayReq req =
      (req.BlockInfos.filter (fun b => decide (b.Cid ≠ ""))).map (fun b =>
        { blockInfo := b, count := 0, downloadURL := req.DownloadURL,
          downloadToken := req.DownloadToken, carFileHash := req.CardFileHash,
          CacheID := req.CacheID }) ∧
    (apiReq2DelayReq req).map (fun r => r.blockInfo) =
      req.BlockInfos.filter (fun b => decide (b.Cid ≠ "")) ∧
    (∀ r ∈ apiReq2DelayReq req,
      r.count = 0 ∧ r.downloadURL = req.DownloadURL ∧ r.downloadToken = req.DownloadToken ∧
      r.carFileHash = req.CardFileHash ∧ r.CacheID = req.CacheID ∧
      r.blockInfo ∈ req.BlockInfos ∧ r.blockInfo.Cid ≠ "") := by
  have hform : apiReq2DelayReq req =
      (req.BlockInfos.filter (fun b => decide (b.Cid ≠ ""))).map (fun b =>
        { blockInfo := b, count := 0, downloadURL := req.DownloadURL,
          downloadToken := req.DownloadToken, carFileHash := req.CardFileHash,
          CacheID := req.CacheID }) := by
    unfold apiReq2DelayReq
    induction req.BlockInfos with
    | nil => rfl
    | cons b rest ih =>
      rw [List.filterMap_cons, List.filter_cons]
      by_cases hb : b.Cid = ""
      · have hlen : b.Cid.length = 0 := (string_length_eq_zero _).2 hb
        simp only [hlen, if_true, hb, ne_eq, not_true_eq_false, decide_False]
        exact ih
      · have hlen : ¬ b.Cid.length = 0 := fun h => hb ((string_length_eq_zero _).1 h)
        simp only [hlen, if_false, hb, ne_eq, not_false_eq_true, decide_True, if_true,
          List.map_cons]
        rw [ih]
  refine ⟨hform, ?_, ?_⟩
  · rw [hform, List.map_map]
    exact List.map_id _
  · intro r hr
    rw [hform] at hr
    obtain ⟨b, hb, rfl⟩ := List.mem_map.1 hr
    have hb2 := List.mem_filter.1 hb
    exact ⟨rfl, rfl, rfl, rfl, rfl, hb2.1, by simpa using hb2.2⟩

/-! ### C29: no Success cache on the device that quits -/

/-- C29: when no cache row with status Success has the cache id of a block row
of the device, `UpdateCacheInfoOfQuitNode` returns the error Not Found, for
which `IsNilErr` is true, with count 0 and an empty reliability map, and leaves
the three tables as they are. -/
theorem updateCacheInfoOfQuitNode_not_found (db : SqlDB) (env : SqlEnv) (deviceID : String)
    (h : ∀ c ∈ db.cacheInfo, c.Status = CacheStatus.Success →
      ∀ b ∈ db.blockInfo, b.DeviceID = deviceID → b.CacheID ≠ c.CacheID) :
    (db.UpdateCacheInfoOfQuitNode env deviceID).err = some errNotFind ∧
    (∀ e, (db.UpdateCacheInfoOfQuitNode env deviceID).err = some e → IsNilErr e = true) ∧
    (db.UpdateCacheInfoOfQuitNode env deviceID).successCacheCount = 0 ∧
    (db.UpdateCacheInfoOfQuitNode env deviceID).carfileReliabilitys = [] ∧
    (db.UpdateCacheInfoOfQuitNode env deviceID).db = db := by
  have hS : db.successCachesOfDevice deviceID = [] := by
    unfold SqlDB.successCachesOfDevice
    rw [List.filter_eq_nil_iff]
    intro c hc hsel
    simp only [Bool.and_eq_true, decide_eq_true_eq, List.any_eq_true] at hsel
    obtain ⟨hs, b, hb, hd, hid⟩ := hsel
    exact h c hc hs b hb hd hid
  have hlen : (env.cacheOrder (db.successCachesOfDevice deviceID)).length ≤ 0 := by
    rw [(env.cacheOrder_perm _).length_eq, hS]
    simp
  have hres : db.UpdateCacheInfoOfQuitNode env deviceID =
      { db := db, successCacheCount := 0, carfileReliabilitys := [],
        err := some errNotFind } := by
    unfold SqlDB.UpdateCacheInfoOfQuitNode
    simp only
    rw [if_pos hlen]
  rw [hres]
  refine ⟨rfl, ?_, rfl, rfl, rfl⟩
  intro e he
  simp only [Option.some.injEq] at he
  rw [← he]
  simp [IsNilErr]

/-- C29 at the tables with one running attempt: the call for a device without
any block returns Not Found and the tables are unchanged. -/
theorem updateCacheInfoOfQuitNode_not_found_witness :
    (runningSampleDB.UpdateCacheInfoOfQuitNode sampleSql "E9").err = some "Not Found" ∧
    (runningSampleDB.UpdateCacheInfoOfQuitNode sampleSql "E9").db = runningSampleDB :=
  ⟨(updateCacheInfoOfQuitNode_not_found runningSampleDB sampleSql "E9" (by decide)).1,
   (updateCacheInfoOfQuitNode_not_found runningSampleDB sampleSql "E9" (by decide)).2.2.2.2⟩

/-- C28 at the sample request with a third placement whose `Cid` is empty: two
delayed requests, for `c1` and `c2`. -/
theorem apiReq2DelayReq_items_witness :
    (apiReq2DelayReq { sampleReq with
        BlockInfos := sampleReq.BlockInfos ++ [{ Cid := "", Fid := 3 }] }).map
        (fun r => (r.blockInfo.Cid, r.blockInfo.Fid, r.count)) =
      [("c1", 1, 0), ("c2", 2, 0)] ∧
    (apiReq2DelayReq { sampleReq with
        BlockInfos := sampleReq.BlockInfos ++ [{ Cid := "", Fid := 3 }] }).map
        (fun r => r.blockInfo) =
      [{ Cid := "c1", Fid := 1 }, { Cid := "c2", Fid := 2 }] :=
  ⟨by decide,
   (apiReq2DelayReq_items { sampleReq with
      BlockInfos := sampleReq.BlockInfos ++ [{ Cid := "", Fid := 3 }] }).2.1.trans
      (by decide)⟩

/-- C24 on a store that holds `c1`, where `locked` cannot be deleted: of the CIDs
`c1`, `locked` and `c9` only `locked` gets an entry. -/
theorem deleteBlocks_results_witness :
    (DeleteBlocks sampleDeleteBlock ["c1"] ["c1", "locked", "c9"]).2.1 =
      [{ Cid := "locked", ErrMsg := "permission denied" }] ∧
    (DeleteBlocks sampleDeleteBlock ["c1"] ["c1", "locked", "c9"]).2.2 = none ∧
    (DeleteBlocks sampleDeleteBlock ["c1"] ["c1", "locked", "c9"]).1 = [] :=
  ⟨(deleteBlocks_results sampleDeleteBlock ["c1"] ["c1", "locked", "c9"]).2.1.trans
      (by decide),
   (deleteBlocks_results sampleDeleteBlock ["c1"] ["c1", "locked", "c9"]).1,
   by decide⟩

/-! ### C30: `getUndoneCache` -/

lemma getUndoneCache_fold (l : List (String × Cache)) :
    (((l.foldl (fun (acc : Option Cache × Option Cache) p =>
        if p.2.status ≠ CacheStatus.Success then
          (some p.2, if p.2.isRootCache then some p.2 else acc.2)
        else acc) (none, none)).1 = none ↔ ∀ p ∈ l, p.2.status = CacheStatus.Success) ∧
     (∀ c, (l.foldl (fun (acc : Option Cache × Option Cache) p =>
        if p.2.status ≠ CacheStatus.Success then
          (some p.2, if p.2.isRootCache then some p.2 else acc.2)
        else acc) (none, none)).1 = some c →
        (∃ p ∈ l, p.2 = c) ∧ c.status ≠ CacheStatus.Success) ∧
     ((l.foldl (fun (acc : Option Cache × Option Cache) p =>
        if p.2.status ≠ CacheStatus.Success then
          (some p.2, if p.2.isRootCache then some p.2 else acc.2)
        else acc) (none, none)).2 = none ↔
        ∀ p ∈ l, p.2.status ≠ CacheStatus.Success → p.2.isRootCache = false) ∧
     (∀ c, (l.foldl (fun (acc : Option Cache × Option Cache) p =>
        if p.2.status ≠ CacheStatus.Success then
          (some p.2, if p.2.isRootCache then some p.2 else acc.2)
        else acc) (none, none)).2 = some c →
        (∃ p ∈ l, p.2 = c) ∧ c.status ≠ CacheStatus.Success ∧ c.isRootCache = true)) := by
  induction l using List.reverseRecOn with
  | nil => simp
  | append_singleton l a ih =>
    obtain ⟨h1, h2, h3, h4⟩ := ih
    rw [List.foldl_append, List.foldl_cons, List.foldl_nil]
    by_cases hs : a.2.status = CacheStatus.Success
    · have hn : ¬ a.2.status ≠ CacheStatus.Success := fun h => h hs
      rw [if_neg hn]
      refine ⟨?_, ?_, ?_, ?_⟩
      · rw [h1]
        simp only [List.mem_append, List.mem_singleton]
        constructor
        · rintro h p (hp | rfl)
          · exact h p hp
          · exact hs
        · intro h p hp
          exact h p (Or.inl hp)
      · intro c hc
        obtain ⟨⟨p, hp, hpc⟩, hcs⟩ := h2 c hc
        exact ⟨⟨p, List.mem_append_left _ hp, hpc⟩, hcs⟩
      · rw [h3]
        simp only [List.mem_append, List.mem_singleton]
        constructor
        · rintro h p (hp | rfl) hps
          · exact h p hp hps
          · exact absurd hs hps
        · intro h p hp
          exact h p (Or.inl hp)
      · intro c hc
        obtain ⟨⟨p, hp, hpc⟩, hcs⟩ := h4 c hc
        exact ⟨⟨p, List.mem_append_left _ hp, hpc⟩, hcs⟩
    · have hn : a.2.status ≠ CacheStatus.Success := hs
      rw [if_pos hn]
      refine ⟨?_, ?_, ?_, ?_⟩
      · simp only [List.mem_append, List.mem_singleton]
        constructor
        · intro h
          cases h
        · intro h
          exact absurd (h a (Or.inr rfl)) hs
      · intro c hc
        simp only [Option.some.injEq] at hc
        exact ⟨⟨a, by simp, hc⟩, hc ▸ hs⟩
      · by_cases hr : a.2.isRootCache = true
        · simp only [hr, if_true, List.mem_append, List.mem_singleton]
          constructor
          · intro h
            cases h
          · intro h
            have := h a (Or.inr rfl) hs
            rw [hr] at this
            cases this
        · rw [if_neg hr, h3]
          simp only [List.mem_append, List.mem_singleton]
          constructor
          · rintro h p (hp | rfl) hps
            · exact h p hp hps
            · simpa using hr
          · intro h p hp
            exact h p (Or.inl hp)
      · intro c hc
        by_cases hr : a.2.isRootCache = true
        · simp only [hr, if_true, Option.some.injEq] at hc
          exact ⟨⟨a, by simp, hc⟩, hc ▸ hs, hc ▸ hr⟩
        · rw [if_neg hr] at hc
          obtain ⟨⟨p, hp, hpc⟩, hcs⟩ := h4 c hc
          exact ⟨⟨p, List.mem_append_left _ hp, hpc⟩, hcs⟩

/-- C30: for every cache map and every visiting order of `Range`,
`getUndoneCache` returns nil exactly when every attempt in the map has status
Success; an attempt that it returns is in the map and its status is not
Success; and when some attempt in the map with a status other than Success is
a root attempt, it returns a root attempt. -/
theorem getUndoneCache_result {δ : Type} (env : SchedEnv δ) (d : Data) :
    (d.getUndoneCache env = none ↔ ∀ p ∈ d.CacheMap, p.2.status = CacheStatus.Success) ∧
    (∀ c, d.getUndoneCache env = some c →
      (∃ p ∈ d.CacheMap, p.2 = c) ∧ c.status ≠ CacheStatus.Success) ∧
    ((∃ p ∈ d.CacheMap, p.2.status ≠ CacheStatus.Success ∧ p.2.isRootCache = true) →
      ∃ c, d.getUndoneCache env = some c ∧ c.isRootCache = true ∧
        c.status ≠ CacheStatus.Success ∧ ∃ p ∈ d.CacheMap, p.2 = c) := by
  obtain ⟨h1, h2, h3, h4⟩ := getUndoneCache_fold (env.cacheRange d.CacheMap)
  have hmem : ∀ p, p ∈ env.cacheRange d.CacheMap ↔ p ∈ d.CacheMap :=
    fun p => (env.cacheRange_perm d.CacheMap).mem_iff
  simp only [hmem] at h1 h2 h3 h4
  unfold Data.getUndoneCache
  simp only []
  refine ⟨?_, ?_, ?_⟩
  · split
    · rename_i r hr
      constructor
      · intro h
        cases h
      · intro hall
        obtain ⟨⟨p, hp, hpc⟩, hcs, _⟩ := h4 r hr
        exact absurd (hpc ▸ hall p hp) hcs
    · exact h1
  · intro c hc
    split at hc
    · rename_i r hr
      simp only [Option.some.injEq] at hc
      obtain ⟨hp, hcs, _⟩ := h4 r hr
      exact hc ▸ ⟨hp, hcs⟩
    · exact h2 c hc
  · rintro ⟨p, hp, hps, hpr⟩
    split
    · rename_i r hr
      obtain ⟨hin, hcs, hroot⟩ := h4 r hr
      exact ⟨r, rfl, hroot, hcs, hin⟩
    · rename_i hnone
      have := (h3.1 hnone) p hp hps
      rw [hpr] at this
      cases this

/-- C30 at the sample carfile whose root attempt has failed, with a second
attempt running: the root attempt is returned. -/
theorem getUndoneCache_result_witness :
    ∃ c, ({ failedRootData with
            CacheMap := failedRootData.CacheMap ++ [("cache2", otherCache)] } : Data).getUndoneCache
          sampleSched = some c ∧ c.isRootCache = true ∧ c.cacheID = "cache1" := by
  obtain ⟨c, h1, h2, h3, p, hp, hpc⟩ :=
    (getUndoneCache_result sampleSched
      { failedRootData with
        CacheMap := failedRootData.CacheMap ++ [("cache2", otherCache)] }).2.2
      ⟨("cache1", sampleCache CacheStatus.Failed), by decide, by decide, rfl⟩
  refine ⟨c, h1, h2, ?_⟩
  have hc : ({ failedRootData with
      CacheMap := failedRootData.CacheMap ++ [("cache2", otherCache)] } : Data).getUndoneCache
      sampleSched = some (sampleCache CacheStatus.Failed) := by decide
  rw [hc] at h1
  simp only [Option.some.injEq] at h1
  rw [← h1]
  rfl

end Titan
